import Mathlib

/-!
Structural adjustment of a worksheet (`internal/excelize/adjust.go`).

A shallow embedding of the row/column adjustment engine: the functions of
`adjust.go` are translated one by one into pure functions over an explicit
worksheet state.

Modelling conventions.
* Go `int` is modelled by `Int`; the values are sheet coordinates and edit
  counts, far below `2^63`, so no wrap-around is modelled.
* Go `string` is modelled by `String`, read through its list of characters.
* A Go function that returns `(value, error)` is modelled by `Except`; where
  the caller discards the error (`x, _ = f()`), the value that accompanies
  the error is made explicit at the call site.
* In-place mutation of the worksheet is modelled by state passing.
* A Go run-time panic (slice bounds out of range) is a separate outcome.
-/

deriving instance DecidableEq for Except

namespace Excelize

/-- Errors returned by the package. `ErrParameterInvalid` and `ErrCoordinates`
are named in `adjust.go`; the other two are the codec's failure kinds. -/
inductive Error where
  | ErrParameterInvalid
  | ErrCoordinates
  | InvalidReference
  | InvalidCoordinate
  deriving DecidableEq, Repr

/-- The type `adjustDirection` with its two constants `columns` and `rows`. -/
inductive adjustDirection where
  | columns
  | rows
  deriving DecidableEq, Repr

/-! ## Coordinate codec -/

/-- Upper-case letter test used by the cell-reference grammar. -/
def isColLetter (c : Char) : Bool := decide (65 ≤ c.toNat) && decide (c.toNat ≤ 90)

/-- Decimal digit test used by the cell-reference grammar. -/
def isRowDigit (c : Char) : Bool := decide (48 ≤ c.toNat) && decide (c.toNat ≤ 57)

/-- Loop of `ColumnNumberToName`: prepend the letter of `(num-1) % 26` and
continue with `(num-1) / 26` while `num > 0`. -/
def columnLetters : Nat → Nat → List Char → List Char
  | 0, _, acc => acc
  | fuel + 1, num, acc =>
    if num = 0 then acc
    else columnLetters fuel ((num - 1) / 26) (Char.ofNat ((num - 1) % 26 + 65) :: acc)

/-- Modelled from the spec: `ColumnNumberToName` is not in `adjust.go`; the
column letters A–Z, AA–ZZ, … of a column number. -/
def ColumnNumberToName (num : Nat) : List Char := columnLetters num num []

/-- Modelled from the spec: `ColumnNameToNumber` is not in `adjust.go`; the
column number of a word of letters A–Z. -/
def ColumnNameToNumber (name : List Char) : Nat :=
  name.foldl (fun acc c => acc * 26 + (c.toNat - 64)) 0

/-- Decimal digits of a row number, most significant first. -/
def rowDigits : Nat → Nat → List Char → List Char
  | 0, _, acc => acc
  | fuel + 1, n, acc =>
    if n < 10 then Char.ofNat (n + 48) :: acc
    else rowDigits fuel (n / 10) (Char.ofNat (n % 10 + 48) :: acc)

/-- Decimal text of a natural number (`strconv.Itoa` on a non-negative value). -/
def itoa (n : Nat) : List Char := rowDigits (n + 1) n []

/-- Value of a word of decimal digits (`strconv.Atoi` on a digit string). -/
def atoi (ds : List Char) : Nat :=
  ds.foldl (fun acc c => acc * 10 + (c.toNat - 48)) 0

/-- Modelled from the spec: `SplitCellName` is not in `adjust.go`; a cell
reference is column letters A–Z followed by a 1-based decimal row number, and
is split into the letters and the row; anything else is `InvalidReference`. -/
def SplitCellName (cell : String) : Except Error (String × Int) :=
  let letters := cell.data.takeWhile isColLetter
  let digits := cell.data.dropWhile isColLetter
  if letters = [] ∨ digits = [] ∨ digits.all isRowDigit = false then
    .error .InvalidReference
  else if atoi digits < 1 then .error .InvalidReference
  else .ok (String.mk letters, (atoi digits : Int))

/-- Modelled from the spec: `JoinCellName` is not in `adjust.go`; the inverse
of `SplitCellName`, failing on an empty or non-letter column name and on a
row below 1. -/
def JoinCellName (col : String) (row : Int) : Except Error String :=
  if col.data = [] ∨ col.data.all isColLetter = false then .error .InvalidCoordinate
  else if row < 1 then .error .InvalidCoordinate
  else .ok (String.mk (col.data ++ itoa row.toNat))

/-- Modelled from the spec: `CellNameToCoordinates` (`decode`) is not in
`adjust.go`; parses a cell reference into `(column, row)`, failing with
`InvalidReference` when the text does not match the letter+digit grammar. -/
def CellNameToCoordinates (cell : String) : Except Error (Int × Int) :=
  match SplitCellName cell with
  | .error e => .error e
  | .ok (col, row) => .ok ((ColumnNameToNumber col.data : Int), row)

/-- Modelled from the spec: `CoordinatesToCellName` (`encode`) is not in
`adjust.go`; fails with `InvalidCoordinate` if `col < 1` or `row < 1`. -/
def CoordinatesToCellName (col row : Int) : Except Error String :=
  if col < 1 ∨ row < 1 then .error .InvalidCoordinate
  else .ok (String.mk (ColumnNumberToName col.toNat ++ itoa row.toNat))

/-- The pair a caller sees when it discards the error of
`CellNameToCoordinates` (`c, r, _ := CellNameToCoordinates(ref)`): the decoded
coordinates, or `(-1, -1)` beside an error. -/
def coordinatesOrDefault (cell : String) : Int × Int :=
  match CellNameToCoordinates cell with
  | .ok p => p
  | .error _ => (-1, -1)

/-- The string a caller sees when it discards the error of a codec call
(`s, _ = CoordinatesToCellName(c, r)`): the name, or the empty string beside
an error. -/
def nameOrEmpty (r : Except Error String) : String :=
  match r with
  | .ok s => s
  | .error _ => ""

/-! ## The shared shifting rule -/

/-- The method `adjustMergeCellsHelper`: shift `pivot` by `offset` when it is
at or after `num`, never below 1. This is the method on unbounded integers; it
agrees with `adjustMergeCellsHelperInt64` whenever `pivot + offset` is inside
the 64-bit range, as it is for sheet coordinates and edit counts. -/
def adjustMergeCellsHelper (pivot num offset : Int) : Int :=
  if pivot ≥ num then
    let pivot := pivot + offset
    if pivot < 1 then 1 else pivot
  else pivot

/-- A value of Go's `int` (64 bits, two's complement). -/
def inInt64 (x : Int) : Prop :=
  -9223372036854775808 ≤ x ∧ x ≤ 9223372036854775807

instance (x : Int) : Decidable (inInt64 x) :=
  inferInstanceAs (Decidable (_ ∧ _))

/-- The result of an `int` addition in Go: the sum reduced to the 64-bit
two's-complement range. -/
def wrapInt64 (x : Int) : Int :=
  (x + 9223372036854775808) % 18446744073709551616 - 9223372036854775808

/-- The method `adjustMergeCellsHelper` on Go's `int`: the statement
`pivot += offset` wraps around at 64 bits. -/
def adjustMergeCellsHelperInt64 (pivot num offset : Int) : Int :=
  if pivot ≥ num then
    let pivot := wrapInt64 (pivot + offset)
    if pivot < 1 then 1 else pivot
  else pivot

/-! ## Range references -/

/-- The call `strings.Replace(ref, "$", "", -1)`: every `$` is dropped. -/
def removeDollars (ref : String) : String :=
  String.mk (ref.data.filter (fun c => c != '$'))

/-- The call `strings.Split(s, ":")` on a list of characters, as the first
part and the list of the parts after it (a string without `:` has one part). -/
def splitColon : List Char → List Char × List (List Char)
  | [] => ([], [])
  | c :: cs =>
    if c = ':' then ([], (splitColon cs).1 :: (splitColon cs).2)
    else (c :: (splitColon cs).1, (splitColon cs).2)

/-- The parts of `strings.Split(s, ":")` as strings. -/
def stringsSplit (s : String) : List String :=
  String.mk (splitColon s.data).1 :: (splitColon s.data).2.map String.mk

/-- The function `areaRangeToCoordinates`: decode both corners of a range.
The Go function also hands back the partly filled slice beside an error; every
caller in `adjust.go` drops it, so only the error is kept. -/
def areaRangeToCoordinates (firstCell lastCell : String) :
    Except Error (Int × Int × Int × Int) :=
  match CellNameToCoordinates firstCell with
  | .error e => .error e
  | .ok (c0, c1) =>
    match CellNameToCoordinates lastCell with
    | .error e => .error e
    | .ok (c2, c3) => .ok (c0, c1, c2, c3)

/-- The method `areaRefToCoordinates`: drop `$`, split on `:`, require at
least two parts and decode the first two. -/
def areaRefToCoordinates (ref : String) : Except Error (Int × Int × Int × Int) :=
  match stringsSplit (removeDollars ref) with
  | first :: second :: _ => areaRangeToCoordinates first second
  | _ => .error .ErrParameterInvalid

/-- The method `coordinatesToAreaRef`: encode a slice of exactly four
coordinates as `first:last`. -/
def coordinatesToAreaRef (coordinates : List Int) : Except Error String :=
  match coordinates with
  | [c0, c1, c2, c3] =>
    match CoordinatesToCellName c0 c1 with
    | .error e => .error e
    | .ok firstCell =>
      match CoordinatesToCellName c2 c3 with
      | .error e => .error e
      | .ok lastCell => .ok (firstCell ++ ":" ++ lastCell)
  | _ => .error .ErrCoordinates

/-! ## Worksheet model -/

/-- Modelled from the spec: the type `xlsxC` is declared outside `adjust.go`;
a cell with its reference `R` and its content `V`. -/
structure xlsxC where
  R : String
  V : String
  deriving DecidableEq, Repr

/-- Modelled from the spec: the type `xlsxRow` is declared outside
`adjust.go`; a row with its number, hidden flag and cells. -/
structure xlsxRow where
  R : Int
  Hidden : Bool
  C : List xlsxC
  deriving DecidableEq, Repr

/-- Modelled from the spec: the type `xlsxHyperlink` is declared outside
`adjust.go`; an anchor reference and a relationship id. -/
structure xlsxHyperlink where
  Ref : String
  RID : String
  deriving DecidableEq, Repr

/-- Modelled from the spec: the type `xlsxMergeCell` is declared outside
`adjust.go`; a merge range with its reference. -/
structure xlsxMergeCell where
  Ref : String
  deriving DecidableEq, Repr

/-- Modelled from the spec: the type `xlsxMergeCells` is declared outside
`adjust.go`; the merge collection with its count field. The Go slice holds
pointers to distinct ranges; here it is the list of the ranges pointed to. -/
structure xlsxMergeCells where
  Count : Int
  Cells : List xlsxMergeCell
  deriving DecidableEq, Repr

/-- Modelled from the spec: the type `xlsxAutoFilter` is declared outside
`adjust.go`; the auto-filter with its range reference. -/
structure xlsxAutoFilter where
  Ref : String
  deriving DecidableEq, Repr

/-- Modelled from the spec: the type `xlsxWorksheet` is declared outside
`adjust.go`; the fields read by the adjusters. `SheetData` is
`ws.SheetData.Row`, `Hyperlinks` is `ws.Hyperlinks` (nil or its `Hyperlink`
slice), `MergeCells` and `AutoFilter` are nil or present. -/
structure xlsxWorksheet where
  SheetData : List xlsxRow
  Hyperlinks : Option (List xlsxHyperlink)
  MergeCells : Option xlsxMergeCells
  AutoFilter : Option xlsxAutoFilter
  deriving DecidableEq, Repr

/-- Modelled from the spec: the type `xlsxCalcChainC` is declared outside
`adjust.go`; a calculation-chain entry with its cell `R` and sheet id `I`. -/
structure xlsxCalcChainC where
  R : String
  I : Int
  deriving DecidableEq, Repr

/-- Modelled from the spec: the type `File` is declared outside `adjust.go`;
the calculation chain (nil or its `C` slice) and the relationship store, seen
through the calls made to `deleteSheetRelationships`. -/
structure File where
  CalcChain : Option (List xlsxCalcChainC)
  DeletedRelationships : List (String × String)
  deriving DecidableEq, Repr

/-- Modelled from the spec: `deleteSheetRelationships` is not in `adjust.go`;
the relationship store is notified of one removal `(sheet, rID)`, recorded in
call order. -/
def deleteSheetRelationships (f : File) (sheet rID : String) : File :=
  { f with DeletedRelationships := f.DeletedRelationships ++ [(sheet, rID)] }

/-- How a call ends: it returns (with or without an error) leaving a state,
it panics at run time, or the model's iteration budget is exhausted. -/
inductive Outcome (σ : Type) where
  | returned (err : Option Error) (s : σ)
  | panicked
  | outOfFuel
  deriving DecidableEq, Repr

/-! ## Row and column rewrite -/

/-- One cell of `adjustColDimensions`: decode the reference (error dropped),
and when the column is at or after `col` and the new column is positive,
store the re-encoded name (error dropped). -/
def adjustColCell (col offset : Int) (v : xlsxC) : xlsxC :=
  let cellCol := (coordinatesOrDefault v.R).1
  let cellRow := (coordinatesOrDefault v.R).2
  if col ≤ cellCol then
    let newCol := cellCol + offset
    if newCol > 0 then { v with R := nameOrEmpty (CoordinatesToCellName newCol cellRow) }
    else v
  else v

/-- The method `adjustColDimensions`. -/
def adjustColDimensions (ws : xlsxWorksheet) (col offset : Int) : xlsxWorksheet :=
  { ws with SheetData :=
      ws.SheetData.map (fun row => { row with C := row.C.map (adjustColCell col offset) }) }

/-- The column name a caller sees when it discards the error of
`SplitCellName` (`colName, _, _ := SplitCellName(ref)`): the letters, or the
empty string beside an error. -/
def colNameOrEmpty (cell : String) : String :=
  match SplitCellName cell with
  | .ok p => p.1
  | .error _ => ""

/-- The method `ajustSingleRowDimensions`: renumber the row and rewrite every
cell reference to its own column name joined with the new number. -/
def ajustSingleRowDimensions (r : xlsxRow) (num : Int) : xlsxRow :=
  { r with
    R := num
    C := r.C.map (fun col =>
      { col with R := nameOrEmpty (JoinCellName (colNameOrEmpty col.R) num) }) }

/-- One row of `adjustRowDimensions`. -/
def adjustRow (row offset : Int) (r : xlsxRow) : xlsxRow :=
  let newRow := r.R + offset
  if r.R ≥ row ∧ newRow > 0 then ajustSingleRowDimensions r newRow else r

/-- The method `adjustRowDimensions`. -/
def adjustRowDimensions (ws : xlsxWorksheet) (row offset : Int) : xlsxWorksheet :=
  { ws with SheetData := ws.SheetData.map (adjustRow row offset) }

/-! ## Hyperlinks -/

/-- The deletion test of `adjustHyperlinks` for one anchor. -/
def hyperlinkOnLine (dir : adjustDirection) (num : Int) (link : xlsxHyperlink) : Prop :=
  (dir = .rows ∧ num = (coordinatesOrDefault link.Ref).2) ∨
  (dir = .columns ∧ num = (coordinatesOrDefault link.Ref).1)

instance (dir : adjustDirection) (num : Int) (link : xlsxHyperlink) :
    Decidable (hyperlinkOnLine dir num link) :=
  inferInstanceAs (Decidable (_ ∨ _))

/-- The reverse loop of `adjustHyperlinks` (`for i := len-1; i >= 0; i--`),
with `i + 1` iterations left. Reading `ws.Hyperlinks.Hyperlink[i]` panics when
the collection is nil or shorter than `i + 1`. -/
def adjustHyperlinksDelete (sheet : String) (dir : adjustDirection) (num : Int) :
    Nat → Option (List xlsxHyperlink) × File → Outcome (Option (List xlsxHyperlink) × File)
  | 0, st => .returned none st
  | i + 1, (hl, f) =>
    match hl with
    | none => .panicked
    | some links =>
      match links.get? i with
      | none => .panicked
      | some linkData =>
        if hyperlinkOnLine dir num linkData then
          if links.length > 1 then
            adjustHyperlinksDelete sheet dir num i
              (some (links.take i ++ links.drop (i + 1)),
               deleteSheetRelationships f sheet linkData.RID)
          else
            adjustHyperlinksDelete sheet dir num i
              (none, deleteSheetRelationships f sheet linkData.RID)
        else adjustHyperlinksDelete sheet dir num i (hl, f)

/-- The forward pass of `adjustHyperlinks` on one hyperlink: the anchor at or
after `num` is re-encoded with its coordinate plus `offset` (errors dropped). -/
def adjustHyperlinkRef (dir : adjustDirection) (num offset : Int)
    (link : xlsxHyperlink) : xlsxHyperlink :=
  let colNum := (coordinatesOrDefault link.Ref).1
  let rowNum := (coordinatesOrDefault link.Ref).2
  if dir = .rows then
    if rowNum ≥ num then
      { link with Ref := nameOrEmpty (CoordinatesToCellName colNum (rowNum + offset)) }
    else link
  else
    if colNum ≥ num then
      { link with Ref := nameOrEmpty (CoordinatesToCellName (colNum + offset) rowNum) }
    else link

/-- The method `adjustHyperlinks`. -/
def adjustHyperlinks (ws : xlsxWorksheet) (f : File) (sheet : String)
    (dir : adjustDirection) (num offset : Int) : Outcome (xlsxWorksheet × File) :=
  match ws.Hyperlinks with
  | none => .returned none (ws, f)
  | some [] => .returned none (ws, f)
  | some (l :: ls) =>
    let afterDelete :=
      if offset < 0 then
        adjustHyperlinksDelete sheet dir num (l :: ls).length (some (l :: ls), f)
      else .returned none (some (l :: ls), f)
    match afterDelete with
    | .returned _ (none, f1) => .returned none ({ ws with Hyperlinks := none }, f1)
    | .returned _ (some links, f1) =>
      .returned none
        ({ ws with Hyperlinks := some (links.map (adjustHyperlinkRef dir num offset)) }, f1)
    | .panicked => .panicked
    | .outOfFuel => .outOfFuel

/-! ## Auto filter -/

/-- The method `adjustAutoFilterHelper` on the four coordinates. -/
def adjustAutoFilterHelper (dir : adjustDirection) (coordinates : Int × Int × Int × Int)
    (num offset : Int) : Int × Int × Int × Int :=
  match coordinates with
  | (c0, c1, c2, c3) =>
    if dir = .rows then
      ((c0, if c1 ≥ num then c1 + offset else c1, c2, if c3 ≥ num then c3 + offset else c3))
    else
      ((c0, c1, if c2 ≥ num then c2 + offset else c2, c3))

/-- The row loop of the removal branch of `adjustAutoFilter`. -/
def unhideRow (y1 y2 : Int) (rowData : xlsxRow) : xlsxRow :=
  if rowData.R > y1 ∧ rowData.R ≤ y2 then { rowData with Hidden := false } else rowData

/-- The method `adjustAutoFilter`: the returned error and the worksheet left. -/
def adjustAutoFilter (ws : xlsxWorksheet) (dir : adjustDirection) (num offset : Int) :
    Option Error × xlsxWorksheet :=
  match ws.AutoFilter with
  | none => (none, ws)
  | some af =>
    match areaRefToCoordinates af.Ref with
    | .error e => (some e, ws)
    | .ok (x1, y1, x2, y2) =>
      if (dir = .rows ∧ y1 = num ∧ offset < 0) ∨ (dir = .columns ∧ x1 = num ∧ x2 = num) then
        (none, { ws with AutoFilter := none, SheetData := ws.SheetData.map (unhideRow y1 y2) })
      else
        match adjustAutoFilterHelper dir (x1, y1, x2, y2) num offset with
        | (x1, y1, x2, y2) =>
          match coordinatesToAreaRef [x1, y1, x2, y2] with
          | .error e => (some e, { ws with AutoFilter := some { af with Ref := "" } })
          | .ok ref => (none, { ws with AutoFilter := some { af with Ref := ref } })

/-! ## Merged cells -/

/-- The method `deleteMergeCell`; `none` is the run-time panic of the slice
expression `Cells[:idx]` with a negative `idx`. -/
def deleteMergeCell (mc : xlsxMergeCells) (idx : Int) : Option xlsxMergeCells :=
  if (mc.Cells.length : Int) > idx then
    if idx < 0 then none
    else
      some { Cells := mc.Cells.take idx.toNat ++ mc.Cells.drop (idx.toNat + 1)
             Count := ((mc.Cells.take idx.toNat ++ mc.Cells.drop (idx.toNat + 1)).length : Int) }
  else some mc

/-- State inside one iteration of the loop of `adjustMergeCells`: the
collection, the index `i`, and where in the collection the range that the
pointer `areaData` refers to now sits (`none` once it has been removed). -/
structure mergeCursor where
  mc : xlsxMergeCells
  i : Int
  areaData : Option Nat
  deriving DecidableEq, Repr

/-- The statements `f.deleteMergeCell(ws, i); i--`, following the range that
`areaData` points to through the removal. -/
def deleteAndStepBack (s : mergeCursor) : Option mergeCursor :=
  match deleteMergeCell s.mc s.i with
  | none => none
  | some mc1 =>
    some { mc := mc1
           i := s.i - 1
           areaData :=
             if (s.mc.Cells.length : Int) > s.i then
               match s.areaData with
               | none => none
               | some j =>
                 if (j : Int) = s.i then none
                 else if (j : Int) > s.i then some (j - 1) else some j
             else s.areaData }

/-- The assignment `areaData.Ref = ref`: it changes the collection only if the
range pointed to is still in it. -/
def storeRef (s : mergeCursor) (ref : String) : xlsxMergeCells :=
  match s.areaData with
  | none => s.mc
  | some j => { s.mc with Cells := s.mc.Cells.set j { Ref := ref } }

/-- The body of the loop of `adjustMergeCells` after the range has been
decoded: the removal on the edit line, the shift of both corners, the removal
of a range that is a single cell, up to the final `areaData.Ref` assignment.
`none` is a panic inside `deleteMergeCell`. -/
def adjustMergeCellsBody (dir : adjustDirection) (num offset : Int) (s0 : mergeCursor)
    (coordinates : Int × Int × Int × Int) :
    Option (mergeCursor × Except Error String) :=
  match coordinates with
  | (x1, y1, x2, y2) =>
    let afterLine : Option mergeCursor :=
      if dir = .rows then
        if y1 = num ∧ y2 = num ∧ offset < 0 then deleteAndStepBack s0 else some s0
      else
        if x1 = num ∧ x2 = num ∧ offset < 0 then deleteAndStepBack s0 else some s0
    let x1 := if dir = .rows then x1 else adjustMergeCellsHelper x1 num offset
    let x2 := if dir = .rows then x2 else adjustMergeCellsHelper x2 num offset
    let y1 := if dir = .rows then adjustMergeCellsHelper y1 num offset else y1
    let y2 := if dir = .rows then adjustMergeCellsHelper y2 num offset else y2
    match afterLine with
    | none => none
    | some s1 =>
      match (if x1 = x2 ∧ y1 = y2 then deleteAndStepBack s1 else some s1) with
      | none => none
      | some s2 => some (s2, coordinatesToAreaRef [x1, y1, x2, y2])

/-- The loop `for i := 0; i < len(ws.MergeCells.Cells); i++` of
`adjustMergeCells`, started at index `i`. -/
def adjustMergeCellsLoop (dir : adjustDirection) (num offset : Int) :
    Nat → Int → xlsxMergeCells → Outcome xlsxMergeCells
  | 0, i, mc => if i < (mc.Cells.length : Int) then .outOfFuel else .returned none mc
  | fuel + 1, i, mc =>
    if i < (mc.Cells.length : Int) then
      if i < 0 then .panicked
      else
        match mc.Cells.get? i.toNat with
        | none => .panicked
        | some areaData =>
          match areaRefToCoordinates areaData.Ref with
          | .error e => .returned (some e) mc
          | .ok coordinates =>
            match adjustMergeCellsBody dir num offset ⟨mc, i, some i.toNat⟩ coordinates with
            | none => .panicked
            | some (s, .error e) => .returned (some e) (storeRef s "")
            | some (s, .ok ref) =>
              adjustMergeCellsLoop dir num offset fuel (s.i + 1) (storeRef s ref)
    else .returned none mc

/-- The method `adjustMergeCells`. One iteration per range of the collection
is the budget of the loop. -/
def adjustMergeCells (ws : xlsxWorksheet) (dir : adjustDirection) (num offset : Int) :
    Outcome xlsxWorksheet :=
  match ws.MergeCells with
  | none => .returned none ws
  | some mc =>
    match adjustMergeCellsLoop dir num offset mc.Cells.length 0 mc with
    | .returned e mc1 => .returned e { ws with MergeCells := some mc1 }
    | .panicked => .panicked
    | .outOfFuel => .outOfFuel

/-! ## Calculation chain -/

/-- The rewrite of one calculation-chain entry of the edited sheet, once its
reference has been decoded to `(colNum, rowNum)`. -/
def adjustCalcChainEntry (dir : adjustDirection) (num offset : Int)
    (c : xlsxCalcChainC) (colNum rowNum : Int) : xlsxCalcChainC :=
  let c1 :=
    if dir = .rows ∧ num ≤ rowNum then
      if rowNum + offset > 0 then
        { c with R := nameOrEmpty (CoordinatesToCellName colNum (rowNum + offset)) }
      else c
    else c
  if dir = .columns ∧ num ≤ colNum then
    if colNum + offset > 0 then
      { c1 with R := nameOrEmpty (CoordinatesToCellName (colNum + offset) rowNum) }
    else c1
  else c1

/-- The loop of `adjustCalcChain` over the entries; it stops at the first
entry of the edited sheet that does not decode. -/
def adjustCalcChainLoop (dir : adjustDirection) (num offset sheetID : Int) :
    List xlsxCalcChainC → Option Error × List xlsxCalcChainC
  | [] => (none, [])
  | c :: cs =>
    if c.I ≠ sheetID then
      ((adjustCalcChainLoop dir num offset sheetID cs).1,
        c :: (adjustCalcChainLoop dir num offset sheetID cs).2)
    else
      match CellNameToCoordinates c.R with
      | .error e => (some e, c :: cs)
      | .ok (colNum, rowNum) =>
        ((adjustCalcChainLoop dir num offset sheetID cs).1,
          adjustCalcChainEntry dir num offset c colNum rowNum ::
            (adjustCalcChainLoop dir num offset sheetID cs).2)

/-- The method `adjustCalcChain`. -/
def adjustCalcChain (f : File) (dir : adjustDirection) (num offset sheetID : Int) :
    Option Error × File :=
  match f.CalcChain with
  | none => (none, f)
  | some cs =>
    ((adjustCalcChainLoop dir num offset sheetID cs).1,
      { f with CalcChain := some (adjustCalcChainLoop dir num offset sheetID cs).2 })

/-! ## The stage sequence of `adjustHelper` -/

/-- The stage sequence of `adjustHelper` (from the axis test to the call of
`adjustCalcChain`), given the worksheet and sheet id that
`workSheetReader` and `getSheetID` returned for `sheet`. -/
def adjustHelperStages (ws : xlsxWorksheet) (f : File) (sheet : String) (sheetID : Int)
    (dir : adjustDirection) (num offset : Int) : Outcome (xlsxWorksheet × File) :=
  let ws1 := if dir = .rows then adjustRowDimensions ws num offset
             else adjustColDimensions ws num offset
  match adjustHyperlinks ws1 f sheet dir num offset with
  | .panicked => .panicked
  | .outOfFuel => .outOfFuel
  | .returned _ (ws2, f2) =>
    match adjustMergeCells ws2 dir num offset with
    | .panicked => .panicked
    | .outOfFuel => .outOfFuel
    | .returned (some e) ws3 => .returned (some e) (ws3, f2)
    | .returned none ws3 =>
      match adjustAutoFilter ws3 dir num offset with
      | (some e, ws4) => .returned (some e) (ws4, f2)
      | (none, ws4) =>
        match adjustCalcChain f2 dir num offset sheetID with
        | (some e, f5) => .returned (some e) (ws4, f5)
        | (none, f5) => .returned none (ws4, f5)

/-- The text that `CoordinatesToCellName` produces for valid coordinates. -/
def cellText (col row : Int) : String :=
  String.mk (ColumnNumberToName col.toNat ++ itoa row.toNat)

/-- The text that `coordinatesToAreaRef` produces for valid coordinates. -/
def areaText (x1 y1 x2 y2 : Int) : String :=
  cellText x1 y1 ++ ":" ++ cellText x2 y2

/-! ## The calls of `deleteMergeCell` made by the loop -/

/-- One call `f.deleteMergeCell(ws, idx)` as seen from the loop of
`adjustMergeCells`: the index passed, `len(ws.MergeCells.Cells)` at the call,
and where the range being processed sits in the collection at the call
(`none` when it has already been removed). -/
structure deleteCall where
  idx : Int
  len : Nat
  areaData : Option Nat
  deriving DecidableEq, Repr

/-- The call `f.deleteMergeCell(ws, i)` made in the state `s`. -/
def callAt (s : mergeCursor) : deleteCall :=
  ⟨s.i, s.mc.Cells.length, s.areaData⟩

/-- The calls of `deleteMergeCell` made by one run of the loop body, in
order; it follows `adjustMergeCellsBody` test by test. -/
def adjustMergeCellsBodyCalls (dir : adjustDirection) (num offset : Int) (s0 : mergeCursor)
    (coordinates : Int × Int × Int × Int) : List deleteCall :=
  match coordinates with
  | (x1, y1, x2, y2) =>
    let lineCalls : List deleteCall :=
      if dir = .rows then
        if y1 = num ∧ y2 = num ∧ offset < 0 then [callAt s0] else []
      else
        if x1 = num ∧ x2 = num ∧ offset < 0 then [callAt s0] else []
    let afterLine : Option mergeCursor :=
      if dir = .rows then
        if y1 = num ∧ y2 = num ∧ offset < 0 then deleteAndStepBack s0 else some s0
      else
        if x1 = num ∧ x2 = num ∧ offset < 0 then deleteAndStepBack s0 else some s0
    let x1 := if dir = .rows then x1 else adjustMergeCellsHelper x1 num offset
    let x2 := if dir = .rows then x2 else adjustMergeCellsHelper x2 num offset
    let y1 := if dir = .rows then adjustMergeCellsHelper y1 num offset else y1
    let y2 := if dir = .rows then adjustMergeCellsHelper y2 num offset else y2
    match afterLine with
    | none => lineCalls
    | some s1 => if x1 = x2 ∧ y1 = y2 then lineCalls ++ [callAt s1] else lineCalls

/-- The loop of `adjustMergeCells` together with its trace: one entry per
iteration started, holding the calls of `deleteMergeCell` of that iteration.
The first component is `adjustMergeCellsLoop`. -/
def adjustMergeCellsLoopTraced (dir : adjustDirection) (num offset : Int) :
    Nat → Int → xlsxMergeCells → Outcome xlsxMergeCells × List (List deleteCall)
  | 0, i, mc =>
    (if i < (mc.Cells.length : Int) then .outOfFuel else .returned none mc, [])
  | fuel + 1, i, mc =>
    if i < (mc.Cells.length : Int) then
      if i < 0 then (.panicked, [])
      else
        match mc.Cells.get? i.toNat with
        | none => (.panicked, [])
        | some areaData =>
          match areaRefToCoordinates areaData.Ref with
          | .error e => (.returned (some e) mc, [[]])
          | .ok coordinates =>
            match adjustMergeCellsBody dir num offset ⟨mc, i, some i.toNat⟩ coordinates with
            | none =>
              (.panicked,
                [adjustMergeCellsBodyCalls dir num offset ⟨mc, i, some i.toNat⟩ coordinates])
            | some (s, .error e) =>
              (.returned (some e) (storeRef s ""),
                [adjustMergeCellsBodyCalls dir num offset ⟨mc, i, some i.toNat⟩ coordinates])
            | some (s, .ok ref) =>
              ((adjustMergeCellsLoopTraced dir num offset fuel (s.i + 1) (storeRef s ref)).1,
                adjustMergeCellsBodyCalls dir num offset ⟨mc, i, some i.toNat⟩ coordinates ::
                (adjustMergeCellsLoopTraced dir num offset fuel (s.i + 1) (storeRef s ref)).2)
    else (.returned none mc, [])

/-- A call of `deleteMergeCell` whose index is inside the collection and is
the position of the range being processed. -/
def callInBounds (c : deleteCall) : Prop :=
  0 ≤ c.idx ∧ c.idx < (c.len : Int) ∧ c.areaData = some c.idx.toNat

instance (c : deleteCall) : Decidable (callInBounds c) :=
  inferInstanceAs (Decidable (_ ∧ _))

/-! ## The method `adjustHelper` -/

/-- The last statement of `adjustHelper`: a merge collection left without
ranges is set to nil. -/
def dropEmptyMergeCells (ws : xlsxWorksheet) : xlsxWorksheet :=
  match ws.MergeCells with
  | none => ws
  | some mc => if mc.Cells.length = 0 then { ws with MergeCells := none } else ws

/-- The cell rewrite of `adjustHelper` on the edit axis. -/
def adjustDimensions (ws : xlsxWorksheet) (dir : adjustDirection) (num offset : Int) :
    xlsxWorksheet :=
  if dir = .rows then adjustRowDimensions ws num offset else adjustColDimensions ws num offset

/-- The method `adjustHelper`. The functions `workSheetReader`, `getSheetID`,
`checkSheet` and `checkRow` are not in `adjust.go`: what the reader returns
for `sheet` (a worksheet or an error), the sheet id, and the effect `checks`
of the two checks on the worksheet are parameters. The state left is the
worksheet, when one was read, and the file. -/
def adjustHelper (workSheetReader : Except Error xlsxWorksheet)
    (checks : xlsxWorksheet → xlsxWorksheet) (f : File) (sheet : String) (sheetID : Int)
    (dir : adjustDirection) (num offset : Int) : Outcome (Option xlsxWorksheet × File) :=
  match workSheetReader with
  | .error e => .returned (some e) (none, f)
  | .ok ws =>
    match adjustHelperStages ws f sheet sheetID dir num offset with
    | .panicked => .panicked
    | .outOfFuel => .outOfFuel
    | .returned (some e) (ws1, f1) => .returned (some e) (some ws1, f1)
    | .returned none (ws1, f1) => .returned none (some (dropEmptyMergeCells (checks ws1)), f1)

/-! ## Views used to state the properties -/

/-- A decoded range lies wholly on line `num` of the edit axis during a
deletion: the first removal test of `adjustMergeCells`. -/
def onEditLine (dir : adjustDirection) (num offset : Int) (c : Int × Int × Int × Int) : Prop :=
  (dir = .rows ∧ c.2.1 = num ∧ c.2.2.2 = num ∧ offset < 0) ∨
  (dir = .columns ∧ c.1 = num ∧ c.2.2.1 = num ∧ offset < 0)

instance (dir : adjustDirection) (num offset : Int) (c : Int × Int × Int × Int) :
    Decidable (onEditLine dir num offset c) :=
  inferInstanceAs (Decidable (_ ∨ _))

/-- A decoded range with both corners on the edit axis moved by the shared
shifting rule and the other axis kept. -/
def shiftRange (dir : adjustDirection) (num offset : Int) (c : Int × Int × Int × Int) :
    Int × Int × Int × Int :=
  if dir = .rows then
    (c.1, adjustMergeCellsHelper c.2.1 num offset, c.2.2.1,
      adjustMergeCellsHelper c.2.2.2 num offset)
  else
    (adjustMergeCellsHelper c.1 num offset, c.2.1,
      adjustMergeCellsHelper c.2.2.1 num offset, c.2.2.2)

/-- A decoded range is a single cell: its two corners are equal. -/
def isSingleCell (c : Int × Int × Int × Int) : Prop := c.1 = c.2.2.1 ∧ c.2.1 = c.2.2.2

instance (c : Int × Int × Int × Int) : Decidable (isSingleCell c) :=
  inferInstanceAs (Decidable (_ ∧ _))

/-- The loop of `adjustMergeCells` read on lists: `done` are the ranges before
the index, `todo` the ranges from the index on. Used to reason about
`adjustMergeCellsLoop`, to which it is proved equal. -/
def mergeCellsPass (dir : adjustDirection) (num offset : Int) :
    List xlsxMergeCell → List xlsxMergeCell → Int → Outcome xlsxMergeCells
  | done, [], count => .returned none ⟨count, done⟩
  | done, a :: todo, count =>
    match areaRefToCoordinates a.Ref with
    | .error e => .returned (some e) ⟨count, done ++ a :: todo⟩
    | .ok c =>
      if onEditLine dir num offset c then
        if isSingleCell (shiftRange dir num offset c) then
          if done = [] then .panicked
          else mergeCellsPass dir num offset done.dropLast todo
            ((done.dropLast ++ todo).length : Int)
        else mergeCellsPass dir num offset done todo ((done ++ todo).length : Int)
      else
        if isSingleCell (shiftRange dir num offset c) then
          mergeCellsPass dir num offset done todo ((done ++ todo).length : Int)
        else
          mergeCellsPass dir num offset
            (done ++ [⟨areaText (shiftRange dir num offset c).1 (shiftRange dir num offset c).2.1
              (shiftRange dir num offset c).2.2.1 (shiftRange dir num offset c).2.2.2⟩])
            todo count

/-- A merge range with its reference re-encoded from the shifted corners
(left as it is when the reference does not decode). -/
def shiftedMergeCell (dir : adjustDirection) (num offset : Int) (a : xlsxMergeCell) :
    xlsxMergeCell :=
  match areaRefToCoordinates a.Ref with
  | .ok c =>
    ⟨areaText (shiftRange dir num offset c).1 (shiftRange dir num offset c).2.1
      (shiftRange dir num offset c).2.2.1 (shiftRange dir num offset c).2.2.2⟩
  | .error _ => a

/-- A merge range decodes and is not a single cell. -/
def properRange (a : xlsxMergeCell) : Prop :=
  ∃ c, areaRefToCoordinates a.Ref = .ok c ∧ ¬ isSingleCell c

/-- A merge range decodes with left column ≤ right column and top row ≤
bottom row. -/
def orderedRange (a : xlsxMergeCell) : Prop :=
  ∃ c, areaRefToCoordinates a.Ref = .ok c ∧ c.1 ≤ c.2.2.1 ∧ c.2.1 ≤ c.2.2.2

/-- The auto-filter with its reference re-encoded from the coordinates that
`adjustAutoFilterHelper` returns (left as it is when it does not decode). -/
def shiftedAutoFilter (dir : adjustDirection) (num offset : Int) (af : xlsxAutoFilter) :
    xlsxAutoFilter :=
  match areaRefToCoordinates af.Ref with
  | .ok c =>
    ⟨areaText (adjustAutoFilterHelper dir c num offset).1
      (adjustAutoFilterHelper dir c num offset).2.1
      (adjustAutoFilterHelper dir c num offset).2.2.1
      (adjustAutoFilterHelper dir c num offset).2.2.2⟩
  | .error _ => af

/-- A calculation-chain entry after `adjustCalcChain`: rewritten when it
belongs to the edited sheet and decodes, left as it is otherwise. -/
def shiftedCalcEntry (dir : adjustDirection) (num offset sheetID : Int)
    (c : xlsxCalcChainC) : xlsxCalcChainC :=
  if c.I ≠ sheetID then c
  else
    match CellNameToCoordinates c.R with
    | .ok p => adjustCalcChainEntry dir num offset c p.1 p.2
    | .error _ => c

/-- The worksheet after a stage sequence in which nothing is removed: every
collection keeps its elements and each element is shifted by its own stage. -/
def shiftedSheet (dir : adjustDirection) (num offset : Int) (ws : xlsxWorksheet) :
    xlsxWorksheet :=
  { SheetData := (if dir = .rows then adjustRowDimensions ws num offset
      else adjustColDimensions ws num offset).SheetData
    Hyperlinks := ws.Hyperlinks.map (fun links => links.map (adjustHyperlinkRef dir num offset))
    MergeCells := ws.MergeCells.map (fun mc =>
      { mc with Cells := mc.Cells.map (shiftedMergeCell dir num offset) })
    AutoFilter := ws.AutoFilter.map (shiftedAutoFilter dir num offset) }

/-- The file state after a stage sequence in which nothing is removed. -/
def shiftedFile (dir : adjustDirection) (num offset sheetID : Int) (f : File) : File :=
  { f with CalcChain :=
      f.CalcChain.map (fun cs => cs.map (shiftedCalcEntry dir num offset sheetID)) }

/-- The coordinates held by a worksheet and the calculation chain: row
numbers with the decoded cell references, decoded hyperlink anchors, decoded
merge ranges with the count field, the decoded auto-filter range, and the
decoded calculation-chain entries with their sheet ids. -/
structure CoordinateView where
  rows : List (Int × List (Except Error (Int × Int)))
  hyperlinks : Option (List (Except Error (Int × Int) × String))
  mergeCells : Option (Int × List (Except Error (Int × Int × Int × Int)))
  autoFilter : Option (Except Error (Int × Int × Int × Int))
  calcChain : Option (List (Int × Except Error (Int × Int)))

/-- The coordinate view of a worksheet and file state. -/
def coordinateView (ws : xlsxWorksheet) (f : File) : CoordinateView :=
  { rows := ws.SheetData.map (fun r => (r.R, r.C.map (fun c => CellNameToCoordinates c.R)))
    hyperlinks := ws.Hyperlinks.map (fun links =>
      links.map (fun l => (CellNameToCoordinates l.Ref, l.RID)))
    mergeCells := ws.MergeCells.map (fun mc =>
      (mc.Count, mc.Cells.map (fun m => areaRefToCoordinates m.Ref)))
    autoFilter := ws.AutoFilter.map (fun af => areaRefToCoordinates af.Ref)
    calcChain := f.CalcChain.map (fun cs => cs.map (fun c => (c.I, CellNameToCoordinates c.R))) }

/-- A small worksheet with two rows, a hyperlink, a merge range and an
auto-filter, used to instantiate the round-trip property. -/
def sampleSheet : xlsxWorksheet :=
  { SheetData := [⟨2, false, [⟨"A2", "x"⟩]⟩, ⟨4, true, [⟨"B4", "y"⟩]⟩]
    Hyperlinks := some [⟨"A4", "rId1"⟩]
    MergeCells := some ⟨1, [⟨"A4:B5"⟩]⟩
    AutoFilter := some ⟨"A1:B6"⟩ }

/-- A calculation chain with one entry of sheet 1 and one entry of another
sheet whose text is not a cell reference. -/
def sampleFile : File :=
  { CalcChain := some [⟨"B4", 1⟩, ⟨"zz", 2⟩]
    DeletedRelationships := [] }

/-- Four decoded coordinates with left column ≤ right column and top row ≤
bottom row. -/
def orderedCoordinates (c : Int × Int × Int × Int) : Prop :=
  c.1 ≤ c.2.2.1 ∧ c.2.1 ≤ c.2.2.2

instance (c : Int × Int × Int × Int) : Decidable (orderedCoordinates c) :=
  inferInstanceAs (Decidable (_ ∧ _))

/-- The full-removal test of `adjustAutoFilter` on the decoded filter. -/
def filterRemoved (dir : adjustDirection) (num offset : Int) (c : Int × Int × Int × Int) :
    Prop :=
  (dir = .rows ∧ c.2.1 = num ∧ offset < 0) ∨ (dir = .columns ∧ c.1 = num ∧ c.2.2.1 = num)

instance (dir : adjustDirection) (num offset : Int) (c : Int × Int × Int × Int) :
    Decidable (filterRemoved dir num offset c) :=
  inferInstanceAs (Decidable (_ ∨ _))

/-- The range that the shared shifting rule gives for a filter: both row
bounds for a row edit, the right column bound alone for a column edit. -/
def filterShiftedByRule (dir : adjustDirection) (num offset : Int)
    (c : Int × Int × Int × Int) : Int × Int × Int × Int :=
  if dir = .rows then
    (c.1, adjustMergeCellsHelper c.2.1 num offset, c.2.2.1,
      adjustMergeCellsHelper c.2.2.2 num offset)
  else (c.1, c.2.1, adjustMergeCellsHelper c.2.2.1 num offset, c.2.2.2)

/-- Every bound that `adjustAutoFilterHelper` moves stays at 1 or more. -/
def filterShiftInSheet (dir : adjustDirection) (num offset : Int)
    (c : Int × Int × Int × Int) : Prop :=
  if dir = .rows then
    (c.2.1 ≥ num → 1 ≤ c.2.1 + offset) ∧ (c.2.2.2 ≥ num → 1 ≤ c.2.2.2 + offset)
  else (c.2.2.1 ≥ num → 1 ≤ c.2.2.1 + offset)

instance (dir : adjustDirection) (num offset : Int) (c : Int × Int × Int × Int) :
    Decidable (filterShiftInSheet dir num offset c) :=
  inferInstanceAs (Decidable (if _ then _ else _))

/-- A failure that `adjustHelper` reports: a merge range, the auto-filter range
or a calc-chain entry of the edited sheet does not decode, or a bound of a
kept auto-filter is moved below 1 and so does not encode. -/
def rangeFailure (ws : xlsxWorksheet) (f : File) (sheetID : Int) (dir : adjustDirection)
    (num offset : Int) : Prop :=
  (∃ mc m, ws.MergeCells = some mc ∧ m ∈ mc.Cells ∧
    ∃ er, areaRefToCoordinates m.Ref = .error er) ∨
  (∃ af, ws.AutoFilter = some af ∧
    ((∃ er, areaRefToCoordinates af.Ref = .error er) ∨
      (∃ c, areaRefToCoordinates af.Ref = .ok c ∧ ¬ filterRemoved dir num offset c ∧
        ¬ filterShiftInSheet dir num offset c))) ∨
  (∃ cs c, f.CalcChain = some cs ∧ c ∈ cs ∧ c.I = sheetID ∧
    ∃ er, CellNameToCoordinates c.R = .error er)

/-! ## Codec lemmas -/

theorem char_toNat_ofNat (n : Nat) (h : n < 128) : (Char.ofNat n).toNat = n := by
  have hv : n.isValidChar := Or.inl (by omega)
  simp only [Char.ofNat, hv, Char.toNat, Char.ofNatAux, dite_true]
  rfl

theorem isRowDigit_ofNat (d : Nat) (h : d < 10) : isRowDigit (Char.ofNat (d + 48)) = true := by
  simp [isRowDigit, char_toNat_ofNat (d + 48) (by omega)]
  omega

theorem isColLetter_ofNat (k : Nat) (h : k < 26) : isColLetter (Char.ofNat (k + 65)) = true := by
  simp [isColLetter, char_toNat_ofNat (k + 65) (by omega)]
  omega

theorem not_isColLetter_of_isRowDigit (c : Char) (h : isRowDigit c = true) :
    isColLetter c = false := by
  simp only [isRowDigit, Bool.and_eq_true, decide_eq_true_eq] at h
  simp only [isColLetter, Bool.and_eq_false_iff, decide_eq_false_iff_not]
  omega

theorem rowDigits_append (fuel n : Nat) (acc : List Char) :
    rowDigits fuel n acc = rowDigits fuel n [] ++ acc := by
  induction fuel generalizing n acc with
  | zero => simp [rowDigits]
  | succ f ih =>
    simp only [rowDigits]
    split
    · simp
    · rw [ih (n / 10) (_ :: acc), ih (n / 10) [_]]
      simp

theorem atoi_append_singleton (ds : List Char) (c : Char) :
    atoi (ds ++ [c]) = atoi ds * 10 + (c.toNat - 48) := by
  simp [atoi, List.foldl_append]

theorem atoi_rowDigits (fuel n : Nat) (h : n < fuel) : atoi (rowDigits fuel n []) = n := by
  induction fuel generalizing n with
  | zero => omega
  | succ f ih =>
    simp only [rowDigits]
    split
    · rename_i h10
      simp [atoi, char_toNat_ofNat (n + 48) (by omega)]
    · rename_i h10
      rw [rowDigits_append, atoi_append_singleton, ih (n / 10) (by omega),
        char_toNat_ofNat (n % 10 + 48) (by omega)]
      omega

theorem rowDigits_all (fuel n : Nat) (acc : List Char)
    (hacc : ∀ c ∈ acc, isRowDigit c = true) :
    ∀ c ∈ rowDigits fuel n acc, isRowDigit c = true := by
  induction fuel generalizing n acc with
  | zero => simpa [rowDigits] using hacc
  | succ f ih =>
    simp only [rowDigits]
    split
    · rename_i h10
      intro c hc
      rcases List.mem_cons.1 hc with rfl | hc
      · exact isRowDigit_ofNat n h10
      · exact hacc c hc
    · apply ih
      intro c hc
      rcases List.mem_cons.1 hc with rfl | hc
      · exact isRowDigit_ofNat (n % 10) (Nat.mod_lt _ (by omega))
      · exact hacc c hc

theorem itoa_all (n : Nat) : ∀ c ∈ itoa n, isRowDigit c = true :=
  rowDigits_all (n + 1) n [] (by simp)

theorem atoi_itoa (n : Nat) : atoi (itoa n) = n := atoi_rowDigits (n + 1) n (by omega)

theorem itoa_ne_nil (n : Nat) : itoa n ≠ [] := by
  unfold itoa
  simp only [rowDigits]
  split
  · simp
  · rw [rowDigits_append]
    simp

theorem columnLetters_append (fuel n : Nat) (acc : List Char) :
    columnLetters fuel n acc = columnLetters fuel n [] ++ acc := by
  induction fuel generalizing n acc with
  | zero => simp [columnLetters]
  | succ f ih =>
    simp only [columnLetters]
    split
    · simp
    · rw [ih ((n - 1) / 26) (_ :: acc), ih ((n - 1) / 26) [_]]
      simp

theorem ColumnNameToNumber_append_singleton (ls : List Char) (c : Char) :
    ColumnNameToNumber (ls ++ [c]) = ColumnNameToNumber ls * 26 + (c.toNat - 64) := by
  simp [ColumnNameToNumber, List.foldl_append]

theorem ColumnNameToNumber_columnLetters (fuel n : Nat) (h : n ≤ fuel) :
    ColumnNameToNumber (columnLetters fuel n []) = n := by
  induction fuel generalizing n with
  | zero =>
    have : n = 0 := by omega
    subst this
    simp [columnLetters, ColumnNameToNumber]
  | succ f ih =>
    simp only [columnLetters]
    split
    · rename_i h0
      subst h0
      simp [ColumnNameToNumber]
    · rename_i h0
      rw [columnLetters_append, ColumnNameToNumber_append_singleton,
        ih ((n - 1) / 26) (by omega),
        char_toNat_ofNat ((n - 1) % 26 + 65) (by omega)]
      omega

theorem columnLetters_all (fuel n : Nat) (acc : List Char)
    (hacc : ∀ c ∈ acc, isColLetter c = true) :
    ∀ c ∈ columnLetters fuel n acc, isColLetter c = true := by
  induction fuel generalizing n acc with
  | zero => simpa [columnLetters] using hacc
  | succ f ih =>
    simp only [columnLetters]
    split
    · exact hacc
    · apply ih
      intro c hc
      rcases List.mem_cons.1 hc with rfl | hc
      · exact isColLetter_ofNat ((n - 1) % 26) (Nat.mod_lt _ (by omega))
      · exact hacc c hc

theorem ColumnNumberToName_all (n : Nat) : ∀ c ∈ ColumnNumberToName n, isColLetter c = true :=
  columnLetters_all n n [] (by simp)

theorem ColumnNameToNumber_ColumnNumberToName (n : Nat) :
    ColumnNameToNumber (ColumnNumberToName n) = n :=
  ColumnNameToNumber_columnLetters n n (le_refl n)

theorem ColumnNumberToName_ne_nil (n : Nat) (h : 1 ≤ n) : ColumnNumberToName n ≠ [] := by
  intro hnil
  have := ColumnNameToNumber_ColumnNumberToName n
  rw [hnil] at this
  simp [ColumnNameToNumber] at this
  omega

theorem ColumnNameToNumber_pos (ls : List Char) (hne : ls ≠ [])
    (hall : ∀ c ∈ ls, isColLetter c = true) : 1 ≤ ColumnNameToNumber ls := by
  rcases List.eq_nil_or_concat ls with h | ⟨l, c, rfl⟩
  · exact absurd h hne
  · rw [List.concat_eq_append, ColumnNameToNumber_append_singleton]
    have hc := hall c (by simp)
    simp only [isColLetter, Bool.and_eq_true, decide_eq_true_eq] at hc
    omega

theorem takeWhile_letters_digits (ls ds : List Char)
    (hls : ∀ c ∈ ls, isColLetter c = true) (hds : ∀ c ∈ ds, isRowDigit c = true) :
    (ls ++ ds).takeWhile isColLetter = ls ∧ (ls ++ ds).dropWhile isColLetter = ds := by
  have h1 : ds.takeWhile isColLetter = [] ∧ ds.dropWhile isColLetter = ds := by
    cases ds with
    | nil => simp
    | cons d ds =>
      have := not_isColLetter_of_isRowDigit d (hds d (by simp))
      simp [List.takeWhile, List.dropWhile, this]
  constructor
  · rw [List.takeWhile_append_of_pos hls, h1.1]; simp
  · rw [List.dropWhile_append_of_pos hls, h1.2]

theorem SplitCellName_mk (ls : List Char) (n : Nat) (hne : ls ≠ [])
    (hls : ∀ c ∈ ls, isColLetter c = true) (hn : 1 ≤ n) :
    SplitCellName (String.mk (ls ++ itoa n)) = .ok (String.mk ls, (n : Int)) := by
  have h := takeWhile_letters_digits ls (itoa n) hls (itoa_all n)
  have hall : (itoa n).all isRowDigit = true := List.all_eq_true.2 (itoa_all n)
  simp only [SplitCellName, h.1, h.2, hne, itoa_ne_nil n, hall, atoi_itoa]
  simp
  omega

theorem SplitCellName_ok (s col : String) (row : Int) (h : SplitCellName s = .ok (col, row)) :
    col.data ≠ [] ∧ (∀ c ∈ col.data, isColLetter c = true) ∧ 1 ≤ row := by
  simp only [SplitCellName] at h
  split at h
  · cases h
  · rename_i h1
    split at h
    · cases h
    · rename_i h2
      simp only [Except.ok.injEq, Prod.mk.injEq] at h
      obtain ⟨hc, hr⟩ := h
      subst hc hr
      push_neg at h1
      refine ⟨h1.1, ?_, by omega⟩
      intro c hc
      exact (List.mem_takeWhile_imp hc)

theorem CoordinatesToCellName_ok (col row : Int) (hc : 1 ≤ col) (hr : 1 ≤ row) :
    CoordinatesToCellName col row = .ok (cellText col row) := by
  have : ¬ (col < 1 ∨ row < 1) := by omega
  simp [CoordinatesToCellName, this, cellText]

theorem CoordinatesToCellName_error (col row : Int) (h : col < 1 ∨ row < 1) :
    CoordinatesToCellName col row = .error .InvalidCoordinate := by
  simp [CoordinatesToCellName, h]

theorem CellNameToCoordinates_cellText (col row : Int) (hc : 1 ≤ col) (hr : 1 ≤ row) :
    CellNameToCoordinates (cellText col row) = .ok (col, row) := by
  have hsplit := SplitCellName_mk (ColumnNumberToName col.toNat) row.toNat
    (ColumnNumberToName_ne_nil _ (by omega)) (ColumnNumberToName_all _) (by omega)
  simp only [CellNameToCoordinates, cellText, hsplit, ColumnNameToNumber_ColumnNumberToName]
  have h1 : ((col.toNat : Nat) : Int) = col := Int.toNat_of_nonneg (by omega)
  have h2 : ((row.toNat : Nat) : Int) = row := Int.toNat_of_nonneg (by omega)
  rw [h1, h2]

theorem CellNameToCoordinates_pos (s : String) (col row : Int)
    (h : CellNameToCoordinates s = .ok (col, row)) : 1 ≤ col ∧ 1 ≤ row := by
  simp only [CellNameToCoordinates] at h
  split at h
  · cases h
  · rename_i c r hs
    simp only [Except.ok.injEq, Prod.mk.injEq] at h
    obtain ⟨hc, hr⟩ := h
    subst hc hr
    have := SplitCellName_ok s c r hs
    refine ⟨?_, this.2.2⟩
    have := ColumnNameToNumber_pos c.data this.1 this.2.1
    omega

theorem coordinatesOrDefault_of_ok (s : String) (p : Int × Int)
    (h : CellNameToCoordinates s = .ok p) : coordinatesOrDefault s = p := by
  simp [coordinatesOrDefault, h]

theorem JoinCellName_colNameOrEmpty (s : String) (col row num : Int)
    (h : CellNameToCoordinates s = .ok (col, row)) (hn : 1 ≤ num) :
    ∃ t, JoinCellName (colNameOrEmpty s) num = .ok t ∧
      CellNameToCoordinates t = .ok (col, num) := by
  simp only [CellNameToCoordinates] at h
  split at h
  · cases h
  · rename_i c r hs
    simp only [Except.ok.injEq, Prod.mk.injEq] at h
    obtain ⟨hc, hr⟩ := h
    have hok := SplitCellName_ok s c r hs
    have hall : c.data.all isColLetter = true := List.all_eq_true.2 hok.2.1
    have hnum : ¬ (num < 1) := by omega
    refine ⟨String.mk (c.data ++ itoa num.toNat), ?_, ?_⟩
    · simp [JoinCellName, colNameOrEmpty, hs, hok.1, hall, hnum]
    · have hsplit := SplitCellName_mk c.data num.toNat hok.1 hok.2.1 (by omega)
      simp only [CellNameToCoordinates, hsplit]
      have h2 : ((num.toNat : Nat) : Int) = num := Int.toNat_of_nonneg (by omega)
      rw [h2, hc]

/-! ### Range references -/

theorem splitColon_no_colon (l : List Char) (h : ∀ c ∈ l, c ≠ ':') :
    splitColon l = (l, []) := by
  induction l with
  | nil => rfl
  | cons c cs ih =>
    have hc : c ≠ ':' := h c (by simp)
    have := ih (fun d hd => h d (by simp [hd]))
    simp [splitColon, hc, this]

theorem splitColon_append (a b : List Char) (ha : ∀ c ∈ a, c ≠ ':') :
    splitColon (a ++ ':' :: b) = (a, (splitColon b).1 :: (splitColon b).2) := by
  induction a with
  | nil => simp [splitColon]
  | cons c cs ih =>
    have hc : c ≠ ':' := ha c (by simp)
    have := ih (fun d hd => ha d (by simp [hd]))
    simp [splitColon, hc, this]

theorem letter_or_digit_plain (c : Char) (h : isColLetter c = true ∨ isRowDigit c = true) :
    c ≠ ':' ∧ c ≠ '$' := by
  constructor
  · rintro rfl
    revert h
    decide
  · rintro rfl
    revert h
    decide

theorem cellText_plain (col row : Int) : ∀ c ∈ (cellText col row).data, c ≠ ':' ∧ c ≠ '$' := by
  intro c hc
  simp only [cellText, List.mem_append] at hc
  apply letter_or_digit_plain
  rcases hc with hc | hc
  · exact Or.inl (ColumnNumberToName_all _ c hc)
  · exact Or.inr (itoa_all _ c hc)

theorem coordinatesToAreaRef_ok (x1 y1 x2 y2 : Int)
    (h1 : 1 ≤ x1) (h2 : 1 ≤ y1) (h3 : 1 ≤ x2) (h4 : 1 ≤ y2) :
    coordinatesToAreaRef [x1, y1, x2, y2] = .ok (areaText x1 y1 x2 y2) := by
  simp [coordinatesToAreaRef, CoordinatesToCellName_ok, h1, h2, h3, h4, areaText]

theorem areaRefToCoordinates_areaText (x1 y1 x2 y2 : Int)
    (h1 : 1 ≤ x1) (h2 : 1 ≤ y1) (h3 : 1 ≤ x2) (h4 : 1 ≤ y2) :
    areaRefToCoordinates (areaText x1 y1 x2 y2) = .ok (x1, y1, x2, y2) := by
  have ha := cellText_plain x1 y1
  have hb := cellText_plain x2 y2
  have hdata : (areaText x1 y1 x2 y2).data
      = (cellText x1 y1).data ++ ':' :: (cellText x2 y2).data := by
    simp [areaText, String.data_append]
  have hfilter : (areaText x1 y1 x2 y2).data.filter (fun c => c != '$')
      = (areaText x1 y1 x2 y2).data := by
    rw [List.filter_eq_self]
    intro c hc
    rw [hdata] at hc
    simp only [List.mem_append, List.mem_cons] at hc
    rcases hc with hc | rfl | hc
    · simpa using (ha c hc).2
    · decide
    · simpa using (hb c hc).2
  have hsplit : splitColon (areaText x1 y1 x2 y2).data
      = ((cellText x1 y1).data, [(cellText x2 y2).data]) := by
    rw [hdata, splitColon_append _ _ (fun c hc => (ha c hc).1),
      splitColon_no_colon _ (fun c hc => (hb c hc).1)]
  have e1 : String.mk (cellText x1 y1).data = cellText x1 y1 := rfl
  have e2 : String.mk (cellText x2 y2).data = cellText x2 y2 := rfl
  simp only [areaRefToCoordinates, removeDollars, stringsSplit, hfilter, hsplit, List.map, e1, e2]
  simp [areaRangeToCoordinates, CellNameToCoordinates_cellText, h1, h2, h3, h4]

theorem areaRefToCoordinates_pos (s : String) (x1 y1 x2 y2 : Int)
    (h : areaRefToCoordinates s = .ok (x1, y1, x2, y2)) :
    1 ≤ x1 ∧ 1 ≤ y1 ∧ 1 ≤ x2 ∧ 1 ≤ y2 := by
  simp only [areaRefToCoordinates] at h
  split at h
  · rename_i a b _ _
    simp only [areaRangeToCoordinates] at h
    split at h
    · cases h
    · rename_i c0 c1 hab
      split at h
      · cases h
      · rename_i c2 c3 hcd
        simp only [Except.ok.injEq, Prod.mk.injEq] at h
        obtain ⟨rfl, rfl, rfl, rfl⟩ := h
        have p1 := CellNameToCoordinates_pos _ _ _ hab
        have p2 := CellNameToCoordinates_pos _ _ _ hcd
        exact ⟨p1.1, p1.2, p2.1, p2.2⟩
  · cases h

/-! ## The merge loop read on lists -/

theorem deleteAndStepBack_mid (count : Int) (pre post : List xlsxMergeCell)
    (b : xlsxMergeCell) :
    deleteAndStepBack ⟨⟨count, pre ++ b :: post⟩, (pre.length : Int), none⟩
      = some ⟨⟨((pre ++ post).length : Int), pre ++ post⟩, (pre.length : Int) - 1, none⟩ := by
  have h1 : ((pre ++ b :: post).length : Int) > (pre.length : Int) := by
    simp only [List.length_append, List.length_cons]; push_cast; omega
  have h2 : ¬ ((pre.length : Int) < 0) := by omega
  simp only [deleteAndStepBack, deleteMergeCell, h1, h2, if_true, if_false, Int.toNat_ofNat]
  simp

theorem deleteAndStepBack_here (count : Int) (pre post : List xlsxMergeCell)
    (b : xlsxMergeCell) :
    deleteAndStepBack ⟨⟨count, pre ++ b :: post⟩, (pre.length : Int), some pre.length⟩
      = some ⟨⟨((pre ++ post).length : Int), pre ++ post⟩, (pre.length : Int) - 1, none⟩ := by
  have h1 : ((pre ++ b :: post).length : Int) > (pre.length : Int) := by
    simp only [List.length_append, List.length_cons]; push_cast; omega
  have h2 : ¬ ((pre.length : Int) < 0) := by omega
  simp only [deleteAndStepBack, deleteMergeCell, h1, h2, if_true, if_false, Int.toNat_ofNat]
  simp

theorem deleteAndStepBack_before_start (count : Int) (post : List xlsxMergeCell) :
    deleteAndStepBack ⟨⟨count, post⟩, -1, none⟩ = none := by
  have h1 : ((post.length : Nat) : Int) > -1 := by omega
  simp [deleteAndStepBack, deleteMergeCell, h1]

theorem adjustMergeCellsBody_keep (dir : adjustDirection) (num offset : Int)
    (s0 : mergeCursor) (c : Int × Int × Int × Int)
    (h1 : ¬ onEditLine dir num offset c) (h2 : ¬ isSingleCell (shiftRange dir num offset c)) :
    adjustMergeCellsBody dir num offset s0 c
      = some (s0, coordinatesToAreaRef [(shiftRange dir num offset c).1,
          (shiftRange dir num offset c).2.1, (shiftRange dir num offset c).2.2.1,
          (shiftRange dir num offset c).2.2.2]) := by
  obtain ⟨x1, y1, x2, y2⟩ := c
  cases dir
  · simp only [onEditLine, shiftRange, isSingleCell, reduceCtorEq, false_and, false_or,
      true_and, if_false] at h1 h2 ⊢
    simp [adjustMergeCellsBody, h1, h2]
  · simp only [onEditLine, shiftRange, isSingleCell, reduceCtorEq, false_and, or_false,
      true_and, if_true] at h1 h2 ⊢
    simp [adjustMergeCellsBody, h1, h2]

theorem adjustMergeCellsBody_single (dir : adjustDirection) (num offset count : Int)
    (pre post : List xlsxMergeCell) (b : xlsxMergeCell) (c : Int × Int × Int × Int)
    (h1 : ¬ onEditLine dir num offset c) (h2 : isSingleCell (shiftRange dir num offset c)) :
    adjustMergeCellsBody dir num offset
        ⟨⟨count, pre ++ b :: post⟩, (pre.length : Int), some pre.length⟩ c
      = some (⟨⟨((pre ++ post).length : Int), pre ++ post⟩, (pre.length : Int) - 1, none⟩,
          coordinatesToAreaRef [(shiftRange dir num offset c).1,
          (shiftRange dir num offset c).2.1, (shiftRange dir num offset c).2.2.1,
          (shiftRange dir num offset c).2.2.2]) := by
  have hd := deleteAndStepBack_here count pre post b
  obtain ⟨x1, y1, x2, y2⟩ := c
  cases dir
  · simp only [onEditLine, shiftRange, isSingleCell, reduceCtorEq, false_and, false_or,
      true_and, if_false] at h1 h2 ⊢
    simp [adjustMergeCellsBody, h1, h2, hd]
  · simp only [onEditLine, shiftRange, isSingleCell, reduceCtorEq, false_and, or_false,
      true_and, if_true] at h1 h2 ⊢
    simp [adjustMergeCellsBody, h1, h2, hd]

theorem adjustMergeCellsBody_line (dir : adjustDirection) (num offset count : Int)
    (pre post : List xlsxMergeCell) (b : xlsxMergeCell) (c : Int × Int × Int × Int)
    (h1 : onEditLine dir num offset c) (h2 : ¬ isSingleCell (shiftRange dir num offset c)) :
    adjustMergeCellsBody dir num offset
        ⟨⟨count, pre ++ b :: post⟩, (pre.length : Int), some pre.length⟩ c
      = some (⟨⟨((pre ++ post).length : Int), pre ++ post⟩, (pre.length : Int) - 1, none⟩,
          coordinatesToAreaRef [(shiftRange dir num offset c).1,
          (shiftRange dir num offset c).2.1, (shiftRange dir num offset c).2.2.1,
          (shiftRange dir num offset c).2.2.2]) := by
  have hd := deleteAndStepBack_here count pre post b
  obtain ⟨x1, y1, x2, y2⟩ := c
  cases dir
  · simp only [onEditLine, shiftRange, isSingleCell, reduceCtorEq, false_and, false_or,
      true_and, if_false] at h1 h2 ⊢
    obtain ⟨e1, e2, e3⟩ := h1
    subst e1 e2
    simp only [and_true] at h2
    simp [adjustMergeCellsBody, h2, hd, e3]
  · simp only [onEditLine, shiftRange, isSingleCell, reduceCtorEq, false_and, or_false,
      true_and, if_true] at h1 h2 ⊢
    obtain ⟨e1, e2, e3⟩ := h1
    subst e1 e2
    simp only [true_and] at h2
    simp [adjustMergeCellsBody, h2, hd, e3]

theorem adjustMergeCellsBody_twice_first (dir : adjustDirection) (num offset count : Int)
    (post : List xlsxMergeCell) (b : xlsxMergeCell) (c : Int × Int × Int × Int)
    (h1 : onEditLine dir num offset c) (h2 : isSingleCell (shiftRange dir num offset c)) :
    adjustMergeCellsBody dir num offset ⟨⟨count, b :: post⟩, 0, some 0⟩ c = none := by
  have hd := deleteAndStepBack_here count [] post b
  have hd2 := deleteAndStepBack_before_start (post.length : Int) post
  simp only [List.nil_append, List.length_nil, Nat.cast_zero, zero_sub] at hd
  obtain ⟨x1, y1, x2, y2⟩ := c
  cases dir
  · simp only [onEditLine, shiftRange, isSingleCell, reduceCtorEq, false_and, false_or,
      true_and, if_false] at h1 h2 ⊢
    simp [adjustMergeCellsBody, h1, h2, hd, hd2]
  · simp only [onEditLine, shiftRange, isSingleCell, reduceCtorEq, false_and, or_false,
      true_and, if_true] at h1 h2 ⊢
    simp [adjustMergeCellsBody, h1, h2, hd, hd2]

theorem adjustMergeCellsBody_twice (dir : adjustDirection) (num offset count : Int)
    (pre post : List xlsxMergeCell) (a b : xlsxMergeCell) (c : Int × Int × Int × Int)
    (h1 : onEditLine dir num offset c) (h2 : isSingleCell (shiftRange dir num offset c)) :
    adjustMergeCellsBody dir num offset
        ⟨⟨count, (pre ++ [a]) ++ b :: post⟩, ((pre ++ [a]).length : Int),
          some (pre ++ [a]).length⟩ c
      = some (⟨⟨((pre ++ post).length : Int), pre ++ post⟩, ((pre ++ [a]).length : Int) - 2,
          none⟩,
          coordinatesToAreaRef [(shiftRange dir num offset c).1,
          (shiftRange dir num offset c).2.1, (shiftRange dir num offset c).2.2.1,
          (shiftRange dir num offset c).2.2.2]) := by
  have hd := deleteAndStepBack_here count (pre ++ [a]) post b
  have hd2 := deleteAndStepBack_mid ((pre ++ a :: post).length : Int) pre post a
  have e1 : (pre ++ [a]) ++ post = pre ++ a :: post := by simp
  have e2 : ((pre ++ [a]).length : Int) - 1 = (pre.length : Int) := by
    simp only [List.length_append, List.length_singleton]; push_cast; omega
  have e3 : (pre.length : Int) - 1 = ((pre ++ [a]).length : Int) - 2 := by
    simp only [List.length_append, List.length_singleton]; push_cast; omega
  rw [e1, e2] at hd
  rw [e3] at hd2
  obtain ⟨x1, y1, x2, y2⟩ := c
  cases dir
  · simp only [onEditLine, shiftRange, isSingleCell, reduceCtorEq, false_and, false_or,
      true_and, if_false] at h1 h2 ⊢
    simp only [adjustMergeCellsBody, h1, h2, hd, hd2, reduceCtorEq, if_false, if_true,
      and_self]
  · simp only [onEditLine, shiftRange, isSingleCell, reduceCtorEq, false_and, or_false,
      true_and, if_true] at h1 h2 ⊢
    simp only [adjustMergeCellsBody, h1, h2, hd, hd2, reduceCtorEq, if_false, if_true,
      and_self]

theorem shiftRange_pos (dir : adjustDirection) (num offset : Int) (c : Int × Int × Int × Int)
    (h : 1 ≤ c.1 ∧ 1 ≤ c.2.1 ∧ 1 ≤ c.2.2.1 ∧ 1 ≤ c.2.2.2) :
    1 ≤ (shiftRange dir num offset c).1 ∧ 1 ≤ (shiftRange dir num offset c).2.1 ∧
    1 ≤ (shiftRange dir num offset c).2.2.1 ∧ 1 ≤ (shiftRange dir num offset c).2.2.2 := by
  obtain ⟨x1, y1, x2, y2⟩ := c
  simp only at h
  cases dir <;> simp only [shiftRange, adjustMergeCellsHelper, reduceCtorEq, if_true, if_false]
    <;> refine ⟨?_, ?_, ?_, ?_⟩ <;> (try split_ifs) <;> omega

theorem adjustMergeCellsLoop_eq_pass (dir : adjustDirection) (num offset : Int)
    (todo : List xlsxMergeCell) :
    ∀ (done : List xlsxMergeCell) (count : Int) (fuel : Nat), todo.length ≤ fuel →
      adjustMergeCellsLoop dir num offset fuel (done.length : Int) ⟨count, done ++ todo⟩
        = mergeCellsPass dir num offset done todo count := by
  induction todo with
  | nil =>
    intro done count fuel _
    cases fuel <;> simp [adjustMergeCellsLoop, mergeCellsPass]
  | cons a todo ih =>
    intro done count fuel hfuel
    cases fuel with
    | zero => simp at hfuel
    | succ f =>
      have hf : todo.length ≤ f := by simpa using hfuel
      have hlt : (done.length : Int) < ((done ++ a :: todo).length : Int) := by
        simp only [List.length_append, List.length_cons]; push_cast; omega
      have hnn : ¬ ((done.length : Int) < 0) := by omega
      have hget : (done ++ a :: todo).get? done.length = some a := by
        rw [List.get?_eq_getElem?, List.getElem?_append_right (le_refl _)]
        simp
      simp only [adjustMergeCellsLoop, mergeCellsPass, hlt, hnn, if_true, if_false,
        Int.toNat_ofNat, hget]
      cases hdec : areaRefToCoordinates a.Ref with
      | error e => rfl
      | ok c =>
        have hpos := areaRefToCoordinates_pos a.Ref c.1 c.2.1 c.2.2.1 c.2.2.2 hdec
        have hsp := shiftRange_pos dir num offset c hpos
        have henc := coordinatesToAreaRef_ok _ _ _ _ hsp.1 hsp.2.1 hsp.2.2.1 hsp.2.2.2
        simp only
        by_cases h1 : onEditLine dir num offset c
        · by_cases h2 : isSingleCell (shiftRange dir num offset c)
          · simp only [h1, h2, if_true]
            rcases List.eq_nil_or_concat done with hd | ⟨pre, b, hd⟩
            · subst hd
              have := adjustMergeCellsBody_twice_first dir num offset count todo a c h1 h2
              simp only [List.nil_append, List.length_nil, Nat.cast_zero] at this ⊢
              rw [this]
              simp
            · rw [List.concat_eq_append] at hd
              subst hd
              rw [adjustMergeCellsBody_twice dir num offset count pre todo b a c h1 h2, henc]
              simp only [storeRef, List.dropLast_concat]
              have hne : pre ++ [b] ≠ [] := by simp
              simp only [hne, if_false]
              have hi : ((pre ++ [b]).length : Int) - 2 + 1 = (pre.length : Int) := by
                simp only [List.length_append, List.length_singleton]; push_cast; omega
              rw [hi]
              exact ih pre _ f hf
          · simp only [h1, h2, if_true, if_false]
            rw [adjustMergeCellsBody_line dir num offset count done todo a c h1 h2, henc]
            simp only [storeRef, sub_add_cancel]
            exact ih done _ f hf
        · by_cases h2 : isSingleCell (shiftRange dir num offset c)
          · simp only [h1, h2, if_true, if_false]
            rw [adjustMergeCellsBody_single dir num offset count done todo a c h1 h2, henc]
            simp only [storeRef, sub_add_cancel]
            exact ih done _ f hf
          · simp only [h1, h2, if_false]
            rw [adjustMergeCellsBody_keep dir num offset _ c h1 h2, henc]
            simp only [storeRef]
            have hset : (done ++ a :: todo).set done.length
                ⟨areaText (shiftRange dir num offset c).1 (shiftRange dir num offset c).2.1
                  (shiftRange dir num offset c).2.2.1 (shiftRange dir num offset c).2.2.2⟩
                = (done ++ [⟨areaText (shiftRange dir num offset c).1
                    (shiftRange dir num offset c).2.1
                    (shiftRange dir num offset c).2.2.1
                    (shiftRange dir num offset c).2.2.2⟩]) ++ todo := by
              simp
            rw [hset]
            have hi : (done.length : Int) + 1 = ((done ++ [(⟨areaText
                (shiftRange dir num offset c).1 (shiftRange dir num offset c).2.1
                (shiftRange dir num offset c).2.2.1
                (shiftRange dir num offset c).2.2.2⟩ : xlsxMergeCell)]).length : Int) := by
              simp
            rw [hi]
            exact ih _ count f hf

theorem adjustMergeCells_eq_pass (ws : xlsxWorksheet) (dir : adjustDirection)
    (num offset : Int) (mc : xlsxMergeCells) (h : ws.MergeCells = some mc) :
    adjustMergeCells ws dir num offset =
      match mergeCellsPass dir num offset [] mc.Cells mc.Count with
      | .returned e mc1 => .returned e { ws with MergeCells := some mc1 }
      | .panicked => .panicked
      | .outOfFuel => .outOfFuel := by
  have := adjustMergeCellsLoop_eq_pass dir num offset mc.Cells [] mc.Count mc.Cells.length
    (le_refl _)
  simp only [List.length_nil, Nat.cast_zero, List.nil_append] at this
  simp only [adjustMergeCells, h, this]

theorem mergeCellsPass_ne_outOfFuel (dir : adjustDirection) (num offset : Int)
    (todo : List xlsxMergeCell) :
    ∀ (done : List xlsxMergeCell) (count : Int),
      mergeCellsPass dir num offset done todo count ≠ .outOfFuel := by
  induction todo with
  | nil => intro done count; simp [mergeCellsPass]
  | cons a todo ih =>
    intro done count
    simp only [mergeCellsPass]
    cases areaRefToCoordinates a.Ref with
    | error e => simp
    | ok c =>
      simp only
      split_ifs <;> first | exact ih _ _ | simp

theorem adjustMergeCells_ne_outOfFuel (ws : xlsxWorksheet) (dir : adjustDirection)
    (num offset : Int) : adjustMergeCells ws dir num offset ≠ .outOfFuel := by
  cases hws : ws.MergeCells with
  | none => simp [adjustMergeCells, hws]
  | some mc =>
    rw [adjustMergeCells_eq_pass ws dir num offset mc hws]
    have := mergeCellsPass_ne_outOfFuel dir num offset mc.Cells [] mc.Count
    cases hp : mergeCellsPass dir num offset [] mc.Cells mc.Count with
    | outOfFuel => exact absurd hp this
    | panicked => simp
    | returned e mc1 => simp

theorem mergeCellsPass_invariant (dir : adjustDirection) (num offset : Int)
    (P Q : xlsxMergeCell → Prop)
    (hstep : ∀ a c, Q a → areaRefToCoordinates a.Ref = .ok c →
      ¬ isSingleCell (shiftRange dir num offset c) → P (shiftedMergeCell dir num offset a))
    (todo : List xlsxMergeCell) :
    ∀ (done : List xlsxMergeCell) (count : Int) (e : Option Error) (mc : xlsxMergeCells),
      (∀ x ∈ done, P x) → (∀ x ∈ todo, Q x) →
      mergeCellsPass dir num offset done todo count = .returned e mc →
      (∀ x ∈ mc.Cells, P x ∨ x ∈ todo) ∧ (e = none → ∀ x ∈ mc.Cells, P x) := by
  induction todo with
  | nil =>
    intro done count e mc hd _ h
    simp only [mergeCellsPass, Outcome.returned.injEq] at h
    obtain ⟨_, rfl⟩ := h
    exact ⟨fun x hx => Or.inl (hd x hx), fun _ x hx => hd x hx⟩
  | cons a todo ih =>
    intro done count e mc hd hq h
    have hq2 : ∀ x ∈ todo, Q x := fun x hx => hq x (by simp [hx])
    have lift : ∀ {e1 : Option Error} {mc1 : xlsxMergeCells},
        ((∀ x ∈ mc1.Cells, P x ∨ x ∈ todo) ∧ (e1 = none → ∀ x ∈ mc1.Cells, P x)) →
        ((∀ x ∈ mc1.Cells, P x ∨ x ∈ a :: todo) ∧ (e1 = none → ∀ x ∈ mc1.Cells, P x)) := by
      intro e1 mc1 hh
      refine ⟨fun x hx => ?_, hh.2⟩
      rcases hh.1 x hx with hp | ht
      · exact Or.inl hp
      · exact Or.inr (by simp [ht])
    simp only [mergeCellsPass] at h
    cases hdec : areaRefToCoordinates a.Ref with
    | error err =>
      rw [hdec] at h
      simp only [Outcome.returned.injEq] at h
      obtain ⟨rfl, rfl⟩ := h
      refine ⟨fun x hx => ?_, fun hn => by cases hn⟩
      simp only [List.mem_append] at hx
      rcases hx with hx | hx
      · exact Or.inl (hd x hx)
      · exact Or.inr hx
    | ok c =>
      rw [hdec] at h
      simp only at h
      split_ifs at h with h1 h2 h3 h4
      · exact lift (ih _ _ e mc (fun x hx => hd x (List.mem_of_mem_dropLast hx)) hq2 h)
      · exact lift (ih _ _ e mc hd hq2 h)
      · exact lift (ih _ _ e mc hd hq2 h)
      · refine lift (ih _ _ e mc ?_ hq2 h)
        intro x hx
        simp only [List.mem_append, List.mem_singleton] at hx
        rcases hx with hx | rfl
        · exact hd x hx
        · have := hstep a c (hq a (by simp)) hdec h4
          simpa [shiftedMergeCell, hdec] using this

theorem mergeCellsPass_count (dir : adjustDirection) (num offset : Int)
    (todo : List xlsxMergeCell) :
    ∀ (done : List xlsxMergeCell) (count : Int) (e : Option Error) (mc : xlsxMergeCells),
      count = ((done ++ todo).length : Int) →
      mergeCellsPass dir num offset done todo count = .returned e mc →
      mc.Count = (mc.Cells.length : Int) := by
  induction todo with
  | nil =>
    intro done count e mc hc h
    simp only [mergeCellsPass, Outcome.returned.injEq] at h
    obtain ⟨_, rfl⟩ := h
    simpa using hc
  | cons a todo ih =>
    intro done count e mc hc h
    simp only [mergeCellsPass] at h
    cases hdec : areaRefToCoordinates a.Ref with
    | error err =>
      rw [hdec] at h
      simp only [Outcome.returned.injEq] at h
      obtain ⟨_, rfl⟩ := h
      exact hc
    | ok c =>
      rw [hdec] at h
      simp only at h
      split_ifs at h with h1 h2 h3 h4
      · exact ih _ _ e mc rfl h
      · exact ih _ _ e mc rfl h
      · exact ih _ _ e mc rfl h
      · refine ih _ _ e mc ?_ h
        rw [hc]
        simp only [List.length_append, List.length_cons, List.length_singleton, List.length_nil]
        push_cast
        omega

theorem mergeCellsPass_keep_all (dir : adjustDirection) (num offset : Int)
    (todo : List xlsxMergeCell) :
    ∀ (done : List xlsxMergeCell) (count : Int),
      (∀ a ∈ todo, ∃ c, areaRefToCoordinates a.Ref = .ok c ∧ ¬ onEditLine dir num offset c ∧
        ¬ isSingleCell (shiftRange dir num offset c)) →
      mergeCellsPass dir num offset done todo count
        = .returned none ⟨count, done ++ todo.map (shiftedMergeCell dir num offset)⟩ := by
  induction todo with
  | nil => intro done count _; simp [mergeCellsPass]
  | cons a todo ih =>
    intro done count h
    obtain ⟨c, hdec, h1, h2⟩ := h a (by simp)
    simp only [mergeCellsPass, hdec, h1, h2, if_false]
    rw [ih _ count (fun b hb => h b (by simp [hb]))]
    simp [shiftedMergeCell, hdec]

theorem shiftedMergeCell_decode (dir : adjustDirection) (num offset : Int)
    (a : xlsxMergeCell) (c : Int × Int × Int × Int)
    (h : areaRefToCoordinates a.Ref = .ok c) :
    areaRefToCoordinates (shiftedMergeCell dir num offset a).Ref
      = .ok (shiftRange dir num offset c) := by
  have hpos := areaRefToCoordinates_pos a.Ref c.1 c.2.1 c.2.2.1 c.2.2.2 h
  have hsp := shiftRange_pos dir num offset c hpos
  simp only [shiftedMergeCell, h]
  exact areaRefToCoordinates_areaText _ _ _ _ hsp.1 hsp.2.1 hsp.2.2.1 hsp.2.2.2

theorem adjustMergeCellsHelper_mono (p q num offset : Int) (ho : -1 ≤ offset) (h : p ≤ q) :
    adjustMergeCellsHelper p num offset ≤ adjustMergeCellsHelper q num offset := by
  simp only [adjustMergeCellsHelper]
  split_ifs <;> omega

/-! ## Properties of the shifting rule and of the merged-cell adjuster -/

/-- The shifting rule on unbounded integers: `adjustMergeCellsHelper p n o` is
`p + o` raised to 1 when `p ≥ n`, is `p` when `p < n`, and is at least 1
whenever `p` is. -/
theorem adjustMergeCellsHelper_shift_rule (p n o : Int) :
    (n ≤ p → adjustMergeCellsHelper p n o = max (p + o) 1) ∧
    (p < n → adjustMergeCellsHelper p n o = p) ∧
    (1 ≤ p → 1 ≤ adjustMergeCellsHelper p n o) := by
  simp only [adjustMergeCellsHelper]
  refine ⟨fun h => ?_, fun h => ?_, fun h => ?_⟩
  · have hge : p ≥ n := h
    simp only [hge, if_true]
    split_ifs with h1
    · rw [max_eq_right (by omega)]
    · rw [max_eq_left (by omega)]
  · have hlt : ¬ (p ≥ n) := by omega
    simp only [hlt, if_false]
  · split_ifs <;> omega

/-- The unbounded shifting rule at pivots 7 and 3, edit position 5 and offset
-10. -/
theorem adjustMergeCellsHelper_shift_rule_witness :
    adjustMergeCellsHelper 7 5 (-10) = max (7 + -10) 1 ∧
    adjustMergeCellsHelper 3 5 (-10) = 3 ∧
    1 ≤ adjustMergeCellsHelper 7 5 (-10) :=
  ⟨(adjustMergeCellsHelper_shift_rule 7 5 (-10)).1 (by decide),
   (adjustMergeCellsHelper_shift_rule 3 5 (-10)).2.1 (by decide),
   (adjustMergeCellsHelper_shift_rule 7 5 (-10)).2.2 (by decide)⟩

/-- C3: on the collection `A1:B2, C5:C5` a deletion of row 5 removes `C5:C5`
twice over: the second `deleteMergeCell` call of the same iteration removes
`A1:B2`, a range that is neither on row 5 nor a single cell. -/
theorem adjustMergeCells_removes_other_range :
    adjustMergeCells ⟨[], none, some ⟨2, [⟨"A1:B2"⟩, ⟨"C5:C5"⟩]⟩, none⟩ .rows 5 (-1)
      = .returned none ⟨[], none, some ⟨0, []⟩, none⟩ ∧
    adjustMergeCells ⟨[], none, some ⟨1, [⟨"C5:C5"⟩]⟩, none⟩ .rows 5 (-1) = .panicked := by
  decide

/-- C4: when `adjustMergeCells` returns without error every range left in the
collection decodes and is not a single cell; and a collection holding one
range over rows 5–6 of one column is emptied by the deletion of row 6. -/
theorem adjustMergeCells_no_single_cell :
    (∀ (ws : xlsxWorksheet) (dir : adjustDirection) (num offset : Int) (ws1 : xlsxWorksheet),
      adjustMergeCells ws dir num offset = .returned none ws1 →
      ∀ mc, ws1.MergeCells = some mc → ∀ x ∈ mc.Cells, properRange x) ∧
    (∀ (ws : xlsxWorksheet) (a : xlsxMergeCell) (count col : Int),
      ws.MergeCells = some ⟨count, [a]⟩ →
      areaRefToCoordinates a.Ref = .ok (col, 5, col, 6) →
      adjustMergeCells ws .rows 6 (-1)
        = .returned none { ws with MergeCells := some ⟨0, []⟩ }) := by
  constructor
  · intro ws dir num offset ws1 h mc hmc x hx
    cases hws : ws.MergeCells with
    | none =>
      simp only [adjustMergeCells, hws, Outcome.returned.injEq, true_and] at h
      subst h
      rw [hws] at hmc
      cases hmc
    | some mc0 =>
      rw [adjustMergeCells_eq_pass ws dir num offset mc0 hws] at h
      cases hp : mergeCellsPass dir num offset [] mc0.Cells mc0.Count with
      | outOfFuel => rw [hp] at h; cases h
      | panicked => rw [hp] at h; cases h
      | returned e mc1 =>
        rw [hp] at h
        simp only [Outcome.returned.injEq] at h
        obtain ⟨rfl, rfl⟩ := h
        simp only [Option.some.injEq] at hmc
        subst hmc
        have hinv := mergeCellsPass_invariant dir num offset properRange (fun _ => True)
          (fun a c _ hdec hns => ⟨_, shiftedMergeCell_decode dir num offset a c hdec, hns⟩)
          mc0.Cells [] mc0.Count none mc1 (by simp) (by simp) hp
        exact hinv.2 rfl x hx
  · intro ws a count col hws hdec
    rw [adjustMergeCells_eq_pass ws .rows 6 (-1) _ hws]
    have h1 : ¬ onEditLine .rows 6 (-1) (col, 5, col, 6) := by
      simp [onEditLine]
    have h2 : isSingleCell (shiftRange .rows 6 (-1) (col, 5, col, 6)) := by
      simp [isSingleCell, shiftRange, adjustMergeCellsHelper]
    simp [mergeCellsPass, hdec, h1, h2]

/-- The degeneracy invariant on `A5:A6, B5:C8` and on `A5:A6` for the deletion of row 6. -/
theorem adjustMergeCells_no_single_cell_witness :
    properRange ⟨"B5:C7"⟩ ∧
    adjustMergeCells ⟨[], none, some ⟨1, [⟨"A5:A6"⟩]⟩, none⟩ .rows 6 (-1)
      = .returned none ⟨[], none, some ⟨0, []⟩, none⟩ :=
  ⟨adjustMergeCells_no_single_cell.1
      ⟨[], none, some ⟨2, [⟨"A5:A6"⟩, ⟨"B5:C8"⟩]⟩, none⟩ .rows 6 (-1)
      ⟨[], none, some ⟨1, [⟨"B5:C7"⟩]⟩, none⟩ (by decide) ⟨1, [⟨"B5:C7"⟩]⟩ rfl
      ⟨"B5:C7"⟩ (by simp),
   adjustMergeCells_no_single_cell.2
      ⟨[], none, some ⟨1, [⟨"A5:A6"⟩]⟩, none⟩ ⟨"A5:A6"⟩ 1 1 rfl (by decide)⟩

/-- C5, as stated, fails: deleting three rows at row 6 turns the ordered
range `A5:A6` into `A5:A3`, whose top row is below its bottom row. -/
theorem multi_row_deletion_inverts_range :
    ¬ (∀ (ws : xlsxWorksheet) (dir : adjustDirection) (num offset : Int) (e : Option Error)
        (ws1 : xlsxWorksheet),
        (∀ mc, ws.MergeCells = some mc → ∀ x ∈ mc.Cells, orderedRange x) →
        adjustMergeCells ws dir num offset = .returned e ws1 →
        ∀ mc, ws1.MergeCells = some mc → ∀ x ∈ mc.Cells, orderedRange x) := by
  intro h
  have hin : ∀ mc, (⟨[], none, some ⟨1, [⟨"A5:A6"⟩]⟩, none⟩ : xlsxWorksheet).MergeCells = some mc →
      ∀ x ∈ mc.Cells, orderedRange x := by
    intro mc hmc x hx
    simp only [Option.some.injEq] at hmc
    subst hmc
    simp only [List.mem_singleton] at hx
    subst hx
    exact ⟨(1, 5, 1, 6), by decide, by decide⟩
  have hrun : adjustMergeCells ⟨[], none, some ⟨1, [⟨"A5:A6"⟩]⟩, none⟩ .rows 6 (-3)
      = .returned none ⟨[], none, some ⟨1, [⟨"A5:A3"⟩]⟩, none⟩ := by decide
  obtain ⟨c, hc, _, hrow⟩ := h _ .rows 6 (-3) none _ hin hrun ⟨1, [⟨"A5:A3"⟩]⟩ rfl ⟨"A5:A3"⟩
    (by simp)
  have hdec : areaRefToCoordinates "A5:A3" = .ok (1, 5, 1, 3) := by decide
  rw [hdec] at hc
  simp only [Except.ok.injEq] at hc
  subst hc
  exact absurd hrow (by decide)

/-- C5, amended: for every axis, position and offset ≥ -1 (any insertion, or
the deletion of one line), if every merge range decodes with left column ≤
right column and top row ≤ bottom row before `adjustMergeCells`, then so does
every merge range left in the collection when the call returns. -/
theorem adjustMergeCells_ordered (ws : xlsxWorksheet) (dir : adjustDirection)
    (num offset : Int) (e : Option Error) (ws1 : xlsxWorksheet)
    (hoff : -1 ≤ offset)
    (hord : ∀ mc, ws.MergeCells = some mc → ∀ x ∈ mc.Cells, orderedRange x)
    (h : adjustMergeCells ws dir num offset = .returned e ws1) :
    ∀ mc, ws1.MergeCells = some mc → ∀ x ∈ mc.Cells, orderedRange x := by
  intro mc hmc x hx
  cases hws : ws.MergeCells with
  | none =>
    simp only [adjustMergeCells, hws, Outcome.returned.injEq] at h
    obtain ⟨_, rfl⟩ := h
    rw [hws] at hmc
    cases hmc
  | some mc0 =>
    rw [adjustMergeCells_eq_pass ws dir num offset mc0 hws] at h
    cases hp : mergeCellsPass dir num offset [] mc0.Cells mc0.Count with
    | outOfFuel => rw [hp] at h; cases h
    | panicked => rw [hp] at h; cases h
    | returned e1 mc1 =>
      rw [hp] at h
      simp only [Outcome.returned.injEq] at h
      obtain ⟨rfl, rfl⟩ := h
      simp only [Option.some.injEq] at hmc
      subst hmc
      have hstep : ∀ a c, orderedRange a → areaRefToCoordinates a.Ref = .ok c →
          ¬ isSingleCell (shiftRange dir num offset c) →
          orderedRange (shiftedMergeCell dir num offset a) := by
        intro a c ha hdec _
        obtain ⟨c1, hc1, hx12, hy12⟩ := ha
        rw [hdec] at hc1
        simp only [Except.ok.injEq] at hc1
        subst hc1
        refine ⟨_, shiftedMergeCell_decode dir num offset a c hdec, ?_⟩
        cases dir
        · simp only [shiftRange, reduceCtorEq, if_false]
          exact ⟨adjustMergeCellsHelper_mono _ _ num offset hoff hx12, hy12⟩
        · simp only [shiftRange, if_true]
          exact ⟨hx12, adjustMergeCellsHelper_mono _ _ num offset hoff hy12⟩
      have hinv := mergeCellsPass_invariant dir num offset orderedRange orderedRange hstep
        mc0.Cells [] mc0.Count e1 mc1 (by simp) (hord mc0 hws) hp
      rcases hinv.1 x hx with hpx | hin
      · exact hpx
      · exact hord mc0 hws x hin

/-- The ordering invariant on `A5:A7, B1:C2` for the deletion of row 6. -/
theorem adjustMergeCells_ordered_witness :
    orderedRange ⟨"A5:A6"⟩ ∧ orderedRange ⟨"B1:C2"⟩ :=
  have hord : ∀ mc,
      (⟨[], none, some ⟨2, [⟨"A5:A7"⟩, ⟨"B1:C2"⟩]⟩, none⟩ : xlsxWorksheet).MergeCells = some mc →
      ∀ x ∈ mc.Cells, orderedRange x := by
    intro mc hmc x hx
    simp only [Option.some.injEq] at hmc
    subst hmc
    simp only [List.mem_cons, List.mem_singleton, List.not_mem_nil, or_false] at hx
    rcases hx with rfl | rfl
    · exact ⟨(1, 5, 1, 7), by decide, by decide⟩
    · exact ⟨(2, 1, 3, 2), by decide, by decide⟩
  ⟨adjustMergeCells_ordered ⟨[], none, some ⟨2, [⟨"A5:A7"⟩, ⟨"B1:C2"⟩]⟩, none⟩ .rows 6 (-1) none
      ⟨[], none, some ⟨2, [⟨"A5:A6"⟩, ⟨"B1:C2"⟩]⟩, none⟩ (by decide) hord (by decide)
      ⟨2, [⟨"A5:A6"⟩, ⟨"B1:C2"⟩]⟩ rfl ⟨"A5:A6"⟩ (by simp),
   adjustMergeCells_ordered ⟨[], none, some ⟨2, [⟨"A5:A7"⟩, ⟨"B1:C2"⟩]⟩, none⟩ .rows 6 (-1) none
      ⟨[], none, some ⟨2, [⟨"A5:A6"⟩, ⟨"B1:C2"⟩]⟩, none⟩ (by decide) hord (by decide)
      ⟨2, [⟨"A5:A6"⟩, ⟨"B1:C2"⟩]⟩ rfl ⟨"B1:C2"⟩ (by simp)⟩

/-- C6: if `Count` equals the number of ranges held before `adjustMergeCells`,
it equals the number of ranges held after the call, whether the call returns
an error or not. -/
theorem adjustMergeCells_count (ws : xlsxWorksheet) (dir : adjustDirection)
    (num offset : Int) (e : Option Error) (ws1 : xlsxWorksheet)
    (hcount : ∀ mc, ws.MergeCells = some mc → mc.Count = (mc.Cells.length : Int))
    (h : adjustMergeCells ws dir num offset = .returned e ws1) :
    ∀ mc, ws1.MergeCells = some mc → mc.Count = (mc.Cells.length : Int) := by
  intro mc hmc
  cases hws : ws.MergeCells with
  | none =>
    simp only [adjustMergeCells, hws, Outcome.returned.injEq] at h
    obtain ⟨_, rfl⟩ := h
    rw [hws] at hmc
    cases hmc
  | some mc0 =>
    rw [adjustMergeCells_eq_pass ws dir num offset mc0 hws] at h
    cases hp : mergeCellsPass dir num offset [] mc0.Cells mc0.Count with
    | outOfFuel => rw [hp] at h; cases h
    | panicked => rw [hp] at h; cases h
    | returned e1 mc1 =>
      rw [hp] at h
      simp only [Outcome.returned.injEq] at h
      obtain ⟨rfl, rfl⟩ := h
      simp only [Option.some.injEq] at hmc
      subst hmc
      exact mergeCellsPass_count dir num offset mc0.Cells [] mc0.Count e1 mc1
        (by simpa using hcount mc0 hws) hp

/-- The count invariant on a collection whose pass removes two ranges and then stops on an undecodable one. -/
theorem adjustMergeCells_count_witness :
    (1 : Int) = (([(⟨"oops"⟩ : xlsxMergeCell)]).length : Int) :=
  adjustMergeCells_count ⟨[], none, some ⟨3, [⟨"A5:A6"⟩, ⟨"B5:B5"⟩, ⟨"oops"⟩]⟩, none⟩ .rows 6 (-1)
    (some .ErrParameterInvalid) ⟨[], none, some ⟨1, [⟨"oops"⟩]⟩, none⟩
    (by
      intro mc hmc
      simp only [Option.some.injEq] at hmc
      subst hmc
      rfl)
    (by decide) ⟨1, [⟨"oops"⟩]⟩ rfl

/-! ## Properties of the hyperlink adjuster -/

theorem adjustHyperlinksDelete_spec (sheet : String) (dir : adjustDirection) (num : Int)
    (pre : List xlsxHyperlink) :
    ∀ (suffix : List xlsxHyperlink) (f : File), (pre ≠ [] ∨ suffix ≠ []) →
      adjustHyperlinksDelete sheet dir num pre.length (some (pre ++ suffix), f)
        = .returned none
          (if pre.filter (fun l => !decide (hyperlinkOnLine dir num l)) ++ suffix = [] then none
           else some (pre.filter (fun l => !decide (hyperlinkOnLine dir num l)) ++ suffix),
           { f with DeletedRelationships := f.DeletedRelationships ++
              ((pre.filter (fun l => decide (hyperlinkOnLine dir num l))).reverse.map
                (fun l => (sheet, l.RID))) }) := by
  induction pre using List.reverseRecOn with
  | nil =>
    intro suffix f h
    have hs : suffix ≠ [] := by simpa using h
    simp [adjustHyperlinksDelete, hs]
  | append_singleton pre l ih =>
    intro suffix f _
    have hget : (pre ++ [l] ++ suffix).get? pre.length = some l := by
      rw [List.get?_eq_getElem?, List.append_assoc,
        List.getElem?_append_right (le_refl _)]
      simp
    simp only [List.length_append, List.length_singleton, adjustHyperlinksDelete, hget]
    by_cases hon : hyperlinkOnLine dir num l
    · simp only [hon, if_true]
      by_cases hlen : pre.length + 1 + suffix.length > 1
      · simp only [hlen, if_true]
        have htake : List.take pre.length (pre ++ [l] ++ suffix)
            ++ List.drop (pre.length + 1) (pre ++ [l] ++ suffix) = pre ++ suffix := by
          rw [List.append_assoc, List.take_left']
          · have : pre.length + 1 = (pre ++ [l]).length := by simp
            rw [← List.append_assoc, this, List.drop_left]
          · rfl
        rw [htake, ih suffix _ (by
          rcases pre with _ | ⟨a, pre⟩
          · right; intro hs; subst hs; simp at hlen
          · left; simp)]
        simp [List.filter_append, hon, deleteSheetRelationships]
      · simp only [hlen, if_false]
        have hp : pre = [] := by
          rcases pre with _ | ⟨a, pre⟩
          · rfl
          · simp only [List.length_cons] at hlen
            omega
        have hs : suffix = [] := by
          rcases suffix with _ | ⟨a, suffix⟩
          · rfl
          · simp only [List.length_cons] at hlen
            omega
        subst hp hs
        simp [adjustHyperlinksDelete, hon, deleteSheetRelationships]
    · simp only [hon, if_false]
      have := ih (l :: suffix) f (Or.inr (by simp))
      rw [show pre ++ [l] ++ suffix = pre ++ l :: suffix by simp, this]
      simp [List.filter_append, hon]

theorem adjustHyperlinks_of_delete (ws : xlsxWorksheet) (f : File) (sheet : String)
    (dir : adjustDirection) (num offset : Int) (links : List xlsxHyperlink)
    (hl : ws.Hyperlinks = some links) (hne : links ≠ []) (ho : offset < 0) :
    adjustHyperlinks ws f sheet dir num offset
      = .returned none
        ({ ws with Hyperlinks :=
            if links.filter (fun l => !decide (hyperlinkOnLine dir num l)) = [] then none
            else some ((links.filter (fun l => !decide (hyperlinkOnLine dir num l))).map
              (adjustHyperlinkRef dir num offset)) },
         { f with DeletedRelationships := f.DeletedRelationships ++
            ((links.filter (fun l => decide (hyperlinkOnLine dir num l))).reverse.map
              (fun l => (sheet, l.RID))) }) := by
  cases links with
  | nil => exact absurd rfl hne
  | cons l ls =>
    have hspec := adjustHyperlinksDelete_spec sheet dir num (l :: ls) [] f (Or.inl (by simp))
    simp only [List.append_nil] at hspec
    simp only [adjustHyperlinks, hl, ho, if_true, hspec]
    split_ifs with hk <;> rfl

theorem adjustHyperlinks_of_insert (ws : xlsxWorksheet) (f : File) (sheet : String)
    (dir : adjustDirection) (num offset : Int) (links : List xlsxHyperlink)
    (hl : ws.Hyperlinks = some links) (hne : links ≠ []) (ho : ¬ offset < 0) :
    adjustHyperlinks ws f sheet dir num offset
      = .returned none
        ({ ws with Hyperlinks := some (links.map (adjustHyperlinkRef dir num offset)) }, f) := by
  cases links with
  | nil => exact absurd rfl hne
  | cons l ls => simp only [adjustHyperlinks, hl, ho, if_false]

/-- C7: on a non-empty hyperlink list with decodable anchors, a deletion
(`offset < 0`) removes exactly the hyperlinks whose anchor coordinate on the
edit axis is `num`, keeps the others in order (each with its relationship id),
calls `deleteSheetRelationships` once per removed hyperlink with its id and
for no other, and leaves the collection nil when nothing is kept; an
insertion (`offset > 0`) removes nothing and makes no call. -/
theorem adjustHyperlinks_removes_exactly (ws : xlsxWorksheet) (f : File) (sheet : String)
    (dir : adjustDirection) (num offset : Int) (links : List xlsxHyperlink)
    (hl : ws.Hyperlinks = some links) (hne : links ≠ [])
    (hdec : ∀ l ∈ links, ∃ c r, CellNameToCoordinates l.Ref = .ok (c, r)) :
    (∀ l ∈ links, ∃ c r, CellNameToCoordinates l.Ref = .ok (c, r) ∧
      (hyperlinkOnLine dir num l ↔ ((dir = .rows ∧ r = num) ∨ (dir = .columns ∧ c = num)))) ∧
    (offset < 0 →
      ∃ ws1 f1, adjustHyperlinks ws f sheet dir num offset = .returned none (ws1, f1) ∧
        ws1.Hyperlinks =
          (if links.filter (fun l => !decide (hyperlinkOnLine dir num l)) = [] then none
           else some ((links.filter (fun l => !decide (hyperlinkOnLine dir num l))).map
              (adjustHyperlinkRef dir num offset))) ∧
        ((ws1.Hyperlinks.getD []).map (fun l => l.RID)
          = (links.filter (fun l => !decide (hyperlinkOnLine dir num l))).map (fun l => l.RID)) ∧
        f1.DeletedRelationships = f.DeletedRelationships ++
          ((links.filter (fun l => decide (hyperlinkOnLine dir num l))).reverse.map
            (fun l => (sheet, l.RID))) ∧
        f1.CalcChain = f.CalcChain) ∧
    (offset > 0 →
      ∃ ws1, adjustHyperlinks ws f sheet dir num offset = .returned none (ws1, f) ∧
        ws1.Hyperlinks = some (links.map (adjustHyperlinkRef dir num offset)) ∧
        (ws1.Hyperlinks.getD []).map (fun l => l.RID) = links.map (fun l => l.RID)) := by
  have hrid : ∀ ls : List xlsxHyperlink,
      (ls.map (adjustHyperlinkRef dir num offset)).map (fun l => l.RID)
        = ls.map (fun l => l.RID) := by
    intro ls
    rw [List.map_map]
    apply List.map_congr_left
    intro l _
    simp only [Function.comp, adjustHyperlinkRef]
    split_ifs <;> rfl
  refine ⟨?_, ?_, ?_⟩
  · intro l hmem
    obtain ⟨c, r, hc⟩ := hdec l hmem
    refine ⟨c, r, hc, ?_⟩
    simp only [hyperlinkOnLine, coordinatesOrDefault_of_ok l.Ref (c, r) hc]
    constructor
    · rintro (⟨hd, hn⟩ | ⟨hd, hn⟩)
      · exact Or.inl ⟨hd, hn.symm⟩
      · exact Or.inr ⟨hd, hn.symm⟩
    · rintro (⟨hd, hn⟩ | ⟨hd, hn⟩)
      · exact Or.inl ⟨hd, hn.symm⟩
      · exact Or.inr ⟨hd, hn.symm⟩
  · intro ho
    refine ⟨_, _, adjustHyperlinks_of_delete ws f sheet dir num offset links hl hne ho,
      rfl, ?_, rfl, rfl⟩
    simp only
    split_ifs with hk
    · simp [hk]
    · simp only [Option.getD_some]
      exact hrid _
  · intro ho
    refine ⟨_, adjustHyperlinks_of_insert ws f sheet dir num offset links hl hne (by omega),
      rfl, ?_⟩
    simp only [Option.getD_some]
    exact hrid _

/-- Anchors at rows 3, 5 and 7: deleting row 5 leaves the row-3 anchor, moves the row-7 anchor to row 6 and makes one deletion call. -/
theorem adjustHyperlinks_removes_exactly_witness :
    ∃ ws1 f1,
      adjustHyperlinks ⟨[], some [⟨"A3", "rId1"⟩, ⟨"A5", "rId2"⟩, ⟨"A7", "rId3"⟩], none, none⟩
        ⟨none, []⟩ "Sheet1" .rows 5 (-1) = .returned none (ws1, f1) ∧
      ws1.Hyperlinks = some [⟨"A3", "rId1"⟩, ⟨"A6", "rId3"⟩] ∧
      f1.DeletedRelationships = [("Sheet1", "rId2")] := by
  obtain ⟨ws1, f1, hrun, hlinks, _, hlog, _⟩ :=
    (adjustHyperlinks_removes_exactly
      ⟨[], some [⟨"A3", "rId1"⟩, ⟨"A5", "rId2"⟩, ⟨"A7", "rId3"⟩], none, none⟩
      ⟨none, []⟩ "Sheet1" .rows 5 (-1) [⟨"A3", "rId1"⟩, ⟨"A5", "rId2"⟩, ⟨"A7", "rId3"⟩]
      rfl (by decide)
      (by
        intro l hl
        simp only [List.mem_cons, List.mem_singleton, List.not_mem_nil, or_false] at hl
        rcases hl with rfl | rfl | rfl
        · exact ⟨1, 3, by decide⟩
        · exact ⟨1, 5, by decide⟩
        · exact ⟨1, 7, by decide⟩)).2.1 (by decide)
  refine ⟨ws1, f1, hrun, ?_, ?_⟩
  · rw [hlinks]; decide
  · rw [hlog]; decide

/-- C8: a hyperlink anchored at `A2` on a sheet from which three rows are
deleted at row 1 is kept, but its anchor becomes the empty string, which is
not a cell reference; the shifting rule would give row 1. -/
theorem adjustHyperlinks_stores_empty_anchor :
    adjustHyperlinks ⟨[], some [⟨"A2", "rId1"⟩], none, none⟩ ⟨none, []⟩ "Sheet1" .rows 1 (-3)
      = .returned none (⟨[], some [⟨"", "rId1"⟩], none, none⟩, ⟨none, []⟩) ∧
    CellNameToCoordinates "" = .error .InvalidReference ∧
    adjustMergeCellsHelper 2 1 (-3) = 1 := by
  decide

/-! ## Properties of the auto-filter adjuster and of the stage sequence -/

theorem adjustHyperlinks_returns (ws : xlsxWorksheet) (f : File) (sheet : String)
    (dir : adjustDirection) (num offset : Int) :
    ∃ ws1 f1, adjustHyperlinks ws f sheet dir num offset = .returned none (ws1, f1) ∧
      ws1.SheetData = ws.SheetData ∧ ws1.MergeCells = ws.MergeCells ∧
      ws1.AutoFilter = ws.AutoFilter ∧ f1.CalcChain = f.CalcChain := by
  cases hl : ws.Hyperlinks with
  | none => exact ⟨ws, f, by simp [adjustHyperlinks, hl], rfl, rfl, rfl, rfl⟩
  | some links =>
    cases links with
    | nil => exact ⟨ws, f, by simp [adjustHyperlinks, hl], rfl, rfl, rfl, rfl⟩
    | cons l ls =>
      by_cases ho : offset < 0
      · exact ⟨_, _, adjustHyperlinks_of_delete ws f sheet dir num offset (l :: ls) hl
          (by simp) ho, rfl, rfl, rfl, rfl⟩
      · exact ⟨_, _, adjustHyperlinks_of_insert ws f sheet dir num offset (l :: ls) hl
          (by simp) ho, rfl, rfl, rfl, rfl⟩

theorem adjustMergeCells_frame (ws ws0 wsm : xlsxWorksheet) (dir : adjustDirection)
    (num offset : Int) (e : Option Error)
    (h : adjustMergeCells ws dir num offset = .returned e wsm)
    (hsame : ws0.MergeCells = ws.MergeCells) :
    adjustMergeCells ws0 dir num offset
      = .returned e { ws0 with MergeCells := wsm.MergeCells } := by
  cases hws : ws.MergeCells with
  | none =>
    rw [hws] at hsame
    simp only [adjustMergeCells, hws, Outcome.returned.injEq] at h
    obtain ⟨rfl, rfl⟩ := h
    simp only [adjustMergeCells, hsame, hws]
    cases ws0
    simp_all
  | some mc =>
    rw [hws] at hsame
    simp only [adjustMergeCells, hws] at h
    simp only [adjustMergeCells, hsame]
    cases hp : adjustMergeCellsLoop dir num offset mc.Cells.length 0 mc with
    | outOfFuel => rw [hp] at h; cases h
    | panicked => rw [hp] at h; cases h
    | returned e1 mc1 =>
      rw [hp] at h
      simp only [Outcome.returned.injEq] at h
      obtain ⟨rfl, rfl⟩ := h
      rfl

theorem unhideRow_adjustRow (t b : Int) (ht : 1 ≤ t) (r : xlsxRow) :
    unhideRow t b (adjustRow t (-1) r)
      = { adjustRow t (-1) r with
          Hidden := if t + 2 ≤ r.R ∧ r.R ≤ b + 1 then false else r.Hidden } := by
  simp only [unhideRow, adjustRow, ajustSingleRowDimensions]
  by_cases h1 : r.R ≥ t ∧ r.R + -1 > 0
  · simp only [h1, and_self, if_true]
    by_cases h2 : t + 2 ≤ r.R ∧ r.R ≤ b + 1
    · have h3 : r.R + -1 > t ∧ r.R + -1 ≤ b := by omega
      simp only [h2, h3, and_self, if_true]
    · have h3 : ¬ (r.R + -1 > t ∧ r.R + -1 ≤ b) := by omega
      simp only [h2, h3, if_false]
  · simp only [h1, if_false]
    have h2 : ¬ (t + 2 ≤ r.R ∧ r.R ≤ b + 1) := by omega
    have h3 : ¬ (r.R > t ∧ r.R ≤ b) := by omega
    simp only [h2, h3, if_false]

/-- C10: called on its own on a filter decoding to columns `x1..x2` and rows
`y1..y2`, `adjustAutoFilter` clears the filter exactly when it is a row
deletion at `y1` or a column edit with `x1 = x2 = num`; it then returns no
error, un-hides the rows numbered in `y1+1..y2` and changes nothing else. -/
theorem adjustAutoFilter_removal (ws : xlsxWorksheet) (dir : adjustDirection)
    (num offset : Int) (af : xlsxAutoFilter) (x1 y1 x2 y2 : Int)
    (haf : ws.AutoFilter = some af)
    (hdec : areaRefToCoordinates af.Ref = .ok (x1, y1, x2, y2)) :
    ((adjustAutoFilter ws dir num offset).2.AutoFilter = none ↔
      ((dir = .rows ∧ num = y1 ∧ offset < 0) ∨ (dir = .columns ∧ x1 = num ∧ x2 = num))) ∧
    (((dir = .rows ∧ num = y1 ∧ offset < 0) ∨ (dir = .columns ∧ x1 = num ∧ x2 = num)) →
      adjustAutoFilter ws dir num offset
        = (none, { ws with
            AutoFilter := none
            SheetData := ws.SheetData.map (fun r =>
              if y1 < r.R ∧ r.R ≤ y2 then { r with Hidden := false } else r) })) := by
  have hcond : ((dir = .rows ∧ y1 = num ∧ offset < 0) ∨ (dir = .columns ∧ x1 = num ∧ x2 = num))
      ↔ ((dir = .rows ∧ num = y1 ∧ offset < 0) ∨ (dir = .columns ∧ x1 = num ∧ x2 = num)) := by
    constructor <;> rintro (⟨a, b, c⟩ | h) <;> first | exact Or.inl ⟨a, b.symm, c⟩ | exact Or.inr h
  by_cases hc : (dir = .rows ∧ y1 = num ∧ offset < 0) ∨ (dir = .columns ∧ x1 = num ∧ x2 = num)
  · have hrun : adjustAutoFilter ws dir num offset
        = (none, { ws with
            AutoFilter := none
            SheetData := ws.SheetData.map (fun r =>
              if y1 < r.R ∧ r.R ≤ y2 then { r with Hidden := false } else r) }) := by
      simp only [adjustAutoFilter, haf, hdec, hc, if_true]
      rfl
    refine ⟨?_, fun _ => hrun⟩
    rw [hrun]
    exact ⟨fun _ => hcond.1 hc, fun _ => rfl⟩
  · refine ⟨?_, fun h => absurd (hcond.2 h) hc⟩
    constructor
    · intro h
      exfalso
      simp only [adjustAutoFilter, haf, hdec, hc, if_false] at h
      split at h <;> simp at h
    · intro h
      exact absurd (hcond.2 h) hc

/-- The filter `A2:C10` cleared by the deletion of row 2, called on its own. -/
theorem adjustAutoFilter_removal_witness :
    adjustAutoFilter
        ⟨[⟨2, true, []⟩, ⟨3, true, [⟨"A3", "x"⟩]⟩, ⟨10, true, []⟩, ⟨11, true, []⟩], none, none,
          some ⟨"A2:C10"⟩⟩ .rows 2 (-1)
      = (none, ⟨[⟨2, true, []⟩, ⟨3, false, [⟨"A3", "x"⟩]⟩, ⟨10, false, []⟩, ⟨11, true, []⟩],
          none, none, none⟩) :=
  (adjustAutoFilter_removal
    ⟨[⟨2, true, []⟩, ⟨3, true, [⟨"A3", "x"⟩]⟩, ⟨10, true, []⟩, ⟨11, true, []⟩], none, none,
      some ⟨"A2:C10"⟩⟩ .rows 2 (-1) ⟨"A2:C10"⟩ 1 2 3 10 rfl (by decide)).2
    (Or.inl ⟨rfl, rfl, by decide⟩)

/-- C9: with the filter `A2:C10` and every row hidden, the stage sequence for
the deletion of row 2 clears the filter but leaves the row that was row 3
hidden (it is row 2 when the filter stage runs) and un-hides the row that was
row 11 (it is row 10 by then), where the claim has rows 3 to 10 un-hidden and
row 11 left alone. The same branch un-hides exactly the rows 3 to 10 when
rows are not renumbered first: on the column edit that removes the filter
`C2:C10`, and when `adjustAutoFilter` is called on its own. -/
theorem filter_removal_unhides_shifted_rows :
    adjustHelperStages
        ⟨[⟨1, true, [⟨"A1", "a"⟩]⟩, ⟨3, true, [⟨"A3", "b"⟩]⟩, ⟨4, true, [⟨"A4", "c"⟩]⟩,
          ⟨10, true, [⟨"A10", "d"⟩]⟩, ⟨11, true, [⟨"A11", "e"⟩]⟩, ⟨12, true, [⟨"A12", "f"⟩]⟩],
          none, none, some ⟨"A2:C10"⟩⟩
        ⟨none, []⟩ "Sheet1" 1 .rows 2 (-1)
      = .returned none
        (⟨[⟨1, true, [⟨"A1", "a"⟩]⟩, ⟨2, true, [⟨"A2", "b"⟩]⟩, ⟨3, false, [⟨"A3", "c"⟩]⟩,
          ⟨9, false, [⟨"A9", "d"⟩]⟩, ⟨10, false, [⟨"A10", "e"⟩]⟩, ⟨11, true, [⟨"A11", "f"⟩]⟩],
          none, none, none⟩, ⟨none, []⟩) ∧
    adjustHelperStages
        ⟨[⟨1, true, [⟨"A1", "a"⟩]⟩, ⟨2, true, [⟨"A2", "b"⟩]⟩, ⟨3, true, [⟨"A3", "c"⟩]⟩,
          ⟨10, true, [⟨"A10", "d"⟩]⟩, ⟨11, true, [⟨"A11", "e"⟩]⟩],
          none, none, some ⟨"C2:C10"⟩⟩
        ⟨none, []⟩ "Sheet1" 1 .columns 3 (-1)
      = .returned none
        (⟨[⟨1, true, [⟨"A1", "a"⟩]⟩, ⟨2, true, [⟨"A2", "b"⟩]⟩, ⟨3, false, [⟨"A3", "c"⟩]⟩,
          ⟨10, false, [⟨"A10", "d"⟩]⟩, ⟨11, true, [⟨"A11", "e"⟩]⟩],
          none, none, none⟩, ⟨none, []⟩) ∧
    adjustAutoFilter
        ⟨[⟨1, true, [⟨"A1", "a"⟩]⟩, ⟨3, true, [⟨"A3", "b"⟩]⟩, ⟨4, true, [⟨"A4", "c"⟩]⟩,
          ⟨10, true, [⟨"A10", "d"⟩]⟩, ⟨11, true, [⟨"A11", "e"⟩]⟩, ⟨12, true, [⟨"A12", "f"⟩]⟩],
          none, none, some ⟨"A2:C10"⟩⟩ .rows 2 (-1)
      = (none,
        ⟨[⟨1, true, [⟨"A1", "a"⟩]⟩, ⟨3, false, [⟨"A3", "b"⟩]⟩, ⟨4, false, [⟨"A4", "c"⟩]⟩,
          ⟨10, false, [⟨"A10", "d"⟩]⟩, ⟨11, true, [⟨"A11", "e"⟩]⟩, ⟨12, true, [⟨"A12", "f"⟩]⟩],
          none, none, none⟩) := by
  decide

/-- What the stage sequence does on the deletion of the top row `t` of a filter
spanning rows `t..b`, when the merge stage returns without error: the filter
is cleared and `Hidden = false` is set on the rows whose number after the row
rewrite is in `t+1..b`, that is whose number before the edit was in
`t+2..b+1`; every other row keeps its flag. -/
theorem adjustHelperStages_filter_removal (ws : xlsxWorksheet) (f : File) (sheet : String)
    (sheetID : Int) (af : xlsxAutoFilter) (x1 t x2 b : Int) (wsm : xlsxWorksheet)
    (haf : ws.AutoFilter = some af)
    (hdec : areaRefToCoordinates af.Ref = .ok (x1, t, x2, b))
    (hm : adjustMergeCells ws .rows t (-1) = .returned none wsm) :
    ∃ e ws1 f1, adjustHelperStages ws f sheet sheetID .rows t (-1) = .returned e (ws1, f1) ∧
      ws1.AutoFilter = none ∧
      ws1.SheetData = ws.SheetData.map (fun r =>
        { adjustRow t (-1) r with
          Hidden := if t + 2 ≤ r.R ∧ r.R ≤ b + 1 then false else r.Hidden }) := by
  have hpos := areaRefToCoordinates_pos af.Ref x1 t x2 b hdec
  obtain ⟨ws2, f2, hh, hsd, hmc, hfil, _⟩ :=
    adjustHyperlinks_returns (adjustRowDimensions ws t (-1)) f sheet .rows t (-1)
  have hm2 := adjustMergeCells_frame ws ws2 wsm .rows t (-1) none hm (by rw [hmc]; rfl)
  have haf3 : ws2.AutoFilter = some af := by
    rw [hfil]
    exact haf
  have hfilter : adjustAutoFilter { ws2 with MergeCells := wsm.MergeCells } .rows t (-1)
      = (none, { ws2 with
          MergeCells := wsm.MergeCells
          AutoFilter := none
          SheetData := ws2.SheetData.map (unhideRow t b) }) := by
    simp only [adjustAutoFilter, haf3, hdec]
    simp
  have hrows : ws2.SheetData.map (unhideRow t b) = ws.SheetData.map (fun r =>
        { adjustRow t (-1) r with
          Hidden := if t + 2 ≤ r.R ∧ r.R ≤ b + 1 then false else r.Hidden }) := by
    rw [hsd]
    simp only [adjustRowDimensions, List.map_map]
    apply List.map_congr_left
    intro r _
    exact unhideRow_adjustRow t b hpos.2.1 r
  simp only [adjustHelperStages, if_true, hh, hm2, hfilter]
  rcases hcc : adjustCalcChain f2 .rows t (-1) sheetID with ⟨_ | e, f5⟩
  · exact ⟨none, _, f5, rfl, rfl, hrows⟩
  · exact ⟨some e, _, f5, rfl, rfl, hrows⟩

/-- The filter `A2:C10` cleared by the stage sequence for the deletion of row 2. -/
theorem adjustHelperStages_filter_removal_witness :
    ∃ e ws1 f1,
      adjustHelperStages
        ⟨[⟨1, true, []⟩, ⟨3, true, []⟩, ⟨4, true, []⟩, ⟨11, true, []⟩, ⟨12, true, []⟩],
          none, none, some ⟨"A2:C10"⟩⟩ ⟨none, []⟩ "Sheet1" 1 .rows 2 (-1)
        = .returned e (ws1, f1) ∧
      ws1.AutoFilter = none ∧
      ws1.SheetData
        = [⟨1, true, []⟩, ⟨2, true, []⟩, ⟨3, false, []⟩, ⟨10, false, []⟩, ⟨11, true, []⟩] :=
  adjustHelperStages_filter_removal
    ⟨[⟨1, true, []⟩, ⟨3, true, []⟩, ⟨4, true, []⟩, ⟨11, true, []⟩, ⟨12, true, []⟩],
      none, none, some ⟨"A2:C10"⟩⟩ ⟨none, []⟩ "Sheet1" 1 ⟨"A2:C10"⟩ 1 2 3 10
    ⟨[⟨1, true, []⟩, ⟨3, true, []⟩, ⟨4, true, []⟩, ⟨11, true, []⟩, ⟨12, true, []⟩],
      none, none, some ⟨"A2:C10"⟩⟩ rfl (by decide) (by decide)

/-! ## Stage sequences that remove nothing -/

theorem adjustHyperlinks_no_removal (ws : xlsxWorksheet) (f : File) (sheet : String)
    (dir : adjustDirection) (num offset : Int)
    (h : offset < 0 → ∀ links, ws.Hyperlinks = some links →
      ∀ l ∈ links, ¬ hyperlinkOnLine dir num l) :
    adjustHyperlinks ws f sheet dir num offset
      = .returned none
        ({ ws with Hyperlinks :=
            ws.Hyperlinks.map (fun links => links.map (adjustHyperlinkRef dir num offset)) },
         f) := by
  cases hl : ws.Hyperlinks with
  | none =>
    simp only [adjustHyperlinks, hl, Option.map_none']
    cases ws
    simp_all
  | some links =>
    cases links with
    | nil =>
      simp only [adjustHyperlinks, hl, Option.map_some', List.map_nil]
      cases ws
      simp_all
    | cons l ls =>
      by_cases ho : offset < 0
      · rw [adjustHyperlinks_of_delete ws f sheet dir num offset (l :: ls) hl (by simp) ho]
        have hnone := h ho (l :: ls) hl
        have hkeep : (l :: ls).filter (fun l => !decide (hyperlinkOnLine dir num l))
            = l :: ls := by
          rw [List.filter_eq_self]
          intro a ha
          simp [hnone a ha]
        have hdrop : (l :: ls).filter (fun l => decide (hyperlinkOnLine dir num l)) = [] := by
          rw [List.filter_eq_nil_iff]
          intro a ha
          simp [hnone a ha]
        rw [hkeep, hdrop]
        simp
      · rw [adjustHyperlinks_of_insert ws f sheet dir num offset (l :: ls) hl (by simp) ho]
        simp

theorem adjustMergeCells_no_removal (ws : xlsxWorksheet) (dir : adjustDirection)
    (num offset : Int)
    (h : ∀ mc, ws.MergeCells = some mc → ∀ a ∈ mc.Cells,
      ∃ c, areaRefToCoordinates a.Ref = .ok c ∧ ¬ onEditLine dir num offset c ∧
        ¬ isSingleCell (shiftRange dir num offset c)) :
    adjustMergeCells ws dir num offset
      = .returned none
        { ws with MergeCells := ws.MergeCells.map (fun mc =>
            { mc with Cells := mc.Cells.map (shiftedMergeCell dir num offset) }) } := by
  cases hws : ws.MergeCells with
  | none =>
    simp only [adjustMergeCells, hws, Option.map_none']
    cases ws
    simp_all
  | some mc =>
    rw [adjustMergeCells_eq_pass ws dir num offset mc hws,
      mergeCellsPass_keep_all dir num offset mc.Cells [] mc.Count (h mc hws)]
    simp

theorem adjustAutoFilter_no_removal (ws : xlsxWorksheet) (dir : adjustDirection)
    (num offset : Int)
    (h : ∀ af, ws.AutoFilter = some af → ∃ c, areaRefToCoordinates af.Ref = .ok c ∧
      ¬ ((dir = .rows ∧ c.2.1 = num ∧ offset < 0) ∨
          (dir = .columns ∧ c.1 = num ∧ c.2.2.1 = num)) ∧
      1 ≤ (adjustAutoFilterHelper dir c num offset).1 ∧
      1 ≤ (adjustAutoFilterHelper dir c num offset).2.1 ∧
      1 ≤ (adjustAutoFilterHelper dir c num offset).2.2.1 ∧
      1 ≤ (adjustAutoFilterHelper dir c num offset).2.2.2) :
    adjustAutoFilter ws dir num offset
      = (none, { ws with AutoFilter := ws.AutoFilter.map (shiftedAutoFilter dir num offset) }) := by
  cases haf : ws.AutoFilter with
  | none =>
    simp only [adjustAutoFilter, haf, Option.map_none']
    cases ws
    simp_all
  | some af =>
    obtain ⟨c, hdec, hcond, h1, h2, h3, h4⟩ := h af haf
    obtain ⟨x1, y1, x2, y2⟩ := c
    simp only at hcond
    simp only [adjustAutoFilter, haf, hdec, hcond, if_false, Option.map_some',
      shiftedAutoFilter, coordinatesToAreaRef_ok _ _ _ _ h1 h2 h3 h4]

theorem adjustCalcChainLoop_all_decode (dir : adjustDirection) (num offset sheetID : Int)
    (cs : List xlsxCalcChainC)
    (h : ∀ c ∈ cs, c.I = sheetID → ∃ p, CellNameToCoordinates c.R = .ok p) :
    adjustCalcChainLoop dir num offset sheetID cs
      = (none, cs.map (shiftedCalcEntry dir num offset sheetID)) := by
  induction cs with
  | nil => rfl
  | cons c cs ih =>
    have ih2 := ih (fun d hd => h d (by simp [hd]))
    by_cases hi : c.I ≠ sheetID
    · simp only [adjustCalcChainLoop, hi, if_true, ih2, List.map_cons, shiftedCalcEntry,
        ne_eq, not_false_eq_true]
    · obtain ⟨p, hp⟩ := h c (by simp) (by simpa using hi)
      obtain ⟨col, row⟩ := p
      simp only [adjustCalcChainLoop, hi, if_false, hp, ih2, List.map_cons, shiftedCalcEntry]

theorem adjustCalcChain_all_decode (f : File) (dir : adjustDirection)
    (num offset sheetID : Int)
    (h : ∀ cs, f.CalcChain = some cs →
      ∀ c ∈ cs, c.I = sheetID → ∃ p, CellNameToCoordinates c.R = .ok p) :
    adjustCalcChain f dir num offset sheetID = (none, shiftedFile dir num offset sheetID f) := by
  cases hc : f.CalcChain with
  | none =>
    simp only [adjustCalcChain, hc, shiftedFile, Option.map_none']
    cases f
    simp_all
  | some cs =>
    simp only [adjustCalcChain, hc, shiftedFile, Option.map_some',
      adjustCalcChainLoop_all_decode dir num offset sheetID cs (h cs hc)]

theorem adjustHelperStages_no_removal (ws : xlsxWorksheet) (f : File) (sheet : String)
    (sheetID : Int) (dir : adjustDirection) (num offset : Int)
    (hlinks : offset < 0 → ∀ links, ws.Hyperlinks = some links →
      ∀ l ∈ links, ¬ hyperlinkOnLine dir num l)
    (hmerge : ∀ mc, ws.MergeCells = some mc → ∀ a ∈ mc.Cells,
      ∃ c, areaRefToCoordinates a.Ref = .ok c ∧ ¬ onEditLine dir num offset c ∧
        ¬ isSingleCell (shiftRange dir num offset c))
    (hfilter : ∀ af, ws.AutoFilter = some af → ∃ c, areaRefToCoordinates af.Ref = .ok c ∧
      ¬ ((dir = .rows ∧ c.2.1 = num ∧ offset < 0) ∨
          (dir = .columns ∧ c.1 = num ∧ c.2.2.1 = num)) ∧
      1 ≤ (adjustAutoFilterHelper dir c num offset).1 ∧
      1 ≤ (adjustAutoFilterHelper dir c num offset).2.1 ∧
      1 ≤ (adjustAutoFilterHelper dir c num offset).2.2.1 ∧
      1 ≤ (adjustAutoFilterHelper dir c num offset).2.2.2)
    (hcalc : ∀ cs, f.CalcChain = some cs →
      ∀ c ∈ cs, c.I = sheetID → ∃ p, CellNameToCoordinates c.R = .ok p) :
    adjustHelperStages ws f sheet sheetID dir num offset
      = .returned none (shiftedSheet dir num offset ws, shiftedFile dir num offset sheetID f) := by
  have s4 := adjustCalcChain_all_decode f dir num offset sheetID hcalc
  obtain ⟨sd, hl, mcs, af⟩ := ws
  simp only at hlinks hmerge hfilter
  cases dir
  · have s1 := adjustHyperlinks_no_removal
      (adjustColDimensions ⟨sd, hl, mcs, af⟩ num offset) f sheet .columns num offset hlinks
    have s2 := adjustMergeCells_no_removal
      ⟨(adjustColDimensions ⟨sd, hl, mcs, af⟩ num offset).SheetData,
        hl.map (fun links => links.map (adjustHyperlinkRef .columns num offset)), mcs, af⟩
      .columns num offset hmerge
    have s3 := adjustAutoFilter_no_removal
      ⟨(adjustColDimensions ⟨sd, hl, mcs, af⟩ num offset).SheetData,
        hl.map (fun links => links.map (adjustHyperlinkRef .columns num offset)),
        mcs.map (fun mc =>
          { mc with Cells := mc.Cells.map (shiftedMergeCell .columns num offset) }), af⟩
      .columns num offset hfilter
    simp only [adjustColDimensions] at s1 s2 s3
    simp only [adjustHelperStages, reduceCtorEq, if_false, adjustColDimensions, s1, s2, s3, s4,
      shiftedSheet]
  · have s1 := adjustHyperlinks_no_removal
      (adjustRowDimensions ⟨sd, hl, mcs, af⟩ num offset) f sheet .rows num offset hlinks
    have s2 := adjustMergeCells_no_removal
      ⟨(adjustRowDimensions ⟨sd, hl, mcs, af⟩ num offset).SheetData,
        hl.map (fun links => links.map (adjustHyperlinkRef .rows num offset)), mcs, af⟩
      .rows num offset hmerge
    have s3 := adjustAutoFilter_no_removal
      ⟨(adjustRowDimensions ⟨sd, hl, mcs, af⟩ num offset).SheetData,
        hl.map (fun links => links.map (adjustHyperlinkRef .rows num offset)),
        mcs.map (fun mc =>
          { mc with Cells := mc.Cells.map (shiftedMergeCell .rows num offset) }), af⟩
      .rows num offset hfilter
    simp only [adjustRowDimensions] at s1 s2 s3
    simp only [adjustHelperStages, if_true, adjustRowDimensions, s1, s2, s3, s4, shiftedSheet]

/-! ## Insertion followed by deletion, element by element -/

theorem nameOrEmpty_CoordinatesToCellName (col row : Int) (hc : 1 ≤ col) (hr : 1 ≤ row) :
    nameOrEmpty (CoordinatesToCellName col row) = cellText col row := by
  simp [nameOrEmpty, CoordinatesToCellName_ok col row hc hr]

theorem join_twice_decode (ref : String) (col row a b : Int)
    (h : CellNameToCoordinates ref = .ok (col, row)) (ha : 1 ≤ a) (hb : 1 ≤ b) :
    CellNameToCoordinates
        (nameOrEmpty (JoinCellName
          (colNameOrEmpty (nameOrEmpty (JoinCellName (colNameOrEmpty ref) a))) b))
      = .ok (col, b) := by
  obtain ⟨t, ht, hdt⟩ := JoinCellName_colNameOrEmpty ref col row a h ha
  obtain ⟨u, hu, hdu⟩ := JoinCellName_colNameOrEmpty t col a b hdt hb
  simp only [ht, nameOrEmpty, hu, hdu]

theorem adjustRow_insert_delete (n k : Int) (hn : 1 ≤ n) (hk : 1 ≤ k) (r : xlsxRow)
    (hcells : ∀ c ∈ r.C, ∃ col row, CellNameToCoordinates c.R = .ok (col, row) ∧
      (n ≤ r.R → row = r.R)) :
    (adjustRow n (-k) (adjustRow n k r)).R = r.R ∧
    (adjustRow n (-k) (adjustRow n k r)).Hidden = r.Hidden ∧
    (adjustRow n (-k) (adjustRow n k r)).C.map (fun c => CellNameToCoordinates c.R)
      = r.C.map (fun c => CellNameToCoordinates c.R) := by
  by_cases hge : r.R ≥ n
  · have h1 : r.R ≥ n ∧ r.R + k > 0 := by omega
    have h2 : r.R + k ≥ n ∧ r.R + k + -k > 0 := by omega
    simp only [adjustRow, h1, and_self, if_true, ajustSingleRowDimensions, h2, List.map_map]
    refine ⟨by omega, trivial, ?_⟩
    apply List.map_congr_left
    intro c hc
    obtain ⟨col, row, hdec, hrow⟩ := hcells c hc
    simp only [Function.comp]
    rw [join_twice_decode c.R col row (r.R + k) (r.R + k + -k) hdec (by omega) (by omega), hdec,
      hrow hge]
    congr 2
    omega
  · have h1 : ¬ (r.R ≥ n ∧ r.R + k > 0) := by omega
    have h2 : ¬ (r.R ≥ n ∧ r.R + -k > 0) := by omega
    simp only [adjustRow, h1, if_false, h2, and_self]

theorem adjustHyperlinkRef_rows (n o : Int) (l : xlsxHyperlink) (c r : Int)
    (h : CellNameToCoordinates l.Ref = .ok (c, r)) :
    adjustHyperlinkRef .rows n o l
      = if r ≥ n then ⟨nameOrEmpty (CoordinatesToCellName c (r + o)), l.RID⟩ else l := by
  simp only [adjustHyperlinkRef, if_true, coordinatesOrDefault_of_ok l.Ref (c, r) h]

theorem adjustHyperlinkRef_insert_delete (n k : Int) (hk : 1 ≤ k)
    (l : xlsxHyperlink) (c r : Int) (h : CellNameToCoordinates l.Ref = .ok (c, r)) :
    ¬ hyperlinkOnLine .rows n (adjustHyperlinkRef .rows n k l) ∧
    CellNameToCoordinates (adjustHyperlinkRef .rows n (-k) (adjustHyperlinkRef .rows n k l)).Ref
      = .ok (c, r) ∧
    (adjustHyperlinkRef .rows n (-k) (adjustHyperlinkRef .rows n k l)).RID = l.RID := by
  have hpos := CellNameToCoordinates_pos l.Ref c r h
  rw [adjustHyperlinkRef_rows n k l c r h]
  by_cases hge : r ≥ n
  · simp only [hge, if_true, nameOrEmpty_CoordinatesToCellName c (r + k) hpos.1 (by omega)]
    have hd := CellNameToCoordinates_cellText c (r + k) hpos.1 (by omega)
    rw [adjustHyperlinkRef_rows n (-k) ⟨cellText c (r + k), l.RID⟩ c (r + k) hd]
    have h2 : r + k ≥ n := by omega
    have h3 : r + k + -k = r := by omega
    simp only [h2, if_true, h3, nameOrEmpty_CoordinatesToCellName c r hpos.1 hpos.2]
    refine ⟨?_, CellNameToCoordinates_cellText c r hpos.1 hpos.2, trivial⟩
    simp only [hyperlinkOnLine, coordinatesOrDefault_of_ok _ _ hd, reduceCtorEq, false_and,
      or_false, true_and]
    omega
  · simp only [hge, if_false]
    rw [adjustHyperlinkRef_rows n (-k) l c r h]
    simp only [hge, if_false]
    refine ⟨?_, h, trivial⟩
    simp only [hyperlinkOnLine, coordinatesOrDefault_of_ok _ _ h, reduceCtorEq, false_and,
      or_false, true_and]
    omega

theorem shiftRange_insert (n k : Int) (hn : 1 ≤ n) (hk : 1 ≤ k) (c : Int × Int × Int × Int)
    (hpos : 1 ≤ c.1 ∧ 1 ≤ c.2.1 ∧ 1 ≤ c.2.2.1 ∧ 1 ≤ c.2.2.2) (hns : ¬ isSingleCell c) :
    ¬ onEditLine .rows n k c ∧ ¬ isSingleCell (shiftRange .rows n k c) ∧
    ¬ onEditLine .rows n (-k) (shiftRange .rows n k c) ∧
    shiftRange .rows n (-k) (shiftRange .rows n k c) = c := by
  obtain ⟨x1, y1, x2, y2⟩ := c
  simp only at hpos
  simp only [isSingleCell] at hns
  refine ⟨?_, ?_, ?_, ?_⟩
  · simp only [onEditLine, reduceCtorEq, false_and, or_false, true_and]
    omega
  · simp only [isSingleCell, shiftRange, if_true, adjustMergeCellsHelper]
    intro h
    apply hns
    refine ⟨h.1, ?_⟩
    have h2 := h.2
    split_ifs at h2 <;> omega
  · simp only [onEditLine, shiftRange, if_true, adjustMergeCellsHelper, reduceCtorEq,
      false_and, or_false, true_and]
    intro h
    have h1 := h.1
    split_ifs at h1 <;> omega
  · simp only [shiftRange, if_true, adjustMergeCellsHelper]
    refine Prod.ext rfl (Prod.ext ?_ (Prod.ext rfl ?_)) <;> simp only <;> split_ifs <;> omega

theorem shiftedMergeCell_insert_delete (n k : Int) (hn : 1 ≤ n) (hk : 1 ≤ k)
    (m : xlsxMergeCell) (hm : properRange m) :
    (∃ c, areaRefToCoordinates m.Ref = .ok c ∧ ¬ onEditLine .rows n k c ∧
      ¬ isSingleCell (shiftRange .rows n k c)) ∧
    (∃ c, areaRefToCoordinates (shiftedMergeCell .rows n k m).Ref = .ok c ∧
      ¬ onEditLine .rows n (-k) c ∧ ¬ isSingleCell (shiftRange .rows n (-k) c)) ∧
    areaRefToCoordinates
        (shiftedMergeCell .rows n (-k) (shiftedMergeCell .rows n k m)).Ref
      = areaRefToCoordinates m.Ref := by
  obtain ⟨c, hdec, hns⟩ := hm
  have hpos := areaRefToCoordinates_pos m.Ref c.1 c.2.1 c.2.2.1 c.2.2.2 hdec
  obtain ⟨h1, h2, h3, h4⟩ := shiftRange_insert n k hn hk c hpos hns
  have hd1 := shiftedMergeCell_decode .rows n k m c hdec
  have hd2 := shiftedMergeCell_decode .rows n (-k) _ _ hd1
  refine ⟨⟨c, hdec, h1, h2⟩, ⟨_, hd1, h3, ?_⟩, ?_⟩
  · rw [h4]; exact hns
  · rw [hd2, h4, hdec]

theorem adjustAutoFilterHelper_insert (n k : Int) (hk : 1 ≤ k) (c : Int × Int × Int × Int)
    (hpos : 1 ≤ c.1 ∧ 1 ≤ c.2.1 ∧ 1 ≤ c.2.2.1 ∧ 1 ≤ c.2.2.2) :
    (1 ≤ (adjustAutoFilterHelper .rows c n k).1 ∧ 1 ≤ (adjustAutoFilterHelper .rows c n k).2.1 ∧
      1 ≤ (adjustAutoFilterHelper .rows c n k).2.2.1 ∧
      1 ≤ (adjustAutoFilterHelper .rows c n k).2.2.2) ∧
    (adjustAutoFilterHelper .rows c n k).2.1 ≠ n ∧
    adjustAutoFilterHelper .rows (adjustAutoFilterHelper .rows c n k) n (-k) = c := by
  obtain ⟨x1, y1, x2, y2⟩ := c
  simp only at hpos
  simp only [adjustAutoFilterHelper, if_true, Prod.mk.injEq, true_and]
  refine ⟨⟨hpos.1, ?_, hpos.2.2.1, ?_⟩, ?_, ?_, ?_⟩ <;> split_ifs <;> omega

theorem shiftedAutoFilter_decode (dir : adjustDirection) (n o : Int) (af : xlsxAutoFilter)
    (c : Int × Int × Int × Int) (hdec : areaRefToCoordinates af.Ref = .ok c)
    (hp : 1 ≤ (adjustAutoFilterHelper dir c n o).1 ∧ 1 ≤ (adjustAutoFilterHelper dir c n o).2.1 ∧
      1 ≤ (adjustAutoFilterHelper dir c n o).2.2.1 ∧
      1 ≤ (adjustAutoFilterHelper dir c n o).2.2.2) :
    areaRefToCoordinates (shiftedAutoFilter dir n o af).Ref
      = .ok (adjustAutoFilterHelper dir c n o) := by
  simp only [shiftedAutoFilter, hdec]
  exact areaRefToCoordinates_areaText _ _ _ _ hp.1 hp.2.1 hp.2.2.1 hp.2.2.2

theorem shiftedAutoFilter_insert_delete (n k : Int) (hk : 1 ≤ k) (af : xlsxAutoFilter)
    (c : Int × Int × Int × Int) (hdec : areaRefToCoordinates af.Ref = .ok c) :
    (∃ c, areaRefToCoordinates af.Ref = .ok c ∧
      ¬ (((adjustDirection.rows = .rows) ∧ c.2.1 = n ∧ k < 0) ∨
          ((adjustDirection.rows = .columns) ∧ c.1 = n ∧ c.2.2.1 = n)) ∧
      1 ≤ (adjustAutoFilterHelper .rows c n k).1 ∧
      1 ≤ (adjustAutoFilterHelper .rows c n k).2.1 ∧
      1 ≤ (adjustAutoFilterHelper .rows c n k).2.2.1 ∧
      1 ≤ (adjustAutoFilterHelper .rows c n k).2.2.2) ∧
    (∃ c, areaRefToCoordinates (shiftedAutoFilter .rows n k af).Ref = .ok c ∧
      ¬ (((adjustDirection.rows = .rows) ∧ c.2.1 = n ∧ -k < 0) ∨
          ((adjustDirection.rows = .columns) ∧ c.1 = n ∧ c.2.2.1 = n)) ∧
      1 ≤ (adjustAutoFilterHelper .rows c n (-k)).1 ∧
      1 ≤ (adjustAutoFilterHelper .rows c n (-k)).2.1 ∧
      1 ≤ (adjustAutoFilterHelper .rows c n (-k)).2.2.1 ∧
      1 ≤ (adjustAutoFilterHelper .rows c n (-k)).2.2.2) ∧
    areaRefToCoordinates (shiftedAutoFilter .rows n (-k) (shiftedAutoFilter .rows n k af)).Ref
      = areaRefToCoordinates af.Ref := by
  have hpos := areaRefToCoordinates_pos af.Ref c.1 c.2.1 c.2.2.1 c.2.2.2 hdec
  obtain ⟨hp1, hne, hback⟩ := adjustAutoFilterHelper_insert n k hk c hpos
  have hd1 := shiftedAutoFilter_decode .rows n k af c hdec hp1
  have hp2 : 1 ≤ (adjustAutoFilterHelper .rows (adjustAutoFilterHelper .rows c n k) n (-k)).1 ∧
      1 ≤ (adjustAutoFilterHelper .rows (adjustAutoFilterHelper .rows c n k) n (-k)).2.1 ∧
      1 ≤ (adjustAutoFilterHelper .rows (adjustAutoFilterHelper .rows c n k) n (-k)).2.2.1 ∧
      1 ≤ (adjustAutoFilterHelper .rows (adjustAutoFilterHelper .rows c n k) n (-k)).2.2.2 := by
    rw [hback]; exact hpos
  refine ⟨⟨c, hdec, ?_, hp1⟩, ⟨_, hd1, ?_, hp2⟩, ?_⟩
  · simp only [reduceCtorEq, false_and, or_false, true_and]
    omega
  · simp only [reduceCtorEq, false_and, or_false, true_and]
    intro h
    exact hne h.1
  · rw [shiftedAutoFilter_decode .rows n (-k) _ _ hd1 hp2, hback, hdec]

theorem shiftedCalcEntry_insert_delete (n k sheetID : Int) (hk : 1 ≤ k)
    (e : xlsxCalcChainC)
    (hdec : e.I = sheetID → ∃ p, CellNameToCoordinates e.R = .ok p) :
    ((shiftedCalcEntry .rows n k sheetID e).I = sheetID →
      ∃ p, CellNameToCoordinates (shiftedCalcEntry .rows n k sheetID e).R = .ok p) ∧
    (shiftedCalcEntry .rows n (-k) sheetID (shiftedCalcEntry .rows n k sheetID e)).I = e.I ∧
    CellNameToCoordinates
        (shiftedCalcEntry .rows n (-k) sheetID (shiftedCalcEntry .rows n k sheetID e)).R
      = CellNameToCoordinates e.R := by
  by_cases hi : e.I ≠ sheetID
  · have e1 : shiftedCalcEntry .rows n k sheetID e = e := by
      simp only [shiftedCalcEntry, hi, if_true, ne_eq, not_false_eq_true]
    have e2 : shiftedCalcEntry .rows n (-k) sheetID e = e := by
      simp only [shiftedCalcEntry, hi, if_true, ne_eq, not_false_eq_true]
    rw [e1, e2]
    exact ⟨fun h => absurd h hi, rfl, rfl⟩
  · have hi2 : e.I = sheetID := by simpa using hi
    obtain ⟨⟨col, row⟩, hp⟩ := hdec hi2
    have hpos := CellNameToCoordinates_pos e.R col row hp
    by_cases hge : n ≤ row
    · have h1 : row + k > 0 := by omega
      have e1 : shiftedCalcEntry .rows n k sheetID e = ⟨cellText col (row + k), e.I⟩ := by
        simp only [shiftedCalcEntry, hi, if_false, hp, adjustCalcChainEntry, hge, h1, and_self,
          if_true, reduceCtorEq, false_and,
          nameOrEmpty_CoordinatesToCellName col (row + k) hpos.1 (by omega)]
      have hd1 := CellNameToCoordinates_cellText col (row + k) hpos.1 (by omega)
      have h2 : n ≤ row + k := by omega
      have h3 : row + k + -k > 0 := by omega
      have h4 : row + k + -k = row := by omega
      have h5 : row > 0 := by omega
      have e2 : shiftedCalcEntry .rows n (-k) sheetID ⟨cellText col (row + k), e.I⟩
          = ⟨cellText col row, e.I⟩ := by
        simp only [shiftedCalcEntry, hi, if_false, hd1, adjustCalcChainEntry, h2, h3, and_self,
          if_true, reduceCtorEq, false_and, h4, h5,
          nameOrEmpty_CoordinatesToCellName col row hpos.1 hpos.2]
      rw [e1, e2]
      refine ⟨fun _ => ⟨_, hd1⟩, rfl, ?_⟩
      rw [hp]
      exact CellNameToCoordinates_cellText col row hpos.1 hpos.2
    · have e1 : shiftedCalcEntry .rows n k sheetID e = e := by
        simp only [shiftedCalcEntry, hi, if_false, hp, adjustCalcChainEntry, hge, and_false,
          reduceCtorEq, false_and]
      have e2 : shiftedCalcEntry .rows n (-k) sheetID e = e := by
        simp only [shiftedCalcEntry, hi, if_false, hp, adjustCalcChainEntry, hge, and_false,
          reduceCtorEq, false_and]
      rw [e1, e2]
      exact ⟨fun _ => ⟨_, hp⟩, rfl, rfl⟩

/-! ## Insertion followed by deletion of rows -/

/-- C2, as stated, fails: a row numbered 5 that holds a cell referenced `A9`
has that cell at `A5` after one row is inserted at row 3 and one row is
deleted at row 3, since `ajustSingleRowDimensions` rewrites a cell with the
number of its row. -/
theorem stages_roundtrip_loses_cell_reference :
    adjustHelperStages ⟨[⟨5, false, [⟨"A9", "v"⟩]⟩], none, none, none⟩ ⟨none, []⟩ "Sheet1" 1
        .rows 3 1
      = .returned none (⟨[⟨6, false, [⟨"A6", "v"⟩]⟩], none, none, none⟩, ⟨none, []⟩) ∧
    adjustHelperStages ⟨[⟨6, false, [⟨"A6", "v"⟩]⟩], none, none, none⟩ ⟨none, []⟩ "Sheet1" 1
        .rows 3 (-1)
      = .returned none (⟨[⟨5, false, [⟨"A5", "v"⟩]⟩], none, none, none⟩, ⟨none, []⟩) ∧
    CellNameToCoordinates "A9" = .ok (1, 9) ∧
    CellNameToCoordinates "A5" = .ok (1, 5) ∧
    coordinateView ⟨[⟨5, false, [⟨"A5", "v"⟩]⟩], none, none, none⟩ ⟨none, []⟩
      ≠ coordinateView ⟨[⟨5, false, [⟨"A9", "v"⟩]⟩], none, none, none⟩ ⟨none, []⟩ := by
  refine ⟨by decide, by decide, by decide, by decide, ?_⟩
  intro h
  have h2 := congrArg CoordinateView.rows h
  revert h2
  decide

/-- C2, amended: for a sheet whose cell references, hyperlink anchors, merge
ranges, auto-filter range and edited-sheet calc-chain entries all decode,
whose merge ranges are none of them a single cell, and in which every cell of
a row numbered `n` or more carries its row's number in its reference, and for
`n ≥ 1`, `k ≥ 1`: the stage sequence on the row axis with `(n, +k)` and then
with `(n, -k)` returns without error both times and restores every row
number, cell coordinate, hyperlink anchor, merge-range extent, the auto-filter
extent and every calc-chain coordinate; no hyperlink or merge range is
removed, the auto-filter stays present and no relationship is deleted. -/
theorem adjustHelperStages_insert_delete (ws : xlsxWorksheet) (f : File) (sheet : String)
    (sheetID n k : Int) (hn : 1 ≤ n) (hk : 1 ≤ k)
    (hcells : ∀ r ∈ ws.SheetData, ∀ c ∈ r.C,
      ∃ col row, CellNameToCoordinates c.R = .ok (col, row) ∧ (n ≤ r.R → row = r.R))
    (hlinks : ∀ links, ws.Hyperlinks = some links →
      ∀ l ∈ links, ∃ c r, CellNameToCoordinates l.Ref = .ok (c, r))
    (hmerge : ∀ mc, ws.MergeCells = some mc → ∀ m ∈ mc.Cells, properRange m)
    (hfilter : ∀ af, ws.AutoFilter = some af → ∃ c, areaRefToCoordinates af.Ref = .ok c)
    (hcalc : ∀ cs, f.CalcChain = some cs →
      ∀ c ∈ cs, c.I = sheetID → ∃ p, CellNameToCoordinates c.R = .ok p) :
    ∃ ws1 f1 ws2 f2,
      adjustHelperStages ws f sheet sheetID .rows n k = .returned none (ws1, f1) ∧
      adjustHelperStages ws1 f1 sheet sheetID .rows n (-k) = .returned none (ws2, f2) ∧
      coordinateView ws2 f2 = coordinateView ws f ∧
      f2.DeletedRelationships = f.DeletedRelationships := by
  have p1 := adjustHelperStages_no_removal ws f sheet sheetID .rows n k
    (fun h => absurd h (by omega))
    (fun mc hmc m hm => (shiftedMergeCell_insert_delete n k hn hk m (hmerge mc hmc m hm)).1)
    (fun af haf => by
      obtain ⟨c, hc⟩ := hfilter af haf
      exact (shiftedAutoFilter_insert_delete n k hk af c hc).1)
    hcalc
  have p2 := adjustHelperStages_no_removal (shiftedSheet .rows n k ws)
    (shiftedFile .rows n k sheetID f) sheet sheetID .rows n (-k)
    (by
      intro _ links hlk l hl
      simp only [shiftedSheet, Option.map_eq_some'] at hlk
      obtain ⟨links0, h0, rfl⟩ := hlk
      obtain ⟨l0, hl0, rfl⟩ := List.mem_map.1 hl
      obtain ⟨c, r, hd⟩ := hlinks links0 h0 l0 hl0
      exact (adjustHyperlinkRef_insert_delete n k hk l0 c r hd).1)
    (by
      intro mc hmc m hm
      simp only [shiftedSheet, Option.map_eq_some'] at hmc
      obtain ⟨mc0, h0, rfl⟩ := hmc
      obtain ⟨m0, hm0, rfl⟩ := List.mem_map.1 hm
      exact (shiftedMergeCell_insert_delete n k hn hk m0 (hmerge mc0 h0 m0 hm0)).2.1)
    (by
      intro af haf
      simp only [shiftedSheet, Option.map_eq_some'] at haf
      obtain ⟨af0, h0, rfl⟩ := haf
      obtain ⟨c, hc⟩ := hfilter af0 h0
      exact (shiftedAutoFilter_insert_delete n k hk af0 c hc).2.1)
    (by
      intro cs hcs e he
      simp only [shiftedFile, Option.map_eq_some'] at hcs
      obtain ⟨cs0, h0, rfl⟩ := hcs
      obtain ⟨e0, he0, rfl⟩ := List.mem_map.1 he
      exact (shiftedCalcEntry_insert_delete n k sheetID hk e0 (hcalc cs0 h0 e0 he0)).1)
  refine ⟨_, _, _, _, p1, p2, ?_, rfl⟩
  simp only [coordinateView, shiftedSheet, shiftedFile, adjustRowDimensions, if_true,
    CoordinateView.mk.injEq, List.map_map, Option.map_map]
  refine ⟨?_, ?_, ?_, ?_, ?_⟩
  · apply List.map_congr_left
    intro r hr
    obtain ⟨h1, _, h3⟩ := adjustRow_insert_delete n k hn hk r (hcells r hr)
    simp only [Function.comp, h1, h3]
  · cases hl : ws.Hyperlinks with
    | none => rfl
    | some links =>
      simp only [Option.map_some', Function.comp, List.map_map, Option.some.injEq]
      apply List.map_congr_left
      intro l hmem
      obtain ⟨c, r, hd⟩ := hlinks links hl l hmem
      obtain ⟨_, h2, h3⟩ := adjustHyperlinkRef_insert_delete n k hk l c r hd
      simp only [Function.comp, h2, h3, hd]
  · cases hm : ws.MergeCells with
    | none => rfl
    | some mc =>
      simp only [Option.map_some', Function.comp, List.map_map, Option.some.injEq,
        Prod.mk.injEq, true_and]
      apply List.map_congr_left
      intro m hmem
      exact (shiftedMergeCell_insert_delete n k hn hk m (hmerge mc hm m hmem)).2.2
  · cases haf : ws.AutoFilter with
    | none => rfl
    | some af =>
      obtain ⟨c, hc⟩ := hfilter af haf
      simp only [Option.map_some', Function.comp, Option.some.injEq]
      exact (shiftedAutoFilter_insert_delete n k hk af c hc).2.2
  · cases hcs : f.CalcChain with
    | none => rfl
    | some cs =>
      simp only [Option.map_some', Function.comp, List.map_map, Option.some.injEq]
      apply List.map_congr_left
      intro e hmem
      obtain ⟨_, h2, h3⟩ := shiftedCalcEntry_insert_delete n k sheetID hk e (hcalc cs hcs e hmem)
      simp only [Function.comp, h2, h3]

/-- Two rows inserted at row 3 and deleted again on the sample sheet. -/
theorem adjustHelperStages_insert_delete_witness :
    ∃ ws1 f1 ws2 f2,
      adjustHelperStages sampleSheet sampleFile "Sheet1" 1 .rows 3 2
        = .returned none (ws1, f1) ∧
      adjustHelperStages ws1 f1 "Sheet1" 1 .rows 3 (-2) = .returned none (ws2, f2) ∧
      coordinateView ws2 f2 = coordinateView sampleSheet sampleFile ∧
      f2.DeletedRelationships = sampleFile.DeletedRelationships :=
  adjustHelperStages_insert_delete sampleSheet sampleFile "Sheet1" 1 3 2 (by decide) (by decide)
    (by
      intro r hr c hc
      simp only [sampleSheet, List.mem_cons, List.mem_singleton, List.not_mem_nil,
        or_false] at hr
      rcases hr with rfl | rfl
      · simp only [List.mem_singleton] at hc
        subst hc
        exact ⟨1, 2, by decide, by decide⟩
      · simp only [List.mem_singleton] at hc
        subst hc
        exact ⟨2, 4, by decide, by decide⟩)
    (by
      intro links hl l hmem
      simp only [sampleSheet, Option.some.injEq] at hl
      subst hl
      simp only [List.mem_singleton] at hmem
      subst hmem
      exact ⟨1, 4, by decide⟩)
    (by
      intro mc hmc m hmem
      simp only [sampleSheet, Option.some.injEq] at hmc
      subst hmc
      simp only [List.mem_singleton] at hmem
      subst hmem
      exact ⟨(1, 4, 2, 5), by decide, by decide⟩)
    (by
      intro af haf
      simp only [sampleSheet, Option.some.injEq] at haf
      subst haf
      exact ⟨(1, 1, 2, 6), by decide⟩)
    (by
      intro cs hcs c hmem hid
      simp only [sampleFile, Option.some.injEq] at hcs
      subst hcs
      simp only [List.mem_cons, List.mem_singleton, List.not_mem_nil, or_false] at hmem
      rcases hmem with rfl | rfl
      · exact ⟨(2, 4), by decide⟩
      · exact absurd hid (by decide))

/-! ## The auto-filter when it is kept -/

theorem adjustAutoFilterHelper_eq_rule (dir : adjustDirection) (num offset : Int)
    (c : Int × Int × Int × Int) (h : filterShiftInSheet dir num offset c) :
    adjustAutoFilterHelper dir c num offset = filterShiftedByRule dir num offset c := by
  obtain ⟨x1, y1, x2, y2⟩ := c
  cases dir
  · simp only [filterShiftInSheet, reduceCtorEq, if_false] at h
    simp only [adjustAutoFilterHelper, filterShiftedByRule, adjustMergeCellsHelper,
      reduceCtorEq, if_false, Prod.mk.injEq, true_and, and_true]
    split_ifs <;> omega
  · simp only [filterShiftInSheet, if_true] at h
    simp only [adjustAutoFilterHelper, filterShiftedByRule, adjustMergeCellsHelper,
      if_true, Prod.mk.injEq, true_and]
    constructor
    · split_ifs <;> omega
    · split_ifs <;> omega

theorem adjustAutoFilterHelper_pos (dir : adjustDirection) (num offset : Int)
    (c : Int × Int × Int × Int) (hpos : 1 ≤ c.1 ∧ 1 ≤ c.2.1 ∧ 1 ≤ c.2.2.1 ∧ 1 ≤ c.2.2.2)
    (h : filterShiftInSheet dir num offset c) :
    1 ≤ (adjustAutoFilterHelper dir c num offset).1 ∧
    1 ≤ (adjustAutoFilterHelper dir c num offset).2.1 ∧
    1 ≤ (adjustAutoFilterHelper dir c num offset).2.2.1 ∧
    1 ≤ (adjustAutoFilterHelper dir c num offset).2.2.2 := by
  obtain ⟨x1, y1, x2, y2⟩ := c
  simp only at hpos
  cases dir
  · simp only [filterShiftInSheet, reduceCtorEq, if_false] at h
    simp only [adjustAutoFilterHelper, reduceCtorEq, if_false]
    refine ⟨hpos.1, hpos.2.1, ?_, hpos.2.2.2⟩
    split_ifs <;> omega
  · simp only [filterShiftInSheet, if_true] at h
    simp only [adjustAutoFilterHelper, if_true]
    refine ⟨hpos.1, ?_, hpos.2.2.1, ?_⟩ <;> split_ifs <;> omega

theorem adjustAutoFilterHelper_below (dir : adjustDirection) (num offset : Int)
    (c : Int × Int × Int × Int) (h : ¬ filterShiftInSheet dir num offset c) :
    (adjustAutoFilterHelper dir c num offset).1 < 1 ∨
    (adjustAutoFilterHelper dir c num offset).2.1 < 1 ∨
    (adjustAutoFilterHelper dir c num offset).2.2.1 < 1 ∨
    (adjustAutoFilterHelper dir c num offset).2.2.2 < 1 := by
  obtain ⟨x1, y1, x2, y2⟩ := c
  cases dir
  · simp only [filterShiftInSheet, reduceCtorEq, if_false] at h
    simp only [adjustAutoFilterHelper, reduceCtorEq, if_false]
    right; right; left
    split_ifs <;> omega
  · simp only [filterShiftInSheet, if_true] at h
    simp only [adjustAutoFilterHelper, if_true]
    by_cases h1 : y1 ≥ num → 1 ≤ y1 + offset
    · right; right; right
      split_ifs <;> omega
    · right; left
      split_ifs <;> omega

theorem coordinatesToAreaRef_error (x1 y1 x2 y2 : Int)
    (h : x1 < 1 ∨ y1 < 1 ∨ x2 < 1 ∨ y2 < 1) :
    coordinatesToAreaRef [x1, y1, x2, y2] = .error .InvalidCoordinate := by
  by_cases h1 : x1 < 1 ∨ y1 < 1
  · simp [coordinatesToAreaRef, CoordinatesToCellName_error x1 y1 h1]
  · have h2 : x2 < 1 ∨ y2 < 1 := by omega
    have h3 : CoordinatesToCellName x1 y1 = .ok (cellText x1 y1) :=
      CoordinatesToCellName_ok x1 y1 (by omega) (by omega)
    simp [coordinatesToAreaRef, h3, CoordinatesToCellName_error x2 y2 h2]

/-- C11, as stated, fails: for the filter `A2:C10` and the deletion of three
rows at row 1 the top row 2 is moved to -1 without clamping, so
`adjustAutoFilter` returns `InvalidCoordinate` and leaves an empty reference,
where the shared rule gives rows 1 and 7. -/
theorem filter_shift_below_sheet_is_error :
    adjustAutoFilter ⟨[], none, none, some ⟨"A2:C10"⟩⟩ .rows 1 (-3)
      = (some .InvalidCoordinate, ⟨[], none, none, some ⟨""⟩⟩) ∧
    areaRefToCoordinates "A2:C10" = .ok (1, 2, 3, 10) ∧
    ¬ filterRemoved .rows 1 (-3) (1, 2, 3, 10) ∧
    filterShiftedByRule .rows 1 (-3) (1, 2, 3, 10) = (1, 1, 3, 7) := by
  decide

/-- C11, amended: when an auto-filter with decodable extent is present and not
fully removed, and every bound that is moved stays at 1 or more, then
`adjustAutoFilter` returns no error, changes only the filter reference and
stores `(x1, s(y1), x2, s(y2))` for a row edit and `(x1, y1, s(x2), y2)` for a
column edit, `s` being the shared shifting rule, so the left column bound is
never changed; when a moved bound falls below 1 the call returns
`InvalidCoordinate` instead. -/
theorem adjustAutoFilter_shift (ws : xlsxWorksheet) (dir : adjustDirection)
    (num offset : Int) (af : xlsxAutoFilter) (c : Int × Int × Int × Int)
    (haf : ws.AutoFilter = some af) (hdec : areaRefToCoordinates af.Ref = .ok c)
    (hkeep : ¬ filterRemoved dir num offset c) :
    (filterShiftInSheet dir num offset c →
      ∃ af1, adjustAutoFilter ws dir num offset = (none, { ws with AutoFilter := some af1 }) ∧
        areaRefToCoordinates af1.Ref = .ok (filterShiftedByRule dir num offset c) ∧
        (filterShiftedByRule dir num offset c).1 = c.1) ∧
    (¬ filterShiftInSheet dir num offset c →
      (adjustAutoFilter ws dir num offset).1 = some .InvalidCoordinate) := by
  have hpos := areaRefToCoordinates_pos af.Ref c.1 c.2.1 c.2.2.1 c.2.2.2 hdec
  have hrun : adjustAutoFilter ws dir num offset
      = match coordinatesToAreaRef [(adjustAutoFilterHelper dir c num offset).1,
          (adjustAutoFilterHelper dir c num offset).2.1,
          (adjustAutoFilterHelper dir c num offset).2.2.1,
          (adjustAutoFilterHelper dir c num offset).2.2.2] with
        | .error e => (some e, { ws with AutoFilter := some { af with Ref := "" } })
        | .ok ref => (none, { ws with AutoFilter := some { af with Ref := ref } }) := by
    obtain ⟨x1, y1, x2, y2⟩ := c
    simp only [filterRemoved] at hkeep
    simp only [adjustAutoFilter, haf, hdec, hkeep, if_false]
  constructor
  · intro hin
    have hp := adjustAutoFilterHelper_pos dir num offset c hpos hin
    have henc := coordinatesToAreaRef_ok _ _ _ _ hp.1 hp.2.1 hp.2.2.1 hp.2.2.2
    rw [henc] at hrun
    refine ⟨_, hrun, ?_, ?_⟩
    · simp only
      rw [areaRefToCoordinates_areaText _ _ _ _ hp.1 hp.2.1 hp.2.2.1 hp.2.2.2,
        ← adjustAutoFilterHelper_eq_rule dir num offset c hin]
    · simp only [filterShiftedByRule]
      split_ifs <;> rfl
  · intro hout
    have hb := adjustAutoFilterHelper_below dir num offset c hout
    rw [hrun, coordinatesToAreaRef_error _ _ _ _ hb]

/-- The filter `A2:C10` after one row is inserted at row 5, and after three
rows are deleted at row 1. -/
theorem adjustAutoFilter_shift_witness :
    (∃ af1, adjustAutoFilter ⟨[], none, none, some ⟨"A2:C10"⟩⟩ .rows 5 1
        = (none, ⟨[], none, none, some af1⟩) ∧
      areaRefToCoordinates af1.Ref = .ok (1, 2, 3, 11) ∧ (1 : Int) = 1) ∧
    (adjustAutoFilter ⟨[], none, none, some ⟨"A2:C10"⟩⟩ .rows 1 (-3)).1
      = some .InvalidCoordinate :=
  ⟨(adjustAutoFilter_shift ⟨[], none, none, some ⟨"A2:C10"⟩⟩ .rows 5 1 ⟨"A2:C10"⟩
      (1, 2, 3, 10) rfl (by decide) (by decide)).1 (by decide),
   (adjustAutoFilter_shift ⟨[], none, none, some ⟨"A2:C10"⟩⟩ .rows 1 (-3) ⟨"A2:C10"⟩
      (1, 2, 3, 10) rfl (by decide) (by decide)).2 (by decide)⟩

/-- C12, as stated, fails: the one-column filter `E1:E9` is stored as `E1:D9`
after the deletion of column C, because only the right column bound is moved. -/
theorem column_deletion_inverts_filter :
    ¬ (∀ (ws : xlsxWorksheet) (dir : adjustDirection) (num offset : Int)
        (af af1 : xlsxAutoFilter) (c c1 : Int × Int × Int × Int) (ws1 : xlsxWorksheet),
        1 ≤ num → ws.AutoFilter = some af → areaRefToCoordinates af.Ref = .ok c →
        orderedCoordinates c →
        adjustAutoFilter ws dir num offset = (none, ws1) → ws1.AutoFilter = some af1 →
        areaRefToCoordinates af1.Ref = .ok c1 → orderedCoordinates c1) := by
  intro h
  have := h ⟨[], none, none, some ⟨"E1:E9"⟩⟩ .columns 3 (-1) ⟨"E1:E9"⟩ ⟨"E1:D9"⟩
    (5, 1, 5, 9) (5, 1, 4, 9) ⟨[], none, none, some ⟨"E1:D9"⟩⟩
    (by decide) rfl (by decide) (by decide) (by decide) rfl (by decide)
  revert this
  decide

/-- C12, amended: for every axis, position and offset ≥ -1, where for a column
deletion the filter spans more than one column, if the auto-filter range has
left column ≤ right column and top row ≤ bottom row before `adjustAutoFilter`
and the filter is still present after a successful call, then the stored range
decodes and has left column ≤ right column and top row ≤ bottom row. -/
theorem adjustAutoFilter_ordered (ws : xlsxWorksheet) (dir : adjustDirection)
    (num offset : Int) (af af1 : xlsxAutoFilter) (c : Int × Int × Int × Int)
    (ws1 : xlsxWorksheet)
    (hoff : -1 ≤ offset)
    (hcol : dir = .columns → offset < 0 → c.1 < c.2.2.1)
    (haf : ws.AutoFilter = some af) (hdec : areaRefToCoordinates af.Ref = .ok c)
    (hord : orderedCoordinates c)
    (hrun : adjustAutoFilter ws dir num offset = (none, ws1))
    (haf1 : ws1.AutoFilter = some af1) :
    ∃ c1, areaRefToCoordinates af1.Ref = .ok c1 ∧ orderedCoordinates c1 := by
  have hpos := areaRefToCoordinates_pos af.Ref c.1 c.2.1 c.2.2.1 c.2.2.2 hdec
  by_cases hrem : filterRemoved dir num offset c
  · exfalso
    obtain ⟨x1, y1, x2, y2⟩ := c
    simp only [filterRemoved] at hrem
    simp only [adjustAutoFilter, haf, hdec, hrem, if_true, Prod.mk.injEq, true_and] at hrun
    subst hrun
    simp at haf1
  · by_cases hin : filterShiftInSheet dir num offset c
    · have hp := adjustAutoFilterHelper_pos dir num offset c hpos hin
      have henc := coordinatesToAreaRef_ok _ _ _ _ hp.1 hp.2.1 hp.2.2.1 hp.2.2.2
      have hrun2 : adjustAutoFilter ws dir num offset
          = (none, { ws with AutoFilter := some ⟨areaText
              (adjustAutoFilterHelper dir c num offset).1
              (adjustAutoFilterHelper dir c num offset).2.1
              (adjustAutoFilterHelper dir c num offset).2.2.1
              (adjustAutoFilterHelper dir c num offset).2.2.2⟩ }) := by
        obtain ⟨x1, y1, x2, y2⟩ := c
        simp only [filterRemoved] at hrem
        simp only [adjustAutoFilter, haf, hdec, hrem, if_false, henc]
      rw [hrun2] at hrun
      simp only [Prod.mk.injEq, true_and] at hrun
      subst hrun
      simp only [Option.some.injEq] at haf1
      subst haf1
      refine ⟨_, areaRefToCoordinates_areaText _ _ _ _ hp.1 hp.2.1 hp.2.2.1 hp.2.2.2, ?_⟩
      obtain ⟨x1, y1, x2, y2⟩ := c
      simp only [orderedCoordinates] at hord ⊢
      simp only at hcol
      cases dir
      · simp only [adjustAutoFilterHelper, reduceCtorEq, if_false]
        refine ⟨?_, hord.2⟩
        split_ifs with h1
        · by_cases hneg : offset < 0
          · have := hcol rfl hneg
            omega
          · omega
        · exact hord.1
      · simp only [adjustAutoFilterHelper, if_true]
        refine ⟨hord.1, ?_⟩
        split_ifs <;> omega
    · exfalso
      have hb := adjustAutoFilterHelper_below dir num offset c hin
      have herr := coordinatesToAreaRef_error _ _ _ _ hb
      obtain ⟨x1, y1, x2, y2⟩ := c
      simp only [filterRemoved] at hrem
      simp only [adjustAutoFilter, haf, hdec, hrem, if_false, herr, Prod.mk.injEq,
        reduceCtorEq, false_and] at hrun

/-- The filter `B2:D10` after the deletion of column C. -/
theorem adjustAutoFilter_ordered_witness :
    ∃ c1, areaRefToCoordinates (⟨"B2:C10"⟩ : xlsxAutoFilter).Ref = .ok c1 ∧
      orderedCoordinates c1 :=
  adjustAutoFilter_ordered ⟨[], none, none, some ⟨"B2:D10"⟩⟩ .columns 3 (-1)
    ⟨"B2:D10"⟩ ⟨"B2:C10"⟩ (2, 2, 4, 10) ⟨[], none, none, some ⟨"B2:C10"⟩⟩
    (by decide) (by decide) rfl (by decide) (by decide) (by decide) rfl

/-! ## Calculation chain, rows and columns -/

/-- C13: on a calculation chain whose entries of the edited sheet all decode,
`adjustCalcChain` returns no error and maps the entries one by one in order:
an entry of another sheet is unchanged; an entry of the edited sheet has its
coordinate `p` on the edit axis replaced by `p + offset` (other coordinate and
sheet id kept) exactly when `p ≥ num` and `p + offset > 0`, and is unchanged
otherwise. -/
theorem adjustCalcChain_shift (f : File) (dir : adjustDirection) (num offset sheetID : Int)
    (cs : List xlsxCalcChainC) (hcs : f.CalcChain = some cs)
    (hdec : ∀ c ∈ cs, c.I = sheetID → ∃ p, CellNameToCoordinates c.R = .ok p) :
    ∃ g : xlsxCalcChainC → xlsxCalcChainC,
      adjustCalcChain f dir num offset sheetID
        = (none, { f with CalcChain := some (cs.map g) }) ∧
      ∀ e ∈ cs, (g e).I = e.I ∧ (e.I ≠ sheetID → g e = e) ∧
        (e.I = sheetID → ∃ col row, CellNameToCoordinates e.R = .ok (col, row) ∧
          (dir = .rows →
            if num ≤ row ∧ row + offset > 0
            then CellNameToCoordinates (g e).R = .ok (col, row + offset)
            else g e = e) ∧
          (dir = .columns →
            if num ≤ col ∧ col + offset > 0
            then CellNameToCoordinates (g e).R = .ok (col + offset, row)
            else g e = e)) := by
  refine ⟨shiftedCalcEntry dir num offset sheetID, ?_, ?_⟩
  · rw [adjustCalcChain_all_decode f dir num offset sheetID
      (fun cs1 h1 => by rw [hcs] at h1; cases h1; exact hdec)]
    simp only [shiftedFile, hcs, Option.map_some']
  · intro e he
    by_cases hi : e.I ≠ sheetID
    · have e1 : shiftedCalcEntry dir num offset sheetID e = e := by
        simp only [shiftedCalcEntry, hi, if_true, ne_eq, not_false_eq_true]
      rw [e1]
      exact ⟨rfl, fun _ => rfl, fun h => absurd h hi⟩
    · have hi2 : e.I = sheetID := by simpa using hi
      obtain ⟨⟨col, row⟩, hp⟩ := hdec e he hi2
      have hpos := CellNameToCoordinates_pos e.R col row hp
      have e1 : shiftedCalcEntry dir num offset sheetID e
          = adjustCalcChainEntry dir num offset e col row := by
        simp only [shiftedCalcEntry, hi, if_false, hp]
      rw [e1]
      cases dir
      · refine ⟨?_, fun h => absurd h hi, fun _ => ⟨col, row, hp, (by intro h; cases h), fun _ => ?_⟩⟩
        · simp only [adjustCalcChainEntry, reduceCtorEq, false_and, if_false, true_and]
          split_ifs <;> rfl
        · simp only [adjustCalcChainEntry, reduceCtorEq, false_and, if_false, true_and]
          by_cases h1 : num ≤ col
          · by_cases h2 : col + offset > 0
            · simp only [h1, h2, and_self, if_true,
                nameOrEmpty_CoordinatesToCellName (col + offset) row (by omega) hpos.2]
              exact CellNameToCoordinates_cellText (col + offset) row (by omega) hpos.2
            · simp only [h1, h2, and_false, if_false, if_true]
          · simp only [h1, false_and, if_false]
      · refine ⟨?_, fun h => absurd h hi, fun _ => ⟨col, row, hp, fun _ => ?_, (by intro h; cases h)⟩⟩
        · simp only [adjustCalcChainEntry, reduceCtorEq, false_and, if_false, true_and]
          split_ifs <;> rfl
        · simp only [adjustCalcChainEntry, reduceCtorEq, false_and, if_false, true_and]
          by_cases h1 : num ≤ row
          · by_cases h2 : row + offset > 0
            · simp only [h1, h2, and_self, if_true,
                nameOrEmpty_CoordinatesToCellName col (row + offset) hpos.1 (by omega)]
              exact CellNameToCoordinates_cellText col (row + offset) hpos.1 (by omega)
            · simp only [h1, h2, and_false, if_false, if_true]
          · simp only [h1, false_and, if_false]

/-- Entries at row 4 for sheets 1 and 2: deleting row 3 on sheet 1 moves only
the entry of sheet 1 to row 3. -/
theorem adjustCalcChain_shift_witness :
    (adjustCalcChain ⟨some [⟨"A4", 1⟩, ⟨"A4", 2⟩], []⟩ .rows 3 (-1) 1).1 = none ∧
    (adjustCalcChain ⟨some [⟨"A4", 1⟩, ⟨"A4", 2⟩], []⟩ .rows 3 (-1) 1).2
      = ⟨some [⟨"A3", 1⟩, ⟨"A4", 2⟩], []⟩ := by
  obtain ⟨g, hrun, _⟩ := adjustCalcChain_shift ⟨some [⟨"A4", 1⟩, ⟨"A4", 2⟩], []⟩ .rows 3 (-1) 1
    [⟨"A4", 1⟩, ⟨"A4", 2⟩] rfl
    (by
      intro c hc _
      simp only [List.mem_cons, List.mem_singleton, List.not_mem_nil, or_false] at hc
      rcases hc with rfl | rfl <;> exact ⟨(1, 4), by decide⟩)
  refine ⟨?_, by decide⟩
  rw [hrun]

/-- C14: on rows whose cell references decode, `adjustRowDimensions` maps the
rows one by one in order: a row numbered `R` becomes `R + offset` exactly when
`R ≥ num` and `R + offset > 0`; in a renumbered row each cell keeps its column
and content and takes the row's new number; a row not renumbered is unchanged;
so cells that carried their row's number before the call do so after. -/
theorem adjustRowDimensions_renumber (ws : xlsxWorksheet) (num offset : Int)
    (hdec : ∀ r ∈ ws.SheetData, ∀ c ∈ r.C,
      ∃ col row, CellNameToCoordinates c.R = .ok (col, row)) :
    ∃ g : xlsxRow → xlsxRow,
      adjustRowDimensions ws num offset = { ws with SheetData := ws.SheetData.map g } ∧
      ∀ r ∈ ws.SheetData,
        (g r).Hidden = r.Hidden ∧
        (if r.R ≥ num ∧ r.R + offset > 0 then
          (g r).R = r.R + offset ∧
          ∃ h : xlsxC → xlsxC, (g r).C = r.C.map h ∧
            ∀ c ∈ r.C, (h c).V = c.V ∧
              ∃ col row, CellNameToCoordinates c.R = .ok (col, row) ∧
                CellNameToCoordinates (h c).R = .ok (col, r.R + offset)
         else g r = r) ∧
        ((∀ c ∈ r.C, ∃ col, CellNameToCoordinates c.R = .ok (col, r.R)) →
          ∀ c ∈ (g r).C, ∃ col, CellNameToCoordinates c.R = .ok (col, (g r).R)) := by
  refine ⟨adjustRow num offset, rfl, ?_⟩
  intro r hr
  by_cases hc : r.R ≥ num ∧ r.R + offset > 0
  · have hg : adjustRow num offset r = ajustSingleRowDimensions r (r.R + offset) := by
      simp only [adjustRow, hc, and_self, if_true]
    have hcell : ∀ c ∈ r.C, ∃ col row, CellNameToCoordinates c.R = .ok (col, row) ∧
        CellNameToCoordinates
          (nameOrEmpty (JoinCellName (colNameOrEmpty c.R) (r.R + offset))) = .ok (col, r.R + offset) := by
      intro c hcm
      obtain ⟨col, row, hd⟩ := hdec r hr c hcm
      obtain ⟨t, ht, hdt⟩ := JoinCellName_colNameOrEmpty c.R col row (r.R + offset) hd (by omega)
      exact ⟨col, row, hd, by simp only [ht, nameOrEmpty, hdt]⟩
    rw [hg, if_pos hc]
    refine ⟨rfl, ⟨rfl, _, rfl, fun c hcm => ⟨rfl, hcell c hcm⟩⟩, ?_⟩
    intro _ c hcm
    simp only [ajustSingleRowDimensions, List.mem_map] at hcm ⊢
    obtain ⟨c0, hc0, rfl⟩ := hcm
    obtain ⟨col, _, _, h2⟩ := hcell c0 hc0
    exact ⟨col, h2⟩
  · have hg : adjustRow num offset r = r := by
      simp only [adjustRow, hc, if_false]
    rw [hg, if_neg hc]
    exact ⟨rfl, rfl, fun h => h⟩

/-- Rows 2 and 5 with one cell each, after two rows are inserted at row 3. -/
theorem adjustRowDimensions_renumber_witness :
    ∃ r1 r2,
      (adjustRowDimensions
        ⟨[⟨2, false, [⟨"A2", "x"⟩]⟩, ⟨5, true, [⟨"C5", "y"⟩]⟩], none, none, none⟩ 3 2).SheetData
        = [r1, r2] ∧
      r1 = ⟨2, false, [⟨"A2", "x"⟩]⟩ ∧ r2.R = 5 + 2 := by
  obtain ⟨g, hrun, hprop⟩ := adjustRowDimensions_renumber
    ⟨[⟨2, false, [⟨"A2", "x"⟩]⟩, ⟨5, true, [⟨"C5", "y"⟩]⟩], none, none, none⟩ 3 2
    (by
      intro r hr c hc
      simp only [List.mem_cons, List.mem_singleton, List.not_mem_nil, or_false] at hr
      rcases hr with rfl | rfl
      · simp only [List.mem_singleton] at hc
        subst hc
        exact ⟨1, 2, by decide⟩
      · simp only [List.mem_singleton] at hc
        subst hc
        exact ⟨3, 5, by decide⟩)
  refine ⟨g ⟨2, false, [⟨"A2", "x"⟩]⟩, g ⟨5, true, [⟨"C5", "y"⟩]⟩, by rw [hrun]; rfl, ?_, ?_⟩
  · have h := (hprop ⟨2, false, [⟨"A2", "x"⟩]⟩ (by simp)).2.1
    rw [if_neg (by decide)] at h
    exact h
  · have h := (hprop ⟨5, true, [⟨"C5", "y"⟩]⟩ (by simp)).2.1
    rw [if_pos (by decide)] at h
    exact h.1

/-- C15: on rows whose cell references decode, `adjustColDimensions` keeps
every row with its number, flag and cells in order, and maps the cells one by
one: a cell decoding to `(c, r)` is rewritten to `(c + offset, r)` exactly when
`c ≥ col` and `c + offset > 0` (content kept), and is unchanged otherwise. -/
theorem adjustColDimensions_shift (ws : xlsxWorksheet) (col offset : Int)
    (hdec : ∀ r ∈ ws.SheetData, ∀ c ∈ r.C,
      ∃ cc rr, CellNameToCoordinates c.R = .ok (cc, rr)) :
    ∃ h : xlsxC → xlsxC,
      adjustColDimensions ws col offset
        = { ws with SheetData := ws.SheetData.map (fun r => { r with C := r.C.map h }) } ∧
      ∀ r ∈ ws.SheetData, ∀ c ∈ r.C, (h c).V = c.V ∧
        ∃ cc rr, CellNameToCoordinates c.R = .ok (cc, rr) ∧
          (if col ≤ cc ∧ cc + offset > 0
           then CellNameToCoordinates (h c).R = .ok (cc + offset, rr)
           else h c = c) := by
  refine ⟨adjustColCell col offset, rfl, ?_⟩
  intro r hr c hc
  obtain ⟨cc, rr, hd⟩ := hdec r hr c hc
  have hpos := CellNameToCoordinates_pos c.R cc rr hd
  refine ⟨?_, cc, rr, hd, ?_⟩
  · simp only [adjustColCell]
    split_ifs <;> rfl
  · simp only [adjustColCell, coordinatesOrDefault_of_ok c.R (cc, rr) hd]
    by_cases h1 : col ≤ cc
    · by_cases h2 : cc + offset > 0
      · simp only [h1, h2, and_self, if_true,
          nameOrEmpty_CoordinatesToCellName (cc + offset) rr (by omega) hpos.2]
        exact CellNameToCoordinates_cellText (cc + offset) rr (by omega) hpos.2
      · simp only [h1, h2, and_false, if_false, if_true]
    · simp only [h1, false_and, if_false]

/-- Cells `A2` and `C2` of one row after the deletion of column B. -/
theorem adjustColDimensions_shift_witness :
    ∃ c1 c2,
      (adjustColDimensions ⟨[⟨2, false, [⟨"A2", "x"⟩, ⟨"C2", "y"⟩]⟩], none, none, none⟩
        2 (-1)).SheetData = [⟨2, false, [c1, c2]⟩] ∧
      c1 = ⟨"A2", "x"⟩ ∧ CellNameToCoordinates c2.R = .ok (3 + -1, 2) := by
  obtain ⟨h, hrun, hprop⟩ := adjustColDimensions_shift
    ⟨[⟨2, false, [⟨"A2", "x"⟩, ⟨"C2", "y"⟩]⟩], none, none, none⟩ 2 (-1)
    (by
      intro r hr c hc
      simp only [List.mem_singleton] at hr
      subst hr
      simp only [List.mem_cons, List.mem_singleton, List.not_mem_nil, or_false] at hc
      rcases hc with rfl | rfl
      · exact ⟨1, 2, by decide⟩
      · exact ⟨3, 2, by decide⟩)
  refine ⟨h ⟨"A2", "x"⟩, h ⟨"C2", "y"⟩, by rw [hrun]; rfl, ?_, ?_⟩
  · obtain ⟨_, cc, rr, hd, hif⟩ :=
      hprop ⟨2, false, [⟨"A2", "x"⟩, ⟨"C2", "y"⟩]⟩ (by simp) ⟨"A2", "x"⟩ (by simp)
    have hd2 : CellNameToCoordinates "A2" = .ok (1, 2) := by decide
    rw [hd2] at hd
    simp only [Except.ok.injEq, Prod.mk.injEq] at hd
    obtain ⟨rfl, rfl⟩ := hd
    rw [if_neg (by decide)] at hif
    exact hif
  · obtain ⟨_, cc, rr, hd, hif⟩ :=
      hprop ⟨2, false, [⟨"A2", "x"⟩, ⟨"C2", "y"⟩]⟩ (by simp) ⟨"C2", "y"⟩ (by simp)
    have hd2 : CellNameToCoordinates "C2" = .ok (3, 2) := by decide
    rw [hd2] at hd
    simp only [Except.ok.injEq, Prod.mk.injEq] at hd
    obtain ⟨rfl, rfl⟩ := hd
    rw [if_pos (by decide)] at hif
    exact hif

/-! ## Range decoding -/

/-- C16, as stated, fails: `A1:B2:C3` has three parts and decodes without
error as `A1:B2`; the part after the second is ignored. -/
theorem three_part_range_decodes :
    areaRefToCoordinates "A1:B2:C3" = .ok (1, 1, 2, 2) ∧
    stringsSplit (removeDollars "A1:B2:C3") = ["A1", "B2", "C3"] := by
  decide

/-- C16, amended: `areaRefToCoordinates` returns `ErrParameterInvalid` for
every reference string without a `:`; for a string with two or more
`:`-separated parts (after `$` is removed) it succeeds exactly when the first
two parts are cell references, giving their coordinates, and ignores the parts
after the second. -/
theorem areaRefToCoordinates_two_parts (ref : String) :
    ((∀ c ∈ ref.data, c ≠ ':') → areaRefToCoordinates ref = .error .ErrParameterInvalid) ∧
    (∀ first second rest, stringsSplit (removeDollars ref) = first :: second :: rest →
      ∀ c, areaRefToCoordinates ref = .ok c ↔
        (CellNameToCoordinates first = .ok (c.1, c.2.1) ∧
          CellNameToCoordinates second = .ok (c.2.2.1, c.2.2.2))) := by
  constructor
  · intro h
    have hno : ∀ c ∈ (removeDollars ref).data, c ≠ ':' := by
      intro c hc
      simp only [removeDollars, List.mem_filter] at hc
      exact h c hc.1
    simp only [areaRefToCoordinates, stringsSplit, splitColon_no_colon _ hno, List.map_nil]
  · intro first second rest hsplit c
    obtain ⟨x1, y1, x2, y2⟩ := c
    simp only [areaRefToCoordinates, hsplit, areaRangeToCoordinates]
    cases h1 : CellNameToCoordinates first with
    | error e => simp
    | ok p1 =>
      obtain ⟨a, b⟩ := p1
      cases h2 : CellNameToCoordinates second with
      | error e => simp
      | ok p2 =>
        obtain ⟨c, d⟩ := p2
        simp only [Except.ok.injEq, Prod.mk.injEq]
        constructor
        · rintro ⟨rfl, rfl, rfl, rfl⟩
          exact ⟨⟨rfl, rfl⟩, rfl, rfl⟩
        · rintro ⟨⟨rfl, rfl⟩, rfl, rfl⟩
          exact ⟨rfl, rfl, rfl, rfl⟩

/-- The strings `A1` (no separator) and `A1:B2:C3` (three parts). -/
theorem areaRefToCoordinates_two_parts_witness :
    areaRefToCoordinates "A1" = .error .ErrParameterInvalid ∧
    areaRefToCoordinates "A1:B2:C3" = .ok (1, 1, 2, 2) :=
  ⟨(areaRefToCoordinates_two_parts "A1").1 (by decide),
   ((areaRefToCoordinates_two_parts "A1:B2:C3").2 "A1" "B2" ["C3"] (by decide) (1, 1, 2, 2)).2
     ⟨by decide, by decide⟩⟩

/-! ## Row order -/

theorem adjustRow_R (num offset : Int) (r : xlsxRow) :
    (adjustRow num offset r).R = if r.R ≥ num ∧ r.R + offset > 0 then r.R + offset else r.R := by
  simp only [adjustRow, ajustSingleRowDimensions]
  split_ifs <;> rfl

/-- C20: for rows numbered from 1 in strictly increasing order and a position
`num ≥ 1`, if `offset > 0`, or `offset < 0` and no row is numbered in
`num .. num - offset - 1`, then after `adjustRowDimensions` the row numbers
are still strictly increasing, hence no two rows share a number. -/
theorem adjustRowDimensions_increasing (ws : xlsxWorksheet) (num offset : Int)
    (hnum : 1 ≤ num) (hpos : ∀ r ∈ ws.SheetData, 1 ≤ r.R)
    (hinc : List.Pairwise (fun a b : xlsxRow => a.R < b.R) ws.SheetData)
    (hoff : 0 < offset ∨
      (offset < 0 ∧ ∀ r ∈ ws.SheetData, ¬ (num ≤ r.R ∧ r.R ≤ num - offset - 1))) :
    List.Pairwise (fun a b : xlsxRow => a.R < b.R) (adjustRowDimensions ws num offset).SheetData ∧
    ((adjustRowDimensions ws num offset).SheetData.map (fun r => r.R)).Nodup := by
  have hpw : List.Pairwise (fun a b : xlsxRow => a.R < b.R)
      (adjustRowDimensions ws num offset).SheetData := by
    simp only [adjustRowDimensions, List.pairwise_map]
    refine List.Pairwise.imp_of_mem ?_ hinc
    intro a b ha hb hab
    have pa := hpos a ha
    have pb := hpos b hb
    rw [adjustRow_R, adjustRow_R]
    rcases hoff with hp | ⟨hn, hgap⟩
    · split_ifs <;> omega
    · have ga := hgap a ha
      have gb := hgap b hb
      split_ifs <;> omega
  refine ⟨hpw, ?_⟩
  rw [List.Nodup, List.pairwise_map]
  exact hpw.imp (fun h => ne_of_lt h)

/-- Rows 1, 2, 6 and 7 after the rows 3 to 5 were removed and three rows are
deleted at row 3. -/
theorem adjustRowDimensions_increasing_witness :
    List.Pairwise (fun a b : xlsxRow => a.R < b.R)
      (adjustRowDimensions
        ⟨[⟨1, false, []⟩, ⟨2, false, []⟩, ⟨6, false, []⟩, ⟨7, false, []⟩], none, none, none⟩
        3 (-3)).SheetData ∧
    ((adjustRowDimensions
        ⟨[⟨1, false, []⟩, ⟨2, false, []⟩, ⟨6, false, []⟩, ⟨7, false, []⟩], none, none, none⟩
        3 (-3)).SheetData.map (fun r => r.R)).Nodup :=
  adjustRowDimensions_increasing
    ⟨[⟨1, false, []⟩, ⟨2, false, []⟩, ⟨6, false, []⟩, ⟨7, false, []⟩], none, none, none⟩ 3 (-3)
    (by decide) (by decide) (by decide) (Or.inr ⟨by decide, by decide⟩)

/-! ## Error propagation in `adjustHelper` -/

theorem isSingleCell_of_line_and_shift (dir : adjustDirection) (num offset : Int)
    (c : Int × Int × Int × Int) (h1 : onEditLine dir num offset c)
    (h2 : isSingleCell (shiftRange dir num offset c)) : isSingleCell c := by
  obtain ⟨x1, y1, x2, y2⟩ := c
  cases dir
  · simp only [onEditLine, reduceCtorEq, false_and, false_or, true_and] at h1
    simp only [isSingleCell, shiftRange, reduceCtorEq, if_false] at h2 ⊢
    exact ⟨by omega, h2.2⟩
  · simp only [onEditLine, reduceCtorEq, false_and, or_false, true_and] at h1
    simp only [isSingleCell, shiftRange, if_true] at h2 ⊢
    exact ⟨h2.1, by omega⟩

theorem mergeCellsPass_returns (dir : adjustDirection) (num offset : Int)
    (todo : List xlsxMergeCell) :
    ∀ (done : List xlsxMergeCell) (count : Int),
      (∀ m ∈ todo, ∀ c, areaRefToCoordinates m.Ref = .ok c → ¬ isSingleCell c) →
      ∃ e mc, mergeCellsPass dir num offset done todo count = .returned e mc ∧
        ((∃ m ∈ todo, ∃ er, areaRefToCoordinates m.Ref = .error er) → e ≠ none) := by
  induction todo with
  | nil =>
    intro done count _
    exact ⟨none, ⟨count, done⟩, rfl, by simp⟩
  | cons a todo ih =>
    intro done count h
    have h2 : ∀ m ∈ todo, ∀ c, areaRefToCoordinates m.Ref = .ok c → ¬ isSingleCell c :=
      fun m hm => h m (by simp [hm])
    have lift : ∀ {e : Option Error},
        ((∃ m ∈ todo, ∃ er, areaRefToCoordinates m.Ref = .error er) → e ≠ none) →
        (∃ c, areaRefToCoordinates a.Ref = .ok c) →
        ((∃ m ∈ a :: todo, ∃ er, areaRefToCoordinates m.Ref = .error er) → e ≠ none) := by
      intro e he ⟨c, hc⟩ ⟨m, hm, er, her⟩
      rcases List.mem_cons.1 hm with rfl | hm
      · rw [hc] at her; cases her
      · exact he ⟨m, hm, er, her⟩
    simp only [mergeCellsPass]
    cases hdec : areaRefToCoordinates a.Ref with
    | error er => exact ⟨some er, _, rfl, fun _ => by simp⟩
    | ok c =>
      have hns := h a (by simp) c hdec
      simp only
      by_cases h1 : onEditLine dir num offset c
      · have hs : ¬ isSingleCell (shiftRange dir num offset c) :=
          fun hs => hns (isSingleCell_of_line_and_shift dir num offset c h1 hs)
        simp only [h1, hs, if_true, if_false]
        obtain ⟨e, mc, hrun, he⟩ := ih done _ h2
        exact ⟨e, mc, hrun, lift he ⟨c, hdec⟩⟩
      · by_cases hs : isSingleCell (shiftRange dir num offset c)
        · simp only [h1, hs, if_true, if_false]
          obtain ⟨e, mc, hrun, he⟩ := ih done _ h2
          exact ⟨e, mc, hrun, lift he ⟨c, hdec⟩⟩
        · simp only [h1, hs, if_false]
          obtain ⟨e, mc, hrun, he⟩ := ih _ count h2
          exact ⟨e, mc, hrun, lift he ⟨c, hdec⟩⟩

theorem adjustMergeCells_returns (ws : xlsxWorksheet) (dir : adjustDirection)
    (num offset : Int)
    (h : ∀ mc, ws.MergeCells = some mc → ∀ m ∈ mc.Cells,
      ∀ c, areaRefToCoordinates m.Ref = .ok c → ¬ isSingleCell c) :
    ∃ e ws1, adjustMergeCells ws dir num offset = .returned e ws1 ∧
      ws1.SheetData = ws.SheetData ∧ ws1.Hyperlinks = ws.Hyperlinks ∧
      ws1.AutoFilter = ws.AutoFilter ∧
      ((∃ mc m, ws.MergeCells = some mc ∧ m ∈ mc.Cells ∧
          ∃ er, areaRefToCoordinates m.Ref = .error er) → e ≠ none) := by
  cases hws : ws.MergeCells with
  | none =>
    refine ⟨none, ws, by simp [adjustMergeCells, hws], rfl, rfl, rfl, ?_⟩
    rintro ⟨mc, m, hmc, _⟩
    cases hmc
  | some mc =>
    obtain ⟨e, mc1, hrun, he⟩ := mergeCellsPass_returns dir num offset mc.Cells [] mc.Count
      (h mc hws)
    rw [adjustMergeCells_eq_pass ws dir num offset mc hws, hrun]
    refine ⟨e, _, rfl, rfl, rfl, rfl, ?_⟩
    rintro ⟨mc2, m, hmc, hm, her⟩
    simp only [Option.some.injEq] at hmc
    subst hmc
    exact he ⟨m, hm, her⟩

theorem adjustMergeCells_fields (ws ws1 : xlsxWorksheet) (dir : adjustDirection)
    (num offset : Int) (e : Option Error)
    (h : adjustMergeCells ws dir num offset = .returned e ws1) :
    ws1.SheetData = ws.SheetData ∧ ws1.Hyperlinks = ws.Hyperlinks ∧
    ws1.AutoFilter = ws.AutoFilter := by
  have := adjustMergeCells_frame ws ws ws1 dir num offset e h rfl
  rw [h] at this
  simp only [Outcome.returned.injEq, true_and] at this
  rw [this]
  exact ⟨rfl, rfl, rfl⟩

theorem adjustAutoFilter_error_fields (ws ws1 : xlsxWorksheet) (dir : adjustDirection)
    (num offset : Int) (e : Error)
    (h : adjustAutoFilter ws dir num offset = (some e, ws1)) :
    ws1.SheetData = ws.SheetData ∧ ws1.Hyperlinks = ws.Hyperlinks ∧
    ws1.MergeCells = ws.MergeCells := by
  simp only [adjustAutoFilter] at h
  split at h
  · simp at h
  · split at h
    · simp only [Prod.mk.injEq] at h
      rw [← h.2]
      exact ⟨rfl, rfl, rfl⟩
    · split at h
      · simp at h
      · split at h
        · simp only [Prod.mk.injEq] at h
          rw [← h.2]
          exact ⟨rfl, rfl, rfl⟩
        · simp at h

theorem adjustAutoFilter_error_of_bad (ws : xlsxWorksheet) (dir : adjustDirection)
    (num offset : Int) (af : xlsxAutoFilter) (haf : ws.AutoFilter = some af)
    (hbad : (∃ er, areaRefToCoordinates af.Ref = .error er) ∨
      (∃ c, areaRefToCoordinates af.Ref = .ok c ∧ ¬ filterRemoved dir num offset c ∧
        ¬ filterShiftInSheet dir num offset c)) :
    (adjustAutoFilter ws dir num offset).1 ≠ none := by
  rcases hbad with ⟨er, her⟩ | ⟨c, hdec, hkeep, hout⟩
  · simp [adjustAutoFilter, haf, her]
  · have hb := adjustAutoFilterHelper_below dir num offset c hout
    have herr := coordinatesToAreaRef_error _ _ _ _ hb
    obtain ⟨x1, y1, x2, y2⟩ := c
    simp only [filterRemoved] at hkeep
    simp [adjustAutoFilter, haf, hdec, hkeep, herr]

theorem adjustCalcChainLoop_error_of_bad (dir : adjustDirection) (num offset sheetID : Int)
    (cs : List xlsxCalcChainC)
    (h : ∃ c ∈ cs, c.I = sheetID ∧ ∃ er, CellNameToCoordinates c.R = .error er) :
    (adjustCalcChainLoop dir num offset sheetID cs).1 ≠ none := by
  induction cs with
  | nil => simp at h
  | cons c cs ih =>
    obtain ⟨b, hb, hid, er, her⟩ := h
    simp only [adjustCalcChainLoop]
    by_cases hi : c.I ≠ sheetID
    · simp only [hi, if_true, ne_eq, not_false_eq_true]
      rcases List.mem_cons.1 hb with rfl | hb
      · exact absurd hid hi
      · exact ih ⟨b, hb, hid, er, her⟩
    · simp only [hi, if_false]
      cases hd : CellNameToCoordinates c.R with
      | error e2 => simp
      | ok p =>
        obtain ⟨col, row⟩ := p
        simp only
        rcases List.mem_cons.1 hb with rfl | hb
        · rw [hd] at her; cases her
        · exact ih ⟨b, hb, hid, er, her⟩

theorem adjustDimensions_fields (ws : xlsxWorksheet) (dir : adjustDirection)
    (num offset : Int) :
    (adjustDimensions ws dir num offset).Hyperlinks = ws.Hyperlinks ∧
    (adjustDimensions ws dir num offset).MergeCells = ws.MergeCells ∧
    (adjustDimensions ws dir num offset).AutoFilter = ws.AutoFilter ∧
    (adjustDimensions ws dir num offset).SheetData.map (fun r => r.Hidden)
      = ws.SheetData.map (fun r => r.Hidden) := by
  cases dir
  · refine ⟨rfl, rfl, rfl, ?_⟩
    simp only [adjustDimensions, reduceCtorEq, if_false, adjustColDimensions, List.map_map]
    rfl
  · refine ⟨rfl, rfl, rfl, ?_⟩
    simp only [adjustDimensions, if_true, adjustRowDimensions, List.map_map]
    apply List.map_congr_left
    intro r _
    simp only [Function.comp, adjustRow, ajustSingleRowDimensions]
    split_ifs <;> rfl

/-- C18: `adjustHelper` runs the cell rewrite, then the hyperlink stage, which
always returns, then `adjustMergeCells` on its result, then `adjustAutoFilter`.
If `adjustMergeCells` returns an error, `adjustHelper` returns that error with
the auto-filter, the hidden flags and the calculation chain as before the call
and with the rewritten cells and adjusted hyperlinks kept; if
`adjustAutoFilter` returns an error, `adjustHelper` returns that error with
the calculation chain as before the call and the earlier stages' changes
kept; otherwise the result is that of `adjustCalcChain`, followed on success
by the checks. -/
theorem adjustHelper_fail_fast (checks : xlsxWorksheet → xlsxWorksheet) (ws : xlsxWorksheet)
    (f : File) (sheet : String) (sheetID : Int) (dir : adjustDirection) (num offset : Int) :
    ∃ ws2 f2,
      adjustHyperlinks (adjustDimensions ws dir num offset) f sheet dir num offset
        = .returned none (ws2, f2) ∧
      (∀ e ws3, adjustMergeCells ws2 dir num offset = .returned (some e) ws3 →
        adjustHelper (.ok ws) checks f sheet sheetID dir num offset
          = .returned (some e) (some ws3, f2) ∧
        ws3.AutoFilter = ws.AutoFilter ∧
        ws3.SheetData.map (fun r => r.Hidden) = ws.SheetData.map (fun r => r.Hidden) ∧
        f2.CalcChain = f.CalcChain ∧
        ws3.SheetData = (adjustDimensions ws dir num offset).SheetData ∧
        ws3.Hyperlinks = ws2.Hyperlinks) ∧
      (∀ e ws3 ws4, adjustMergeCells ws2 dir num offset = .returned none ws3 →
        adjustAutoFilter ws3 dir num offset = (some e, ws4) →
        adjustHelper (.ok ws) checks f sheet sheetID dir num offset
          = .returned (some e) (some ws4, f2) ∧
        f2.CalcChain = f.CalcChain ∧
        ws4.SheetData = (adjustDimensions ws dir num offset).SheetData ∧
        ws4.Hyperlinks = ws2.Hyperlinks ∧
        ws4.MergeCells = ws3.MergeCells) ∧
      (∀ ws3 ws4, adjustMergeCells ws2 dir num offset = .returned none ws3 →
        adjustAutoFilter ws3 dir num offset = (none, ws4) →
        adjustHelper (.ok ws) checks f sheet sheetID dir num offset
          = match adjustCalcChain f2 dir num offset sheetID with
            | (some e, f5) => .returned (some e) (some ws4, f5)
            | (none, f5) => .returned none (some (dropEmptyMergeCells (checks ws4)), f5)) := by
  obtain ⟨ws2, f2, hh, hsd, _, hfil, hcc⟩ :=
    adjustHyperlinks_returns (adjustDimensions ws dir num offset) f sheet dir num offset
  obtain ⟨_, _, hfil0, hhid⟩ := adjustDimensions_fields ws dir num offset
  have hh2 := hh
  simp only [adjustDimensions] at hh2
  refine ⟨ws2, f2, hh, ?_, ?_, ?_⟩
  · intro e ws3 hm
    obtain ⟨m1, m2, m3⟩ := adjustMergeCells_fields ws2 ws3 dir num offset _ hm
    refine ⟨?_, by rw [m3, hfil, hfil0], by rw [m1, hsd, hhid], hcc, by rw [m1, hsd], m2⟩
    simp only [adjustHelper, adjustHelperStages, hh2, hm]
  · intro e ws3 ws4 hm hfl
    obtain ⟨m1, m2, _⟩ := adjustMergeCells_fields ws2 ws3 dir num offset _ hm
    obtain ⟨a1, a2, a3⟩ := adjustAutoFilter_error_fields ws3 ws4 dir num offset e hfl
    refine ⟨?_, hcc, by rw [a1, m1, hsd], by rw [a2, m2], a3⟩
    simp only [adjustHelper, adjustHelperStages, hh2, hm, hfl]
  · intro ws3 ws4 hm hfl
    simp only [adjustHelper, adjustHelperStages, hh2, hm, hfl]
    rcases adjustCalcChain f2 dir num offset sheetID with ⟨_ | e, f5⟩ <;> rfl

/-- A sheet whose second merge range does not decode, and a sheet whose
filter does not decode, with one row inserted at row 2. -/
theorem adjustHelper_fail_fast_witness :
    adjustHelper
        (.ok ⟨[⟨3, true, [⟨"A3", "x"⟩]⟩], none, some ⟨2, [⟨"A1:B4"⟩, ⟨"oops"⟩]⟩,
          some ⟨"A2:C10"⟩⟩) id ⟨some [⟨"A3", 1⟩], []⟩ "Sheet1" 1 .rows 2 1
      = .returned (some .ErrParameterInvalid)
        (some ⟨[⟨4, true, [⟨"A4", "x"⟩]⟩], none, some ⟨2, [⟨"A1:B5"⟩, ⟨"oops"⟩]⟩,
          some ⟨"A2:C10"⟩⟩, ⟨some [⟨"A3", 1⟩], []⟩) ∧
    adjustHelper
        (.ok ⟨[⟨3, true, [⟨"A3", "x"⟩]⟩], none, some ⟨1, [⟨"A1:B4"⟩]⟩, some ⟨"oops"⟩⟩)
        id ⟨some [⟨"A3", 1⟩], []⟩ "Sheet1" 1 .rows 2 1
      = .returned (some .ErrParameterInvalid)
        (some ⟨[⟨4, true, [⟨"A4", "x"⟩]⟩], none, some ⟨1, [⟨"A1:B5"⟩]⟩, some ⟨"oops"⟩⟩,
          ⟨some [⟨"A3", 1⟩], []⟩) := by
  constructor
  · obtain ⟨ws2, f2, hh, hA, _, _⟩ := adjustHelper_fail_fast id
      ⟨[⟨3, true, [⟨"A3", "x"⟩]⟩], none, some ⟨2, [⟨"A1:B4"⟩, ⟨"oops"⟩]⟩, some ⟨"A2:C10"⟩⟩
      ⟨some [⟨"A3", 1⟩], []⟩ "Sheet1" 1 .rows 2 1
    have hh0 : adjustHyperlinks (adjustDimensions
        ⟨[⟨3, true, [⟨"A3", "x"⟩]⟩], none, some ⟨2, [⟨"A1:B4"⟩, ⟨"oops"⟩]⟩, some ⟨"A2:C10"⟩⟩
        .rows 2 1) ⟨some [⟨"A3", 1⟩], []⟩ "Sheet1" .rows 2 1
        = .returned none
          (⟨[⟨4, true, [⟨"A4", "x"⟩]⟩], none, some ⟨2, [⟨"A1:B4"⟩, ⟨"oops"⟩]⟩,
            some ⟨"A2:C10"⟩⟩, ⟨some [⟨"A3", 1⟩], []⟩) := by decide
    rw [hh0] at hh
    simp only [Outcome.returned.injEq, Prod.mk.injEq, true_and] at hh
    obtain ⟨rfl, rfl⟩ := hh
    exact (hA .ErrParameterInvalid
      ⟨[⟨4, true, [⟨"A4", "x"⟩]⟩], none, some ⟨2, [⟨"A1:B5"⟩, ⟨"oops"⟩]⟩, some ⟨"A2:C10"⟩⟩
      (by decide)).1
  · obtain ⟨ws2, f2, hh, _, hB, _⟩ := adjustHelper_fail_fast id
      ⟨[⟨3, true, [⟨"A3", "x"⟩]⟩], none, some ⟨1, [⟨"A1:B4"⟩]⟩, some ⟨"oops"⟩⟩
      ⟨some [⟨"A3", 1⟩], []⟩ "Sheet1" 1 .rows 2 1
    have hh0 : adjustHyperlinks (adjustDimensions
        ⟨[⟨3, true, [⟨"A3", "x"⟩]⟩], none, some ⟨1, [⟨"A1:B4"⟩]⟩, some ⟨"oops"⟩⟩
        .rows 2 1) ⟨some [⟨"A3", 1⟩], []⟩ "Sheet1" .rows 2 1
        = .returned none
          (⟨[⟨4, true, [⟨"A4", "x"⟩]⟩], none, some ⟨1, [⟨"A1:B4"⟩]⟩, some ⟨"oops"⟩⟩,
            ⟨some [⟨"A3", 1⟩], []⟩) := by decide
    rw [hh0] at hh
    simp only [Outcome.returned.injEq, Prod.mk.injEq, true_and] at hh
    obtain ⟨rfl, rfl⟩ := hh
    exact (hB .ErrParameterInvalid
      ⟨[⟨4, true, [⟨"A4", "x"⟩]⟩], none, some ⟨1, [⟨"A1:B5"⟩]⟩, some ⟨"oops"⟩⟩
      ⟨[⟨4, true, [⟨"A4", "x"⟩]⟩], none, some ⟨1, [⟨"A1:B5"⟩]⟩, some ⟨"oops"⟩⟩
      (by decide) (by decide)).1

/-! ## The calls of `deleteMergeCell` -/

theorem adjustMergeCellsLoopTraced_fst (dir : adjustDirection) (num offset : Int)
    (fuel : Nat) :
    ∀ (i : Int) (mc : xlsxMergeCells),
      (adjustMergeCellsLoopTraced dir num offset fuel i mc).1
        = adjustMergeCellsLoop dir num offset fuel i mc := by
  induction fuel with
  | zero =>
    intro i mc
    simp only [adjustMergeCellsLoopTraced, adjustMergeCellsLoop]
  | succ f ih =>
    intro i mc
    simp only [adjustMergeCellsLoopTraced, adjustMergeCellsLoop]
    split_ifs
    · rfl
    · cases mc.Cells.get? i.toNat with
      | none => rfl
      | some a =>
        simp only
        cases areaRefToCoordinates a.Ref with
        | error e => rfl
        | ok c =>
          simp only
          cases adjustMergeCellsBody dir num offset ⟨mc, i, some i.toNat⟩ c with
          | none => rfl
          | some r =>
            obtain ⟨s, res⟩ := r
            cases res with
            | error e => rfl
            | ok ref => exact ih _ _
    · rfl

theorem adjustMergeCellsBodyCalls_keep (dir : adjustDirection) (num offset : Int)
    (s0 : mergeCursor) (c : Int × Int × Int × Int)
    (h1 : ¬ onEditLine dir num offset c) (h2 : ¬ isSingleCell (shiftRange dir num offset c)) :
    adjustMergeCellsBodyCalls dir num offset s0 c = [] := by
  obtain ⟨x1, y1, x2, y2⟩ := c
  cases dir
  · simp only [onEditLine, shiftRange, isSingleCell, reduceCtorEq, false_and, false_or,
      true_and, if_false] at h1 h2 ⊢
    simp [adjustMergeCellsBodyCalls, h1, h2]
  · simp only [onEditLine, shiftRange, isSingleCell, reduceCtorEq, false_and, or_false,
      true_and, if_true] at h1 h2 ⊢
    simp [adjustMergeCellsBodyCalls, h1, h2]

theorem adjustMergeCellsBodyCalls_single (dir : adjustDirection) (num offset : Int)
    (s0 : mergeCursor) (c : Int × Int × Int × Int)
    (h1 : ¬ onEditLine dir num offset c) (h2 : isSingleCell (shiftRange dir num offset c)) :
    adjustMergeCellsBodyCalls dir num offset s0 c = [callAt s0] := by
  obtain ⟨x1, y1, x2, y2⟩ := c
  cases dir
  · simp only [onEditLine, shiftRange, isSingleCell, reduceCtorEq, false_and, false_or,
      true_and, if_false] at h1 h2 ⊢
    simp [adjustMergeCellsBodyCalls, h1, h2]
  · simp only [onEditLine, shiftRange, isSingleCell, reduceCtorEq, false_and, or_false,
      true_and, if_true] at h1 h2 ⊢
    simp [adjustMergeCellsBodyCalls, h1, h2]

theorem adjustMergeCellsBodyCalls_line (dir : adjustDirection) (num offset count : Int)
    (pre post : List xlsxMergeCell) (b : xlsxMergeCell) (c : Int × Int × Int × Int)
    (h1 : onEditLine dir num offset c) (h2 : ¬ isSingleCell (shiftRange dir num offset c)) :
    adjustMergeCellsBodyCalls dir num offset
        ⟨⟨count, pre ++ b :: post⟩, (pre.length : Int), some pre.length⟩ c
      = [callAt ⟨⟨count, pre ++ b :: post⟩, (pre.length : Int), some pre.length⟩] := by
  have hd := deleteAndStepBack_here count pre post b
  obtain ⟨x1, y1, x2, y2⟩ := c
  cases dir
  · simp only [onEditLine, shiftRange, isSingleCell, reduceCtorEq, false_and, false_or,
      true_and, if_false] at h1 h2 ⊢
    obtain ⟨e1, e2, e3⟩ := h1
    subst e1 e2
    simp only [and_true] at h2
    simp [adjustMergeCellsBodyCalls, h2, hd, e3]
  · simp only [onEditLine, shiftRange, isSingleCell, reduceCtorEq, false_and, or_false,
      true_and, if_true] at h1 h2 ⊢
    obtain ⟨e1, e2, e3⟩ := h1
    subst e1 e2
    simp only [true_and] at h2
    simp [adjustMergeCellsBodyCalls, h2, hd, e3]

theorem callInBounds_callAt (count : Int) (pre post : List xlsxMergeCell) (b : xlsxMergeCell) :
    callInBounds (callAt ⟨⟨count, pre ++ b :: post⟩, (pre.length : Int), some pre.length⟩) := by
  refine ⟨?_, ?_, ?_⟩
  · simp only [callAt]
    omega
  · simp only [callAt, List.length_append, List.length_cons]
    push_cast
    omega
  · simp only [callAt, Int.toNat_ofNat]

theorem adjustMergeCellsLoopTraced_proper (dir : adjustDirection) (num offset : Int)
    (todo : List xlsxMergeCell) :
    ∀ (done : List xlsxMergeCell) (count : Int) (fuel : Nat), todo.length ≤ fuel →
      (∀ m ∈ todo, properRange m) →
      (∃ mc1, (adjustMergeCellsLoopTraced dir num offset fuel (done.length : Int)
          ⟨count, done ++ todo⟩).1 = .returned none mc1) ∧
      (adjustMergeCellsLoopTraced dir num offset fuel (done.length : Int)
          ⟨count, done ++ todo⟩).2.length = todo.length ∧
      ∀ calls ∈ (adjustMergeCellsLoopTraced dir num offset fuel (done.length : Int)
          ⟨count, done ++ todo⟩).2,
        calls.length ≤ 1 ∧ ∀ call ∈ calls, callInBounds call := by
  induction todo with
  | nil =>
    intro done count fuel _ _
    cases fuel <;> simp [adjustMergeCellsLoopTraced]
  | cons a todo ih =>
    intro done count fuel hfuel hproper
    cases fuel with
    | zero => simp at hfuel
    | succ f =>
      have hf : todo.length ≤ f := by simpa using hfuel
      have hp2 : ∀ m ∈ todo, properRange m := fun m hm => hproper m (by simp [hm])
      have hlt : (done.length : Int) < ((done ++ a :: todo).length : Int) := by
        simp only [List.length_append, List.length_cons]; push_cast; omega
      have hnn : ¬ ((done.length : Int) < 0) := by omega
      have hget : (done ++ a :: todo).get? done.length = some a := by
        rw [List.get?_eq_getElem?, List.getElem?_append_right (le_refl _)]
        simp
      obtain ⟨c, hdec, hns⟩ := hproper a (by simp)
      have hpos := areaRefToCoordinates_pos a.Ref c.1 c.2.1 c.2.2.1 c.2.2.2 hdec
      have hsp := shiftRange_pos dir num offset c hpos
      have henc := coordinatesToAreaRef_ok _ _ _ _ hsp.1 hsp.2.1 hsp.2.2.1 hsp.2.2.2
      simp only [adjustMergeCellsLoopTraced, hlt, hnn, if_true, if_false, Int.toNat_ofNat,
        hget, hdec]
      have hcall := callInBounds_callAt count done todo a
      by_cases h1 : onEditLine dir num offset c
      · have h2 : ¬ isSingleCell (shiftRange dir num offset c) :=
          fun hs => hns (isSingleCell_of_line_and_shift dir num offset c h1 hs)
        rw [adjustMergeCellsBody_line dir num offset count done todo a c h1 h2, henc,
          adjustMergeCellsBodyCalls_line dir num offset count done todo a c h1 h2]
        simp only [storeRef, sub_add_cancel]
        obtain ⟨i1, i2, i3⟩ := ih done ((done ++ todo).length : Int) f hf hp2
        refine ⟨i1, by simp only [List.length_cons, i2], ?_⟩
        intro calls hc
        rcases List.mem_cons.1 hc with rfl | hc
        · exact ⟨by simp, fun call hcl => by
            simp only [List.mem_singleton] at hcl
            subst hcl
            exact hcall⟩
        · exact i3 calls hc
      · by_cases h2 : isSingleCell (shiftRange dir num offset c)
        · rw [adjustMergeCellsBody_single dir num offset count done todo a c h1 h2, henc,
            adjustMergeCellsBodyCalls_single dir num offset _ c h1 h2]
          simp only [storeRef, sub_add_cancel]
          obtain ⟨i1, i2, i3⟩ := ih done ((done ++ todo).length : Int) f hf hp2
          refine ⟨i1, by simp only [List.length_cons, i2], ?_⟩
          intro calls hc
          rcases List.mem_cons.1 hc with rfl | hc
          · exact ⟨by simp, fun call hcl => by
              simp only [List.mem_singleton] at hcl
              subst hcl
              exact hcall⟩
          · exact i3 calls hc
        · rw [adjustMergeCellsBody_keep dir num offset _ c h1 h2, henc,
            adjustMergeCellsBodyCalls_keep dir num offset _ c h1 h2]
          simp only [storeRef]
          have hset : (done ++ a :: todo).set done.length
              ⟨areaText (shiftRange dir num offset c).1 (shiftRange dir num offset c).2.1
                (shiftRange dir num offset c).2.2.1 (shiftRange dir num offset c).2.2.2⟩
              = (done ++ [⟨areaText (shiftRange dir num offset c).1
                  (shiftRange dir num offset c).2.1
                  (shiftRange dir num offset c).2.2.1
                  (shiftRange dir num offset c).2.2.2⟩]) ++ todo := by
            simp
          rw [hset]
          have hi : (done.length : Int) + 1 = ((done ++ [(⟨areaText
              (shiftRange dir num offset c).1 (shiftRange dir num offset c).2.1
              (shiftRange dir num offset c).2.2.1
              (shiftRange dir num offset c).2.2.2⟩ : xlsxMergeCell)]).length : Int) := by
            simp
          rw [hi]
          obtain ⟨i1, i2, i3⟩ := ih _ count f hf hp2
          refine ⟨i1, by simp only [List.length_cons, i2], ?_⟩
          intro calls hc
          rcases List.mem_cons.1 hc with rfl | hc
          · exact ⟨by simp, fun call hcl => by simp at hcl⟩
          · exact i3 calls hc

/-- C19: on a merge collection whose references decode and in which no range
is a single cell, `adjustMergeCells` returns without error after exactly one
iteration per input range; each iteration calls `deleteMergeCell` at most
once, and every call has an index `idx` with `0 ≤ idx < len(Cells)` that is
the position of the range being processed. -/
theorem adjustMergeCells_delete_calls (ws : xlsxWorksheet) (dir : adjustDirection)
    (num offset : Int) (mc : xlsxMergeCells) (hws : ws.MergeCells = some mc)
    (hproper : ∀ m ∈ mc.Cells, properRange m) :
    ∃ mc1 trace,
      adjustMergeCellsLoopTraced dir num offset mc.Cells.length 0 mc
        = (.returned none mc1, trace) ∧
      adjustMergeCells ws dir num offset = .returned none { ws with MergeCells := some mc1 } ∧
      trace.length = mc.Cells.length ∧
      ∀ calls ∈ trace, calls.length ≤ 1 ∧ ∀ call ∈ calls, callInBounds call := by
  obtain ⟨⟨mc1, h1⟩, h2, h3⟩ := adjustMergeCellsLoopTraced_proper dir num offset mc.Cells []
    mc.Count mc.Cells.length (le_refl _) hproper
  simp only [List.length_nil, Nat.cast_zero, List.nil_append] at h1 h2 h3
  refine ⟨mc1, (adjustMergeCellsLoopTraced dir num offset mc.Cells.length 0 mc).2, ?_, ?_,
    h2, h3⟩
  · rw [← h1]
  · have hl := adjustMergeCellsLoopTraced_fst dir num offset mc.Cells.length 0 mc
    rw [h1] at hl
    simp only [adjustMergeCells, hws, ← hl]

/-- The collection `A5:A6, B5:C8, D6:F6` and the deletion of row 6: three
iterations, with one call for the first range and one for the third. -/
theorem adjustMergeCells_delete_calls_witness :
    ∃ mc1 trace,
      adjustMergeCellsLoopTraced .rows 6 (-1) 3 0
          ⟨3, [⟨"A5:A6"⟩, ⟨"B5:C8"⟩, ⟨"D6:F6"⟩]⟩ = (.returned none mc1, trace) ∧
      adjustMergeCells ⟨[], none, some ⟨3, [⟨"A5:A6"⟩, ⟨"B5:C8"⟩, ⟨"D6:F6"⟩]⟩, none⟩ .rows 6 (-1)
        = .returned none ⟨[], none, some mc1, none⟩ ∧
      trace.length = 3 ∧
      ∀ calls ∈ trace, calls.length ≤ 1 ∧ ∀ call ∈ calls, callInBounds call :=
  adjustMergeCells_delete_calls
    ⟨[], none, some ⟨3, [⟨"A5:A6"⟩, ⟨"B5:C8"⟩, ⟨"D6:F6"⟩]⟩, none⟩ .rows 6 (-1)
    ⟨3, [⟨"A5:A6"⟩, ⟨"B5:C8"⟩, ⟨"D6:F6"⟩]⟩ rfl
    (by
      intro m hm
      simp only [List.mem_cons, List.mem_singleton, List.not_mem_nil, or_false] at hm
      rcases hm with rfl | rfl | rfl
      · exact ⟨(1, 5, 1, 6), by decide, by decide⟩
      · exact ⟨(2, 5, 3, 8), by decide, by decide⟩
      · exact ⟨(4, 6, 6, 6), by decide, by decide⟩)

/-! ## The shifting rule on 64-bit integers -/

theorem wrapInt64_of_inInt64 (x : Int) (h : inInt64 x) : wrapInt64 x = x := by
  simp only [inInt64] at h
  simp only [wrapInt64]
  omega

theorem inInt64_wrapInt64 (x : Int) : inInt64 (wrapInt64 x) := by
  simp only [inInt64, wrapInt64]
  omega

theorem adjustMergeCellsHelperInt64_eq (p n o : Int) (h : inInt64 (p + o)) :
    adjustMergeCellsHelperInt64 p n o = adjustMergeCellsHelper p n o := by
  simp only [adjustMergeCellsHelperInt64, adjustMergeCellsHelper, wrapInt64_of_inInt64 _ h]

/-- C1, as stated, fails: at pivot `2^63 - 1`, edit position 1 and offset 1
the sum `pivot += offset` wraps around to `-2^63`, which is below 1, and the
method returns 1, where `p + o` raised to 1 is `2^63`. -/
theorem shift_rule_wraps_at_max_int :
    inInt64 9223372036854775807 ∧
    wrapInt64 (9223372036854775807 + 1) = -9223372036854775808 ∧
    adjustMergeCellsHelperInt64 9223372036854775807 1 1 = 1 ∧
    max ((9223372036854775807 : Int) + 1) 1 = 9223372036854775808 ∧
    ¬ (∀ p n o : Int, inInt64 p → inInt64 n → inInt64 o → n ≤ p →
        adjustMergeCellsHelperInt64 p n o = max (p + o) 1) := by
  refine ⟨by decide, by decide, by decide, by decide, ?_⟩
  intro h
  have h1 := h 9223372036854775807 1 1 (by decide) (by decide) (by decide) (by decide)
  revert h1
  decide

/-- C1, amended: for every Go `int` pivot `p` and every edit position `n` and
offset `o`, `adjustMergeCellsHelper(p, n, o)` returns `p + o` raised to 1 if
`p ≥ n` and the sum `p + o` does not overflow the 64-bit range, and returns
`p` unchanged if `p < n`; for every `p ≥ 1` the result is at least 1, also
when the sum overflows, and the result is always a Go `int`. -/
theorem adjustMergeCellsHelperInt64_shift_rule (p n o : Int) (hp : inInt64 p) :
    (n ≤ p → inInt64 (p + o) → adjustMergeCellsHelperInt64 p n o = max (p + o) 1) ∧
    (p < n → adjustMergeCellsHelperInt64 p n o = p) ∧
    (1 ≤ p → 1 ≤ adjustMergeCellsHelperInt64 p n o) ∧
    inInt64 (adjustMergeCellsHelperInt64 p n o) := by
  refine ⟨fun h hsum => ?_, fun h => ?_, fun h => ?_, ?_⟩
  · have hge : p ≥ n := h
    simp only [adjustMergeCellsHelperInt64, hge, if_true, wrapInt64_of_inInt64 _ hsum]
    split_ifs with h1
    · rw [max_eq_right (by omega)]
    · rw [max_eq_left (by omega)]
  · have hlt : ¬ (p ≥ n) := by omega
    simp only [adjustMergeCellsHelperInt64, hlt, if_false]
  · simp only [adjustMergeCellsHelperInt64]
    split_ifs <;> omega
  · have hw := inInt64_wrapInt64 (p + o)
    simp only [adjustMergeCellsHelperInt64]
    split_ifs
    · decide
    · exact hw
    · exact hp

/-- The 64-bit shifting rule at pivots 7 and 3 with edit position 5 and offset
-10, and at the largest pivot with offset 1. -/
theorem adjustMergeCellsHelperInt64_shift_rule_witness :
    adjustMergeCellsHelperInt64 7 5 (-10) = max (7 + -10) 1 ∧
    adjustMergeCellsHelperInt64 3 5 (-10) = 3 ∧
    1 ≤ adjustMergeCellsHelperInt64 9223372036854775807 1 1 ∧
    inInt64 (adjustMergeCellsHelperInt64 9223372036854775807 1 1) :=
  ⟨(adjustMergeCellsHelperInt64_shift_rule 7 5 (-10) (by decide)).1 (by decide) (by decide),
   (adjustMergeCellsHelperInt64_shift_rule 3 5 (-10) (by decide)).2.1 (by decide),
   (adjustMergeCellsHelperInt64_shift_rule 9223372036854775807 1 1 (by decide)).2.2.1
     (by decide),
   (adjustMergeCellsHelperInt64_shift_rule 9223372036854775807 1 1 (by decide)).2.2.2⟩

/-! ## Which failures `adjustHelper` reports -/

theorem mergeCellsPass_error_iff (dir : adjustDirection) (num offset : Int)
    (todo : List xlsxMergeCell) :
    ∀ (done : List xlsxMergeCell) (count : Int) (e : Option Error) (mc : xlsxMergeCells),
      mergeCellsPass dir num offset done todo count = .returned e mc →
      (e = none ↔ ∀ m ∈ todo, ∃ c, areaRefToCoordinates m.Ref = .ok c) := by
  induction todo with
  | nil =>
    intro done count e mc h
    simp only [mergeCellsPass, Outcome.returned.injEq] at h
    simp [h.1.symm]
  | cons a todo ih =>
    intro done count e mc h
    simp only [mergeCellsPass] at h
    cases hdec : areaRefToCoordinates a.Ref with
    | error er =>
      rw [hdec] at h
      simp only [Outcome.returned.injEq] at h
      constructor
      · intro he
        rw [he] at h
        cases h.1
      · intro hall
        obtain ⟨c, hc⟩ := hall a (by simp)
        rw [hdec] at hc
        cases hc
    | ok c =>
      rw [hdec] at h
      simp only at h
      have step : ∀ (done1 : List xlsxMergeCell) (count1 : Int),
          mergeCellsPass dir num offset done1 todo count1 = .returned e mc →
          (e = none ↔ ∀ m ∈ a :: todo, ∃ c, areaRefToCoordinates m.Ref = .ok c) := by
        intro done1 count1 h1
        rw [ih done1 count1 e mc h1]
        constructor
        · intro hall m hm
          rcases List.mem_cons.1 hm with rfl | hm
          · exact ⟨c, hdec⟩
          · exact hall m hm
        · intro hall m hm
          exact hall m (by simp [hm])
      split_ifs at h with h1 h2 h3 h4
      · exact step _ _ h
      · exact step _ _ h
      · exact step _ _ h
      · exact step _ _ h

theorem mergeCellsPass_ne_panicked (dir : adjustDirection) (num offset : Int)
    (todo : List xlsxMergeCell) :
    ∀ (done : List xlsxMergeCell) (count : Int),
      (∀ m ∈ todo, ∀ c, areaRefToCoordinates m.Ref = .ok c →
        ¬ (onEditLine dir num offset c ∧ isSingleCell c)) →
      mergeCellsPass dir num offset done todo count ≠ .panicked := by
  induction todo with
  | nil =>
    intro done count _
    simp [mergeCellsPass]
  | cons a todo ih =>
    intro done count h
    have h2 : ∀ m ∈ todo, ∀ c, areaRefToCoordinates m.Ref = .ok c →
        ¬ (onEditLine dir num offset c ∧ isSingleCell c) := fun m hm => h m (by simp [hm])
    simp only [mergeCellsPass]
    cases hdec : areaRefToCoordinates a.Ref with
    | error er => simp
    | ok c =>
      have hns := h a (by simp) c hdec
      simp only
      by_cases h1 : onEditLine dir num offset c
      · have hs : ¬ isSingleCell (shiftRange dir num offset c) :=
          fun hs => hns ⟨h1, isSingleCell_of_line_and_shift dir num offset c h1 hs⟩
        simp only [h1, hs, if_true, if_false]
        exact ih done _ h2
      · by_cases hs : isSingleCell (shiftRange dir num offset c)
        · simp only [h1, hs, if_true, if_false]
          exact ih done _ h2
        · simp only [h1, hs, if_false]
          exact ih _ count h2

theorem adjustMergeCells_error_iff (ws ws1 : xlsxWorksheet) (dir : adjustDirection)
    (num offset : Int) (e : Option Error)
    (h : adjustMergeCells ws dir num offset = .returned e ws1) :
    (e = none ↔ ∀ mc, ws.MergeCells = some mc →
      ∀ m ∈ mc.Cells, ∃ c, areaRefToCoordinates m.Ref = .ok c) := by
  cases hws : ws.MergeCells with
  | none =>
    simp only [adjustMergeCells, hws, Outcome.returned.injEq] at h
    simp [h.1.symm]
  | some mc =>
    rw [adjustMergeCells_eq_pass ws dir num offset mc hws] at h
    cases hp : mergeCellsPass dir num offset [] mc.Cells mc.Count with
    | outOfFuel => rw [hp] at h; cases h
    | panicked => rw [hp] at h; cases h
    | returned e1 mc1 =>
      rw [hp] at h
      simp only [Outcome.returned.injEq] at h
      obtain ⟨rfl, _⟩ := h
      rw [mergeCellsPass_error_iff dir num offset mc.Cells [] mc.Count e1 mc1 hp]
      constructor
      · intro hall mc2 hmc2
        simp only [Option.some.injEq] at hmc2
        subst hmc2
        exact hall
      · intro hall
        exact hall mc rfl

theorem adjustMergeCells_ne_panicked (ws : xlsxWorksheet) (dir : adjustDirection)
    (num offset : Int)
    (h : ∀ mc, ws.MergeCells = some mc → ∀ m ∈ mc.Cells,
      ∀ c, areaRefToCoordinates m.Ref = .ok c →
        ¬ (onEditLine dir num offset c ∧ isSingleCell c)) :
    adjustMergeCells ws dir num offset ≠ .panicked := by
  cases hws : ws.MergeCells with
  | none => simp [adjustMergeCells, hws]
  | some mc =>
    rw [adjustMergeCells_eq_pass ws dir num offset mc hws]
    have := mergeCellsPass_ne_panicked dir num offset mc.Cells [] mc.Count (h mc hws)
    cases hp : mergeCellsPass dir num offset [] mc.Cells mc.Count with
    | outOfFuel => simp
    | panicked => exact absurd hp this
    | returned e mc1 => simp

theorem adjustMergeCells_returned_of_ne_panicked (ws : xlsxWorksheet) (dir : adjustDirection)
    (num offset : Int) (h : adjustMergeCells ws dir num offset ≠ .panicked) :
    ∃ e ws1, adjustMergeCells ws dir num offset = .returned e ws1 := by
  have hf := adjustMergeCells_ne_outOfFuel ws dir num offset
  cases hm : adjustMergeCells ws dir num offset with
  | outOfFuel => exact absurd hm hf
  | panicked => exact absurd hm h
  | returned e ws1 => exact ⟨e, ws1, rfl⟩

theorem adjustAutoFilter_ok_of_good (ws : xlsxWorksheet) (dir : adjustDirection)
    (num offset : Int)
    (h : ∀ af, ws.AutoFilter = some af → ∃ c, areaRefToCoordinates af.Ref = .ok c ∧
      (filterRemoved dir num offset c ∨ filterShiftInSheet dir num offset c)) :
    (adjustAutoFilter ws dir num offset).1 = none := by
  cases haf : ws.AutoFilter with
  | none => simp [adjustAutoFilter, haf]
  | some af =>
    obtain ⟨c, hdec, hgood⟩ := h af haf
    have hpos := areaRefToCoordinates_pos af.Ref c.1 c.2.1 c.2.2.1 c.2.2.2 hdec
    by_cases hrem : filterRemoved dir num offset c
    · obtain ⟨x1, y1, x2, y2⟩ := c
      simp only [filterRemoved] at hrem
      simp only [adjustAutoFilter, haf, hdec, hrem, if_true]
    · have hin : filterShiftInSheet dir num offset c := by
        rcases hgood with h1 | h1
        · exact absurd h1 hrem
        · exact h1
      have hp := adjustAutoFilterHelper_pos dir num offset c hpos hin
      have henc := coordinatesToAreaRef_ok _ _ _ _ hp.1 hp.2.1 hp.2.2.1 hp.2.2.2
      obtain ⟨x1, y1, x2, y2⟩ := c
      simp only [filterRemoved] at hrem
      simp only [adjustAutoFilter, haf, hdec, hrem, if_false, henc]

theorem adjustMergeCells_panicked_congr (ws ws0 : xlsxWorksheet) (dir : adjustDirection)
    (num offset : Int) (hsame : ws0.MergeCells = ws.MergeCells)
    (h : adjustMergeCells ws dir num offset = .panicked) :
    adjustMergeCells ws0 dir num offset = .panicked := by
  cases hws : ws.MergeCells with
  | none => simp [adjustMergeCells, hws] at h
  | some mc =>
    rw [adjustMergeCells_eq_pass ws dir num offset mc hws] at h
    rw [adjustMergeCells_eq_pass ws0 dir num offset mc (hsame.trans hws)]
    cases hp : mergeCellsPass dir num offset [] mc.Cells mc.Count with
    | outOfFuel => rw [hp] at h; cases h
    | panicked => rfl
    | returned e mc1 => rw [hp] at h; cases h

/-- C17, as stated, fails: a cell reference `??` that does not decode, a
hyperlink anchor `??` that does not decode and a hyperlink anchor whose new
row does not encode are all passed over: `adjustHelper` returns without
error, and leaves an empty cell reference, the anchor `??` and an empty
anchor behind. -/
theorem adjustHelper_drops_cell_and_anchor_errors :
    CellNameToCoordinates "??" = .error .InvalidReference ∧
    adjustHelper (.ok ⟨[⟨1, false, [⟨"??", "v"⟩]⟩], none, none, none⟩) id ⟨none, []⟩
        "Sheet1" 1 .rows 1 1
      = .returned none (some ⟨[⟨2, false, [⟨"", "v"⟩]⟩], none, none, none⟩, ⟨none, []⟩) ∧
    adjustHelper (.ok ⟨[], some [⟨"??", "rId1"⟩], none, none⟩) id ⟨none, []⟩
        "Sheet1" 1 .rows 1 1
      = .returned none (some ⟨[], some [⟨"??", "rId1"⟩], none, none⟩, ⟨none, []⟩) ∧
    adjustHelper (.ok ⟨[], some [⟨"??", "rId1"⟩], none, none⟩) id ⟨none, []⟩
        "Sheet1" 1 .columns 1 (-1)
      = .returned none (some ⟨[], some [⟨"??", "rId1"⟩], none, none⟩, ⟨none, []⟩) ∧
    CoordinatesToCellName 1 (2 + -3) = .error .InvalidCoordinate ∧
    adjustHelper (.ok ⟨[], some [⟨"A2", "rId1"⟩], none, none⟩) id ⟨none, []⟩
        "Sheet1" 1 .rows 1 (-3)
      = .returned none (some ⟨[], some [⟨"", "rId1"⟩], none, none⟩, ⟨none, []⟩) := by
  decide

/-- C17, amended: `adjustHelper` returns the reader's error when the worksheet
cannot be read. When the merge stage does not panic, `adjustHelper` returns,
and it returns an error exactly when a merge range, the auto-filter range or
an edited-sheet calc-chain entry fails to decode, or a bound of a kept
auto-filter is moved below 1 and so fails to encode (`rangeFailure`): whatever
the cell references and hyperlink anchors are, they never make it fail. When
the merge stage panics, so does `adjustHelper`. The merge stage's outcome
depends on the merge ranges only, so it is stated on the sheet as read; it
does not panic when no decodable merge range is a single cell on the line of
the edit. -/
theorem adjustHelper_reports_range_errors (checks : xlsxWorksheet → xlsxWorksheet)
    (ws : xlsxWorksheet) (f : File) (sheet : String) (sheetID : Int)
    (dir : adjustDirection) (num offset : Int) :
    (∀ e, adjustHelper (.error e) checks f sheet sheetID dir num offset
      = .returned (some e) (none, f)) ∧
    (adjustMergeCells ws dir num offset ≠ .panicked →
      (rangeFailure ws f sheetID dir num offset →
        ∃ e st, adjustHelper (.ok ws) checks f sheet sheetID dir num offset
          = .returned (some e) st) ∧
      (¬ rangeFailure ws f sheetID dir num offset →
        ∃ st, adjustHelper (.ok ws) checks f sheet sheetID dir num offset
          = .returned none st)) ∧
    (adjustMergeCells ws dir num offset = .panicked →
      adjustHelper (.ok ws) checks f sheet sheetID dir num offset = .panicked) ∧
    ((∀ mc, ws.MergeCells = some mc → ∀ m ∈ mc.Cells,
        ∀ c, areaRefToCoordinates m.Ref = .ok c →
          ¬ (onEditLine dir num offset c ∧ isSingleCell c)) →
      adjustMergeCells ws dir num offset ≠ .panicked) := by
  obtain ⟨ws2, f2, hh, _, hmc, hfil, hcc⟩ :=
    adjustHyperlinks_returns (adjustDimensions ws dir num offset) f sheet dir num offset
  obtain ⟨_, d2, d3, _⟩ := adjustDimensions_fields ws dir num offset
  simp only [adjustDimensions] at hh
  have hmc2 : ws2.MergeCells = ws.MergeCells := hmc.trans d2
  have hfil2 : ws2.AutoFilter = ws.AutoFilter := hfil.trans d3
  refine ⟨fun e => rfl, ?_, ?_, adjustMergeCells_ne_panicked ws dir num offset⟩
  · intro hnp
    obtain ⟨em, wsm, hm0⟩ := adjustMergeCells_returned_of_ne_panicked ws dir num offset hnp
    have hm := adjustMergeCells_frame ws ws2 wsm dir num offset em hm0 hmc2
    have hiff := adjustMergeCells_error_iff ws wsm dir num offset em hm0
    have hfil3 : ({ ws2 with MergeCells := wsm.MergeCells } : xlsxWorksheet).AutoFilter
        = ws.AutoFilter := hfil2
    constructor
    · intro hbad
      simp only [rangeFailure] at hbad
      cases em with
      | some e =>
        exact ⟨e, (some { ws2 with MergeCells := wsm.MergeCells }, f2),
          by simp only [adjustHelper, adjustHelperStages, hh, hm]⟩
      | none =>
        have hall := hiff.1 rfl
        have hnomerge : ¬ ∃ mc m, ws.MergeCells = some mc ∧ m ∈ mc.Cells ∧
            ∃ er, areaRefToCoordinates m.Ref = .error er := by
          rintro ⟨mc, m, hws, hmem, er, her⟩
          obtain ⟨c, hc⟩ := hall mc hws m hmem
          rw [hc] at her
          cases her
        rcases hfl : adjustAutoFilter { ws2 with MergeCells := wsm.MergeCells } dir num offset
          with ⟨_ | e, ws4⟩
        · have hnofilter : ¬ ∃ af, ws.AutoFilter = some af ∧
              ((∃ er, areaRefToCoordinates af.Ref = .error er) ∨
                (∃ c, areaRefToCoordinates af.Ref = .ok c ∧
                  ¬ filterRemoved dir num offset c ∧
                  ¬ filterShiftInSheet dir num offset c)) := by
            rintro ⟨af, haf, hb⟩
            have := adjustAutoFilter_error_of_bad { ws2 with MergeCells := wsm.MergeCells }
              dir num offset af (by rw [hfil3]; exact haf) hb
            rw [hfl] at this
            exact this rfl
          obtain ⟨cs, c, hcs, hc, hid, her⟩ : ∃ cs c, f.CalcChain = some cs ∧ c ∈ cs ∧
              c.I = sheetID ∧ ∃ er, CellNameToCoordinates c.R = .error er := by
            rcases hbad with h | h | h
            · exact absurd h hnomerge
            · exact absurd h hnofilter
            · exact h
          have hcs2 : f2.CalcChain = some cs := by rw [hcc]; exact hcs
          have hne := adjustCalcChainLoop_error_of_bad dir num offset sheetID cs
            ⟨c, hc, hid, her⟩
          cases hl : (adjustCalcChainLoop dir num offset sheetID cs).1 with
          | none => exact absurd hl hne
          | some e =>
            refine ⟨e, (some ws4,
              ⟨some (adjustCalcChainLoop dir num offset sheetID cs).2,
                f2.DeletedRelationships⟩), ?_⟩
            simp only [adjustHelper, adjustHelperStages, hh, hm, hfl, adjustCalcChain, hcs2, hl]
        · exact ⟨e, (some ws4, f2),
            by simp only [adjustHelper, adjustHelperStages, hh, hm, hfl]⟩
    · intro hgood
      simp only [rangeFailure, not_or] at hgood
      obtain ⟨g1, g2, g3⟩ := hgood
      have hem : em = none := by
        apply hiff.2
        intro mc hws m hmem
        cases hd : areaRefToCoordinates m.Ref with
        | ok c => exact ⟨c, rfl⟩
        | error er => exact absurd ⟨mc, m, hws, hmem, er, hd⟩ g1
      subst hem
      have hfok := adjustAutoFilter_ok_of_good { ws2 with MergeCells := wsm.MergeCells }
        dir num offset (by
          intro af haf
          rw [hfil3] at haf
          cases hd : areaRefToCoordinates af.Ref with
          | error er => exact absurd ⟨af, haf, Or.inl ⟨er, hd⟩⟩ g2
          | ok c =>
            refine ⟨c, rfl, ?_⟩
            by_cases hr : filterRemoved dir num offset c
            · exact Or.inl hr
            · by_cases hs : filterShiftInSheet dir num offset c
              · exact Or.inr hs
              · exact absurd ⟨af, haf, Or.inr ⟨c, hd, hr, hs⟩⟩ g2)
      have hcalc := adjustCalcChain_all_decode f2 dir num offset sheetID (by
        intro cs hcs c hc hid
        rw [hcc] at hcs
        cases hd : CellNameToCoordinates c.R with
        | ok p => exact ⟨p, rfl⟩
        | error er => exact absurd ⟨cs, c, hcs, hc, hid, er, hd⟩ g3)
      rcases hfl : adjustAutoFilter { ws2 with MergeCells := wsm.MergeCells } dir num offset
        with ⟨_ | e, ws4⟩
      · exact ⟨(some (dropEmptyMergeCells (checks ws4)),
            shiftedFile dir num offset sheetID f2),
          by simp only [adjustHelper, adjustHelperStages, hh, hm, hfl, hcalc]⟩
      · rw [hfl] at hfok
        cases hfok
  · intro hp
    have hp2 := adjustMergeCells_panicked_congr ws ws2 dir num offset hmc2 hp
    simp only [adjustHelper, adjustHelperStages, hh, hp2]

/-- A reader error; a sheet with the single-cell merge range `C5:C5` and a
filter that does not decode, with a row inserted at row 5: an error is
returned; a sheet whose cell reference and hyperlink anchor do not decode: no
error is returned; a sheet whose only merge range is the single cell `C5:C5`,
with row 5 deleted: a panic; and a sheet whose merge range `A1:B4` is not a
single cell. -/
theorem adjustHelper_reports_range_errors_witness :
    adjustHelper (.error .ErrParameterInvalid) id ⟨none, []⟩ "Sheet1" 1 .rows 2 1
      = .returned (some .ErrParameterInvalid) (none, ⟨none, []⟩) ∧
    (∃ e st, adjustHelper (.ok ⟨[], none, some ⟨1, [⟨"C5:C5"⟩]⟩, some ⟨"oops"⟩⟩) id
        ⟨none, []⟩ "Sheet1" 1 .rows 5 1 = .returned (some e) st) ∧
    (∃ st, adjustHelper (.ok ⟨[⟨1, false, [⟨"??", "v"⟩]⟩], some [⟨"??", "rId1"⟩],
        some ⟨1, [⟨"A1:B4"⟩]⟩, some ⟨"A2:C10"⟩⟩) id
        ⟨some [⟨"A3", 1⟩, ⟨"oops", 2⟩], []⟩ "Sheet1" 1 .rows 2 1 = .returned none st) ∧
    adjustHelper (.ok ⟨[], none, some ⟨1, [⟨"C5:C5"⟩]⟩, none⟩) id ⟨none, []⟩ "Sheet1" 1
        .rows 5 (-1) = .panicked ∧
    adjustMergeCells ⟨[], none, some ⟨1, [⟨"A1:B4"⟩]⟩, none⟩ .rows 2 1 ≠ .panicked :=
  ⟨(adjustHelper_reports_range_errors id ⟨[], none, none, none⟩ ⟨none, []⟩ "Sheet1" 1
      .rows 2 1).1 .ErrParameterInvalid,
   ((adjustHelper_reports_range_errors id ⟨[], none, some ⟨1, [⟨"C5:C5"⟩]⟩, some ⟨"oops"⟩⟩
      ⟨none, []⟩ "Sheet1" 1 .rows 5 1).2.1 (by decide)).1
    (Or.inr (Or.inl ⟨⟨"oops"⟩, rfl, Or.inl ⟨.ErrParameterInvalid, by decide⟩⟩)),
   ((adjustHelper_reports_range_errors id ⟨[⟨1, false, [⟨"??", "v"⟩]⟩],
      some [⟨"??", "rId1"⟩], some ⟨1, [⟨"A1:B4"⟩]⟩, some ⟨"A2:C10"⟩⟩
      ⟨some [⟨"A3", 1⟩, ⟨"oops", 2⟩], []⟩ "Sheet1" 1 .rows 2 1).2.1 (by decide)).2
    (by
      rintro (⟨mc, m, hmc, hm, er, her⟩ | ⟨af, haf, hb⟩ | ⟨cs, c, hcs, hc, hid, er, her⟩)
      · simp only [Option.some.injEq] at hmc
        subst hmc
        simp only [List.mem_singleton] at hm
        subst hm
        have hd : areaRefToCoordinates "A1:B4" = .ok (1, 1, 2, 4) := by decide
        rw [hd] at her
        cases her
      · simp only [Option.some.injEq] at haf
        subst haf
        have hd : areaRefToCoordinates "A2:C10" = .ok (1, 2, 3, 10) := by decide
        rcases hb with ⟨er, her⟩ | ⟨c, hc, _, hs⟩
        · rw [hd] at her
          cases her
        · rw [hd] at hc
          simp only [Except.ok.injEq] at hc
          subst hc
          exact hs (by decide)
      · simp only [Option.some.injEq] at hcs
        subst hcs
        simp only [List.mem_cons, List.mem_singleton, List.not_mem_nil, or_false] at hc
        rcases hc with rfl | rfl
        · have hd : CellNameToCoordinates "A3" = .ok (1, 3) := by decide
          rw [hd] at her
          cases her
        · simp at hid),
   (adjustHelper_reports_range_errors id ⟨[], none, some ⟨1, [⟨"C5:C5"⟩]⟩, none⟩ ⟨none, []⟩
      "Sheet1" 1 .rows 5 (-1)).2.2.1 (by decide),
   (adjustHelper_reports_range_errors id ⟨[], none, some ⟨1, [⟨"A1:B4"⟩]⟩, none⟩ ⟨none, []⟩
      "Sheet1" 1 .rows 2 1).2.2.2
    (by
      intro mc hmc m hm c hc
      simp only [Option.some.injEq] at hmc
      subst hmc
      simp only [List.mem_singleton] at hm
      subst hm
      have hd : areaRefToCoordinates "A1:B4" = .ok (1, 1, 2, 4) := by decide
      rw [hd] at hc
      simp only [Except.ok.injEq] at hc
      subst hc
      decide)⟩

end Excelize
